import Mathlib

/-!
# FS3 file system driver: sector cache, wire codec and driver

A shallow embedding of `fs3_cache.c` and `fs3_driver.c`.

* C globals become fields of explicit state records that every operation
  takes and returns.
* `int16_t`/`int8_t`/`uint64_t` values are `Int`/`Nat` with explicit
  wrap-around where the source converts between widths.  The `int32_t`
  counters of the cache (`nextAccess`, `cacheGets`, ...) are incremented
  without a conversion: signed overflow is undefined in C.  The theorems on
  these counters carry a bound on the number of cache operations that keeps
  them below `INT32_MAX`.
* Memory outside an object is not modelled.  Where the source can write or
  read there (a path longer than a name field, a store at index -1, a buffer
  of negative size) the definition says so, and the theorems carry the
  hypothesis that keeps the call inside the object.
* C arrays indexed by a table index or by (track, sector) are functions from
  the index; the heap array of cache lines is a `List`.
* A byte buffer is a `List Nat`.
-/

namespace FS3

/-! ## Constants and integer conversions -/

/-- Modelled from the spec: `FS3_SECTOR_SIZE` of `fs3_controller.h`, which is
not among the sources.  The spec fixes SECTOR_SIZE = 1024, and
`fs3_network.c` sends frames of `ALL_BYTES_SIZE = 1032 = 8 + 1024` bytes. -/
def FS3_SECTOR_SIZE : Nat := 1024

/-- The `MAX_FILE_SIZE` define of `fs3_driver.c`. -/
def MAX_FILE_SIZE : Nat := 10000000

/-- The `FS3_MAX_TOTAL_FILES` define of `fs3_driver.h` (also `MAX_FILES`). -/
def FS3_MAX_TOTAL_FILES : Nat := 1024

/-- Conversion of an integer to `int16_t` (reduction modulo 2^16 into
[-2^15, 2^15), what gcc and clang do for an out-of-range value). -/
def toInt16 (x : Int) : Int := (x + 2 ^ 15) % 2 ^ 16 - 2 ^ 15

/-- Conversion of an integer to `int8_t` (reduction modulo 2^8 into
[-2^7, 2^7)).  The driver converts a `double` holding a whole number; for a
value outside the range of `int8_t` C leaves the result open, and gcc and
clang on x86-64 convert through a 32-bit integer and keep the low byte. -/
def toInt8 (x : Int) : Int := (x + 2 ^ 7) % 2 ^ 8 - 2 ^ 7

/-- The value of `ceil((double)x / (double)1024)` for a non-negative integer
`x` below 2^53 (the division by a power of two is exact in a double). -/
def ceilDiv1024 (x : Nat) : Nat := (x + 1023) / 1024

/-- The effect of `memcpy(dst, buf, FS3_SECTOR_SIZE)` on the destination:
the first `FS3_SECTOR_SIZE` bytes of `buf`. -/
def sectorOf (buf : List Nat) : List Nat := buf.take FS3_SECTOR_SIZE

/-! ## Wire protocol codec (`fs3_driver.c`) -/

/-- `construct_fs3_cmdblock`: every field is cast to the 64-bit `FS3CmdBlk`,
shifted left inside 64 bits, and the four words are or-ed together. -/
def construct_fs3_cmdblock (op sec trk ret : Nat) : Nat :=
  let tmpop := (op <<< 60) % 2 ^ 64
  let tmpsec := (sec <<< 44) % 2 ^ 64
  let tmptrk := (trk <<< 12) % 2 ^ 64
  let tmpret := (ret <<< 11) % 2 ^ 64
  tmpop ||| tmpsec ||| tmptrk ||| tmpret

/-- `deconstruct_fs3_cmdblock`: the values stored through the four pointers,
in the order (op, sec, trk, ret).  `op` and `ret` are `uint8_t`, `sec` is
`uint16_t` and `trk` is `uint_fast32_t` (64 bits wide on LP64 Linux); the
masks are the constants of the source. -/
def deconstruct_fs3_cmdblock (cmdblk : Nat) : Nat × Nat × Nat × Nat :=
  (((cmdblk &&& 0xf000000000000000) >>> 60) % 2 ^ 8,
   ((cmdblk &&& 0x0fff000000000000) >>> 44) % 2 ^ 16,
   ((cmdblk &&& 0x00001fffffffe000) >>> 12) % 2 ^ 64,
   ((cmdblk &&& 0x0000000000000800) >>> 11) % 2 ^ 8)

/-! ## Sector cache (`fs3_cache.c`) -/

/-- One cache line, `struct FS3Cache`: `dataBuf` is `none` for a NULL
pointer. -/
structure FS3Cache where
  csec : Int
  ctrk : Int
  dataBuf : Option (List Nat)
  lastAccess : Int
deriving DecidableEq, Repr

/-- The globals of `fs3_cache.c`: `cache` is `none` for NULL, otherwise the
heap array of lines. -/
structure CacheState where
  cache : Option (List FS3Cache)
  cacheSize : Int
  cacheItems : Int
  nextAccess : Int
  cacheGets : Int
  cacheInserts : Int
  cacheMisses : Int
  cacheHits : Int
deriving DecidableEq, Repr

/-- The initial values of the globals at process start. -/
def cacheStart : CacheState :=
  { cache := none, cacheSize := -1, cacheItems := 0, nextAccess := 0,
    cacheGets := 0, cacheInserts := 0, cacheMisses := 0, cacheHits := 0 }

/-- The line written by the initialisation loop of `fs3_init_cache`. -/
def emptyLine : FS3Cache :=
  { csec := -1, ctrk := -1, dataBuf := none, lastAccess := -1 }

/-- The test `(cache + i)->ctrk == trk && (cache + i)->csec == sct`.  The
arguments are unsigned indices; the stored `int16_t` fields are compared with
them by value, which is what C does for every argument below 2^15. -/
def lineMatches (trk sct : Nat) (l : FS3Cache) : Bool :=
  decide (l.ctrk = (trk : Int)) && decide (l.csec = (sct : Int))

/-- The test `(cache + i)->lastAccess == -1` of the fill loop. -/
def lineUnused (l : FS3Cache) : Bool := decide (l.lastAccess = -1)

/-- A scan `for (i = start; i < start + n; i++) if (p(cache[i])) return i`
over the lines from `start` on: the first index whose line satisfies `p`. -/
def scanLines (p : FS3Cache → Bool) : List FS3Cache → Nat → Nat → Option Nat
  | [], _, _ => none
  | _ :: _, 0, _ => none
  | l :: ls, n + 1, i => if p l then some i else scanLines p ls n (i + 1)

/-- The loop of `fs3_lru_idx` from index `i` on, with `n` iterations left and
the running values of `smallestAccess` and `LRUidx`. -/
def lruLoop : List FS3Cache → Nat → Nat → Int → Int → Int
  | [], _, _, _, idx => idx
  | _ :: _, 0, _, _, idx => idx
  | l :: ls, n + 1, i, smallest, idx =>
    if l.lastAccess < smallest then lruLoop ls n (i + 1) l.lastAccess (i : Int)
    else lruLoop ls n (i + 1) smallest idx

/-- `fs3_lru_idx(cachelines)` on the lines of the cache: -1 when no line has
a stamp below `nextAccess`. -/
def fs3_lru_idx (lines : List FS3Cache) (nextAccess : Int) (cachelines : Int) : Int :=
  toInt16 (lruLoop lines cachelines.toNat 0 nextAccess (-1))

/-- `fs3_init_cache(cachelines)` for a `uint16_t` argument; the pair is the
new globals and the return value.  `cacheSize` is an `int16_t`, so the
assignment `cacheSize = cachelines` converts.  (A failing `malloc` is not
modelled.) -/
def fs3_init_cache (st : CacheState) (cachelines : Nat) : CacheState × Int :=
  if st.cache.isSome || decide (st.cacheSize ≠ -1) then (st, -1)
  else if cachelines = 0 then (st, -1)
  else
    ({ st with cache := some (List.replicate cachelines emptyLine),
               cacheSize := toInt16 cachelines }, 0)

/-- `fs3_close_cache()`: the lines are released with the array, `cacheSize`
and `cacheItems` are reset; the other counters are not touched. -/
def fs3_close_cache (st : CacheState) : CacheState × Int :=
  if st.cache.isNone || decide (st.cacheSize = -1) then (st, -1)
  else ({ st with cache := none, cacheSize := -1, cacheItems := 0 }, 0)

/-- The overwrite of a line found by the first loop of `fs3_put_cache`:
`memcpy` into the line's existing buffer (nothing is allocated here, a NULL
buffer stays NULL) and restamp. -/
def overwriteLine (buf : List Nat) (stamp : Int) (l : FS3Cache) : FS3Cache :=
  { l with dataBuf := l.dataBuf.map (fun _ => sectorOf buf), lastAccess := stamp }

/-- The fill of an unused line by the second loop of `fs3_put_cache`: address,
stamp, a freshly allocated buffer and the copy into it. -/
def fillLine (trk sct : Nat) (buf : List Nat) (stamp : Int) (l : FS3Cache) : FS3Cache :=
  { l with csec := toInt16 sct, ctrk := toInt16 trk, lastAccess := stamp,
           dataBuf := some (sectorOf buf) }

/-- The replacement of the least recently used line at the end of
`fs3_put_cache`: address and stamp are set and the payload is copied into the
line's existing buffer. -/
def evictLine (trk sct : Nat) (buf : List Nat) (stamp : Int) (l : FS3Cache) : FS3Cache :=
  { l with ctrk := toInt16 trk, csec := toInt16 sct, lastAccess := stamp,
           dataBuf := l.dataBuf.map (fun _ => sectorOf buf) }

/-- `fs3_put_cache(trk, sct, buf)`; the pair is the new globals and the
return value (0 inserted, -1 not inserted).  The clock `nextAccess` and the
counter `cacheInserts` are `int32_t`; they are incremented here without a
conversion, so this is the C function while both are below `INT32_MAX`. -/
def fs3_put_cache (st : CacheState) (trk sct : Nat) (buf : List Nat) : CacheState × Int :=
  match st.cache with
  | none => (st, -1)
  | some lines =>
    match scanLines (lineMatches trk sct) lines st.cacheSize.toNat 0 with
    | some i =>
      ({ st with cache := some (lines.modify (overwriteLine buf st.nextAccess) i),
                 nextAccess := st.nextAccess + 1,
                 cacheInserts := st.cacheInserts + 1 }, 0)
    | none =>
      match scanLines lineUnused lines st.cacheSize.toNat 0 with
      | some i =>
        ({ st with cache := some (lines.modify (fillLine trk sct buf st.nextAccess) i),
                   nextAccess := st.nextAccess + 1,
                   cacheItems := toInt16 (st.cacheItems + 1),
                   cacheInserts := st.cacheInserts + 1 }, 0)
      | none =>
        let LRUidx := fs3_lru_idx lines st.nextAccess st.cacheSize
        if LRUidx = -1 then (st, -1)
        else
          ({ st with cache := some (lines.modify (evictLine trk sct buf st.nextAccess) LRUidx.toNat),
                     nextAccess := st.nextAccess + 1,
                     cacheInserts := st.cacheInserts + 1 }, 0)

/-- `fs3_get_cache(trk, sct)`; the pair is the new globals and the returned
pointer: `none` for NULL, otherwise the content of the line's buffer.  The
clock `nextAccess` and the counters `cacheGets`, `cacheHits` and
`cacheMisses` are `int32_t`; they are incremented here without a conversion,
so this is the C function while they are below `INT32_MAX`. -/
def fs3_get_cache (st : CacheState) (trk sct : Nat) : CacheState × Option (List Nat) :=
  let st1 := { st with cacheGets := st.cacheGets + 1 }
  match st1.cache with
  | none => (st1, none)
  | some lines =>
    match scanLines (lineMatches trk sct) lines st1.cacheSize.toNat 0 with
    | some i =>
      ({ st1 with cache := some (lines.modify (fun l => { l with lastAccess := st1.nextAccess }) i),
                  nextAccess := st1.nextAccess + 1,
                  cacheHits := st1.cacheHits + 1 },
       (lines.get? i).bind (fun l => l.dataBuf))
    | none => ({ st1 with cacheMisses := st1.cacheMisses + 1 }, none)

/-- The operations on the cache a client can issue. -/
inductive CacheOp where
  | init (cachelines : Nat)
  | close
  | put (trk sct : Nat) (buf : List Nat)
  | get (trk sct : Nat)
deriving DecidableEq, Repr

/-- The globals after one cache operation (`init` takes a `uint16_t`). -/
def CacheOp.run (st : CacheState) : CacheOp → CacheState
  | .init c => (fs3_init_cache st (c % 2 ^ 16)).1
  | .close => (fs3_close_cache st).1
  | .put trk sct buf => (fs3_put_cache st trk sct buf).1
  | .get trk sct => (fs3_get_cache st trk sct).1

/-- The globals after a sequence of cache operations. -/
def runCache (st : CacheState) (ops : List CacheOp) : CacheState :=
  ops.foldl CacheOp.run st

/-- A state of the cache globals the program can be in: the one at process
start followed by any sequence of cache operations. -/
def CacheReachable (st : CacheState) : Prop :=
  ∃ ops : List CacheOp, runCache cacheStart ops = st

/-- Whether the address (track, sector) is held by one of the lines that the
scans of `fs3_put_cache` and `fs3_get_cache` look at. -/
def isCached (st : CacheState) (trk sct : Nat) : Bool :=
  match st.cache with
  | none => false
  | some lines => (scanLines (lineMatches trk sct) lines st.cacheSize.toNat 0).isSome

/-- The line that `fs3_put_cache` leaves behind when it fills or replaces a
line with the address (trk, sct) and the payload `buf` at clock value
`stamp`. -/
def newLine (trk sct : Nat) (buf : List Nat) (stamp : Int) : FS3Cache :=
  { csec := toInt16 sct, ctrk := toInt16 trk, dataBuf := some (sectorOf buf),
    lastAccess := stamp }

/-- The address stored in a line. -/
def lineAddr (l : FS3Cache) : Int × Int := (l.ctrk, l.csec)

/-- What every line of a reachable cache satisfies at clock value `clock`:
its stamp is below the clock, and it is either still as initialised or has a
non-negative stamp and a buffer. -/
def LineOk (clock : Int) (l : FS3Cache) : Prop :=
  l.lastAccess < clock ∧ (l = emptyLine ∨ (0 ≤ l.lastAccess ∧ l.dataBuf.isSome = true))

/-- The invariant of the cache globals: the clock is not negative, and an
allocated cache has at least one line, every line is `LineOk`, and
`cacheSize` is either the number of lines (below 2^15) or negative, in which
case no line has ever been used. -/
def CacheInv (st : CacheState) : Prop :=
  0 ≤ st.nextAccess ∧
  ∀ lines, st.cache = some lines →
    0 < lines.length ∧ (∀ l ∈ lines, LineOk st.nextAccess l) ∧
    ((st.cacheSize = (lines.length : Int) ∧ lines.length < 2 ^ 15) ∨
     (st.cacheSize < 0 ∧ ∀ l ∈ lines, l = emptyLine))

/-- The number of lines that have been used (stamp other than the sentinel). -/
def usedLines (lines : List FS3Cache) : Nat := lines.countP (fun l => !lineUnused l)

/-- The invariant of the item counter: 0 without a cache, otherwise the
number of used lines. -/
def ItemsInv (st : CacheState) : Prop :=
  (st.cache = none → st.cacheItems = 0) ∧
  ∀ lines, st.cache = some lines → st.cacheItems = (usedLines lines : Int)

/-- The largest value of an `int32_t`, the type of the clock `nextAccess` and of the
statistics counters `cacheGets`, `cacheInserts`, `cacheMisses` and `cacheHits`. -/
def INT32_MAX : Int := 2 ^ 31 - 1

/-- Whether the clock and the four statistics counters all lie between 0 and `bound`.
The model keeps these `int32_t` globals as integers and increments them without a
conversion; the increments are those of the C code as long as no value exceeds
`INT32_MAX`. -/
def countersWithin (bound : Int) (st : CacheState) : Bool :=
  decide (0 ≤ st.nextAccess ∧ st.nextAccess ≤ bound) &&
  decide (0 ≤ st.cacheGets ∧ st.cacheGets ≤ bound) &&
  decide (0 ≤ st.cacheInserts ∧ st.cacheInserts ≤ bound) &&
  decide (0 ≤ st.cacheMisses ∧ st.cacheMisses ≤ bound) &&
  decide (0 ≤ st.cacheHits ∧ st.cacheHits ≤ bound)

/-! ## Driver (`fs3_driver.c`): data -/

/-- The disk geometry, the defines `FS3_MAX_TRACKS` and `FS3_TRACK_SIZE` of
`fs3_controller.h`.  That header is not among the sources and the spec gives
no values, so the geometry is a parameter of every function that loops over
the disk. -/
structure Geometry where
  FS3_MAX_TRACKS : Nat
  FS3_TRACK_SIZE : Nat
deriving DecidableEq, Repr

/-- Modelled from the spec: the opcode enumeration of `fs3_controller.h`
(mount, seek-track, read-sector, write-sector, unmount).  The spec names the
five operations without numbering them; the driver only needs them to be
distinct and below 16. -/
def FS3_OP_MOUNT : Nat := 0

/-- Modelled from the spec: the seek-track opcode, see `FS3_OP_MOUNT`. -/
def FS3_OP_TSEEK : Nat := 1

/-- Modelled from the spec: the read-sector opcode, see `FS3_OP_MOUNT`. -/
def FS3_OP_RDSECT : Nat := 2

/-- Modelled from the spec: the write-sector opcode, see `FS3_OP_MOUNT`. -/
def FS3_OP_WRSECT : Nat := 3

/-- Modelled from the spec: the unmount opcode, see `FS3_OP_MOUNT`. -/
def FS3_OP_UMOUNT : Nat := 4

/-- A permanent file record, `struct FS3File`.  `floc[trk][sec]` is
`floc trk sec`; `fstate` is the empty string in a zeroed record. -/
structure FS3File where
  fname : String
  flength : Int
  floc : Nat → Nat → Nat
  fstate : String
  numsec : Int

/-- An open file record, `struct FS3OpenFile`. -/
structure FS3OpenFile where
  ofname : String
  oflength : Int
  ofhandle : Int
  ofpos : Nat
  ofloc : Nat → Nat → Nat
  numsec : Int

/-- A zeroed `FS3File` (static storage, or after `memset`). -/
def zeroFile : FS3File :=
  { fname := "", flength := 0, floc := fun _ _ => 0, fstate := "", numsec := 0 }

/-- A zeroed `FS3OpenFile` (static storage, or after `memset`). -/
def zeroOpenFile : FS3OpenFile :=
  { ofname := "", oflength := 0, ofhandle := 0, ofpos := 0, ofloc := fun _ _ => 0,
    numsec := 0 }

/-- The transport collaborator `network_fs3_syscall(cmd, &ret, buf)` seen from
the driver: from the state of the other side, the command word and the buffer
passed in, it gives the new state of the other side, the return value
(0 or -1), the word stored in `*ret` and the content of `buf` afterwards. -/
structure Transport (σ : Type) where
  syscall : σ → Nat → List Nat → σ × Int × Nat × List Nat

/-- The globals of `fs3_driver.c`, together with the cache globals and the
state of the other side of the transport. -/
structure DriverState (σ : Type) where
  oftable : Nat → FS3OpenFile
  ftable : Nat → FS3File
  mountState : String
  globalLoc : Nat → Nat → Int
  freeOFile : Nat
  freeFile : Nat
  freeHandle : Int
  curTrk : Int
  cache : CacheState
  ctl : σ

/-- The driver globals at process start, with the given cache globals and
transport state. -/
def driverStart {σ : Type} (cache : CacheState) (ctl : σ) : DriverState σ :=
  { oftable := fun _ => zeroOpenFile, ftable := fun _ => zeroFile,
    mountState := "unmounted", globalLoc := fun _ _ => 0,
    freeOFile := 0, freeFile := 0, freeHandle := 1, curTrk := -1,
    cache := cache, ctl := ctl }

/-- Assignment to one element of a table, `tab[i] = v`. -/
def setEntry {α : Type} (tab : Nat → α) (i : Nat) (v : α) : Nat → α :=
  fun j => if j = i then v else tab j

/-- Assignment `loc[trk][sec] = v` for `int16_t` indices.  An index below
zero addresses memory outside the array, which is not modelled: the array is
left as it is, and the store the C program makes elsewhere is dropped.  In
`fs3_write` that is the case when the first `findFreeLoc` of a call finds no
free address (both indices are still -1) and when an address of 2^15 or more
is kept in the `int16_t` locals; `AllocLoop.inBitmap` is the condition under
which the store is the one modelled here. -/
def setLoc {α : Type} (loc : Nat → Nat → α) (trk sec : Int) (v : α) : Nat → Nat → α :=
  fun t s => if 0 ≤ trk ∧ 0 ≤ sec ∧ (t : Int) = trk ∧ (s : Int) = sec then v else loc t s

/-- The sectors `sec, sec + 1, ...` (`n` of them) of track `trk`, in the
order of the inner `for` loops of the driver. -/
def trackAddrs (trk : Nat) : Nat → Nat → List (Nat × Nat)
  | 0, _ => []
  | n + 1, sec => (trk, sec) :: trackAddrs trk n (sec + 1)

/-- The addresses of the tracks `trk, trk + 1, ...` (`n` of them) in the order
of the nested `for (trk ...) for (sec ...)` loops of the driver. -/
def gridAddrs (g : Geometry) : Nat → Nat → List (Nat × Nat)
  | 0, _ => []
  | n + 1, trk => trackAddrs trk g.FS3_TRACK_SIZE 0 ++ gridAddrs g n (trk + 1)

/-- Every address of the disk in increasing (track, sector) order. -/
def allAddrs (g : Geometry) : List (Nat × Nat) := gridAddrs g g.FS3_MAX_TRACKS 0

/-- The first index `i, i + 1, ...` (`n` candidates) that satisfies `p`: a
`for` loop that leaves at its first hit. -/
def firstIdxFrom (p : Nat → Bool) : Nat → Nat → Option Nat
  | 0, _ => none
  | n + 1, i => if p i then some i else firstIdxFrom p n (i + 1)

/-- A sector-sized buffer after the transport wrote `b` into it: the buffer
is zeroed when allocated and the transport copies a whole sector. -/
def fitSector (b : List Nat) : List Nat :=
  (b ++ List.replicate FS3_SECTOR_SIZE 0).take FS3_SECTOR_SIZE

/-- The effect of `memcpy(&dst[pos], src, n)` on `dst`. -/
def memcpyAt (dst : List Nat) (pos : Nat) (src : List Nat) (n : Nat) : List Nat :=
  dst.take pos ++ src.take n ++ dst.drop (pos + n)

/-! ## Driver (`fs3_driver.c`): helper functions -/

/-- The status `retval` the driver reads from a returned command word with
`deconstruct_fs3_cmdblock`. -/
def retOf (retCmd : Nat) : Nat := (deconstruct_fs3_cmdblock retCmd).2.2.2

/-- `switchTrack(trk)`; the pair is the new globals and the return value.
The parameter and the global `curTrk` are `int16_t`; no conversion is
modelled, so this is the C function for tracks below 2^15. -/
def switchTrack {σ : Type} (net : Transport σ) (st : DriverState σ) (trk : Int) :
    DriverState σ × Int :=
  if trk ≠ st.curTrk then
    let r := net.syscall st.ctl (construct_fs3_cmdblock FS3_OP_TSEEK 0 trk.toNat 0) []
    let st1 := { st with ctl := r.1 }
    if retOf r.2.2.1 ≠ 0 ∨ r.2.1 = -1 then (st1, -1)
    else ({ st1 with curTrk := trk }, 0)
  else (st, 0)

/-- The nested loops of `findFreeLoc` over the addresses still to visit: the
first address whose `globalLoc` entry is 0. -/
def firstFree (globalLoc : Nat → Nat → Int) : List (Nat × Nat) → Option (Nat × Nat)
  | [] => none
  | a :: rest => if globalLoc a.1 a.2 = 0 then some a else firstFree globalLoc rest

/-- `findFreeLoc(&trkidx, &secidx)`: the new `globalLoc`, the return value and
the values of `*trkidx` and `*secidx` afterwards (unchanged on failure). -/
def findFreeLoc (g : Geometry) (globalLoc : Nat → Nat → Int) (trkidx secidx : Int) :
    (Nat → Nat → Int) × Int × Int × Int :=
  match firstFree globalLoc (allAddrs g) with
  | some a => (setLoc globalLoc a.1 a.2 1, 0, toInt16 a.1, toInt16 a.2)
  | none => (globalLoc, -1, trkidx, secidx)

/-- The outer loop of `idxByHandle` from index `i` on (`n` iterations left);
`ofidx` is the value `*ofidx` has so far.  The result is the return value and
the values of `*ofidx` and `*fidx` afterwards, both -1 on entry. -/
def idxByHandleLoop {σ : Type} (st : DriverState σ) (fd : Int) : Nat → Nat → Int → Int × Int × Int
  | 0, _, ofidx => (-1, ofidx, -1)
  | n + 1, i, ofidx =>
    if (st.oftable i).ofhandle = fd then
      match firstIdxFrom (fun j => (st.oftable i).ofname == (st.ftable j).fname)
          FS3_MAX_TOTAL_FILES 0 with
      | some j => (0, toInt16 i, toInt16 j)
      | none => idxByHandleLoop st fd n (i + 1) (toInt16 i)
    else idxByHandleLoop st fd n (i + 1) ofidx

/-- `idxByHandle(fd, &ofidx, &fidx)` called with `ofidx = fidx = -1`: the
return value, `ofidx` and `fidx`. -/
def idxByHandle {σ : Type} (st : DriverState σ) (fd : Int) : Int × Int × Int :=
  idxByHandleLoop st fd FS3_MAX_TOTAL_FILES 0 (-1)

/-! ## Driver: mount, open, close, seek -/

/-- `fs3_mount_disk()`.  The `memset` of `ftable` clears
`sizeof(FS3File) * FS3_MAX_TRACKS` bytes, that is the first `FS3_MAX_TRACKS`
records. -/
def fs3_mount_disk {σ : Type} (g : Geometry) (net : Transport σ) (st : DriverState σ) :
    DriverState σ × Int :=
  if st.mountState = "mounted" then (st, -1)
  else
    let r := net.syscall st.ctl (construct_fs3_cmdblock FS3_OP_MOUNT 0 0 0) []
    let st1 := { st with ctl := r.1 }
    if retOf r.2.2.1 = 0 ∧ r.2.1 = 0 then
      ({ st1 with ftable := fun i => if i < g.FS3_MAX_TRACKS then zeroFile else st1.ftable i,
                  oftable := fun _ => zeroOpenFile,
                  globalLoc := fun _ _ => 0,
                  mountState := "mounted" }, 0)
    else (st1, -1)

/-- The size of the name fields `fname` and `ofname`, `FS3_MAX_PATH_LENGTH` of
`fs3_driver.h`. -/
def FS3_MAX_PATH_LENGTH : Nat := 128

/-- Whether a path fits a name field together with its terminating NUL: it has fewer than
`FS3_MAX_PATH_LENGTH` bytes.  `fs3_open` copies the path with `strcpy` and does not look
at its length; the copy of a path that fits stays inside the field. -/
def pathFits (path : String) : Bool := decide (path.utf8ByteSize < FS3_MAX_PATH_LENGTH)

/-- The part of `fs3_open` after the loop: the two counters move on and the
handle stored in the slot just filled is returned. -/
def openFinish {σ : Type} (st : DriverState σ) : DriverState σ × Int :=
  ({ st with freeOFile := st.freeOFile + 1, freeHandle := st.freeHandle + 1 },
   (st.oftable st.freeOFile).ofhandle)

/-- `fs3_open(path)`: the loop over `ftable` stops at the first record whose
name is `path` (failure if it is "opened", else the existing file is opened);
when no record has that name a new file is created.  The C function copies
the path with `strcpy` into the fields `fname` and `ofname` of
`FS3_MAX_PATH_LENGTH` bytes and does not look at its length; here the name is
stored whole.  This is the C function for paths with `pathFits`: a longer
path is copied over the fields behind the name (`flength`; `oflength` and
`ofhandle`), which is not modelled. -/
def fs3_open {σ : Type} (st : DriverState σ) (path : String) : DriverState σ × Int :=
  match firstIdxFrom (fun i => (st.ftable i).fname == path) FS3_MAX_TOTAL_FILES 0 with
  | some i =>
    if (st.ftable i).fstate = "opened" then (st, -1)
    else
      let o := st.oftable st.freeOFile
      let o1 := { o with ofhandle := toInt16 st.freeHandle, ofname := path,
                         oflength := (st.ftable i).flength, numsec := (st.ftable i).numsec,
                         ofloc := (st.ftable i).floc }
      openFinish { st with oftable := setEntry st.oftable st.freeOFile o1,
                           ftable := setEntry st.ftable i { st.ftable i with fstate := "opened" } }
  | none =>
    let ft1 := setEntry st.ftable st.freeFile { st.ftable st.freeFile with fname := path }
    let o := st.oftable st.freeOFile
    let o1 := { o with numsec := 0, ofhandle := toInt16 st.freeHandle, ofname := path,
                       oflength := 0, ofpos := 0 }
    let ft2 := setEntry ft1 st.freeOFile { ft1 st.freeOFile with fstate := "opened" }
    openFinish { st with oftable := setEntry st.oftable st.freeOFile o1, ftable := ft2,
                         freeFile := st.freeFile + 1 }

/-- `fs3_close(fd)`. -/
def fs3_close {σ : Type} (st : DriverState σ) (fd : Int) : DriverState σ × Int :=
  let r := idxByHandle st fd
  if r.1 = -1 then (st, -1)
  else if r.2.1 = -1 ∨ r.2.2 = -1 then (st, 0)
  else
    let ofidx := r.2.1.toNat
    let fidx := r.2.2.toNat
    if (st.ftable fidx).fstate = "closed" then (st, -1)
    else
      let o := st.oftable ofidx
      let f1 := { st.ftable fidx with flength := o.oflength, numsec := o.numsec,
                                      fstate := "closed", floc := o.ofloc }
      let o1 := { o with oflength := 0, ofhandle := -1, ofpos := 0, numsec := 0,
                         ofloc := fun _ _ => 0 }
      ({ st with ftable := setEntry st.ftable fidx f1,
                 oftable := setEntry st.oftable ofidx o1 }, 0)

/-- `fs3_seek(fd, loc)` for a `uint32_t` location. -/
def fs3_seek {σ : Type} (st : DriverState σ) (fd : Int) (loc : Nat) : DriverState σ × Int :=
  let r := idxByHandle st fd
  if r.1 = -1 then (st, -1)
  else
    let ofidx := r.2.1.toNat
    if ((st.oftable ofidx).oflength % 2 ^ 32).toNat < loc ∨ r.2.1 = -1 ∨ r.2.2 = -1 then (st, -1)
    else
      ({ st with oftable := setEntry st.oftable ofidx { st.oftable ofidx with ofpos := loc } }, 0)

/-! ## Driver: read -/

/-- The size `numToRead*FS3_SECTOR_SIZE` that `fs3_read(fd, buf, count)` passes to `malloc`
and to `memset` for `readBuf`, before it looks at the result of `idxByHandle`;
`numToRead` is an `int16_t` and the product an `int`.  The calls take the size as a
`size_t`: a negative value arrives as that value plus 2^64. -/
def readBufSize (count : Nat) : Int := toInt16 (ceilDiv1024 count) * FS3_SECTOR_SIZE

/-- The size `writeBufSize = numToChange*FS3_SECTOR_SIZE` that `fs3_write(fd, buf, count)`
passes to `malloc` and to `memset` for `writeBuf`, before it looks at the result of
`idxByHandle`, for the cursor `ofpos` of the open-table entry it read: `firstSec`,
`lastSec` and `numToChange` are `int16_t`. -/
def writeBufSize (ofpos count : Nat) : Int :=
  let endPos := (ofpos + count) % 2 ^ 32
  let firstSec := toInt16 ((ofpos / 1024 : Nat) : Int)
  let lastSec := toInt16 ((ceilDiv1024 endPos : Nat) : Int)
  toInt16 (lastSec - firstSec) * FS3_SECTOR_SIZE

/-- The running values of the sector loops of `fs3_read` and `fs3_write`:
the globals, the assembled buffer (`readBuf`), the offset `writePos`, the
number of sectors handled (`sectorsRead`, `sectorsWrote`), the number of
owned sectors skipped (`sectorsChecked`, `sectorsPassed`) and whether the
function has left with -1. -/
structure SectorLoop (σ : Type) where
  st : DriverState σ
  buf : List Nat
  pos : Nat
  handled : Int
  skipped : Int
  failed : Bool

/-- The body of the loops of `fs3_read` for one sector to read: switch the
track if needed, ask the cache, and on a miss read the sector through the
transport and put it in the cache.  `none` is a `return(-1)`. -/
def readSector {σ : Type} (net : Transport σ) (st : DriverState σ) (trk sec : Nat) :
    DriverState σ × Option (List Nat) :=
  let sw := if (trk : Int) ≠ st.curTrk then switchTrack net st trk else (st, 0)
  if sw.2 = -1 then (sw.1, none)
  else
    let c := fs3_get_cache sw.1.cache trk sec
    let st1 := { sw.1 with cache := c.1 }
    match c.2 with
    | some data => (st1, some (sectorOf data))
    | none =>
      let r := net.syscall st1.ctl (construct_fs3_cmdblock FS3_OP_RDSECT sec 0 0) []
      let st2 := { st1 with ctl := r.1 }
      let tmpBuf := fitSector r.2.2.2
      if retOf r.2.2.1 ≠ 0 ∨ r.2.1 = -1 then (st2, none)
      else
        let p := fs3_put_cache st2.cache trk sec tmpBuf
        let st3 := { st2 with cache := p.1 }
        if p.2 = -1 then (st3, none) else (st3, some tmpBuf)

/-- The nested loops of `fs3_read` over the addresses still to visit (the
`break` of the inner loop is followed by the `break` of the outer one, so
both loops end together). -/
def readLoop {σ : Type} (net : Transport σ) (ofidx : Nat) (numToRead firstSec : Int) :
    List (Nat × Nat) → SectorLoop σ → SectorLoop σ
  | [], s => s
  | a :: rest, s =>
    if s.handled = numToRead then s
    else if (s.st.oftable ofidx).ofloc a.1 a.2 = 1 then
      if s.skipped = firstSec then
        match readSector net s.st a.1 a.2 with
        | (st1, none) => { s with st := st1, failed := true }
        | (st1, some data) =>
          readLoop net ofidx numToRead firstSec rest
            { s with st := st1, buf := memcpyAt s.buf s.pos data FS3_SECTOR_SIZE,
                     pos := s.pos + FS3_SECTOR_SIZE, handled := s.handled + 1 }
      else readLoop net ofidx numToRead firstSec rest { s with skipped := s.skipped + 1 }
    else readLoop net ofidx numToRead firstSec rest s

/-- `fs3_read(fd, buf, count)` for a count in 0 .. 2^31 - 1: the new globals,
the return value and the `count` bytes copied to `buf` (empty on failure).
The C function allocates and clears `readBuf` with the size
`readBufSize count` before its checks; here the buffer is a zeroed list, empty
for a negative size.  This is the C function for counts of fewer than 2^15
sectors: for a negative size the C call writes through the NULL pointer that
`malloc` returned and does not return, and for a sector count that wraps to a
smaller positive one `memcpy` reads past the end of `readBuf`. -/
def fs3_read {σ : Type} (g : Geometry) (net : Transport σ) (st : DriverState σ) (fd : Int)
    (count : Nat) : DriverState σ × Int × List Nat :=
  let numToRead := toInt16 (ceilDiv1024 count)
  let r := idxByHandle st fd
  let readBuf := List.replicate (numToRead.toNat * FS3_SECTOR_SIZE) 0
  if r.2.1 = -1 ∨ r.2.2 = -1 then (st, -1, [])
  else if (st.ftable r.2.2.toNat).fstate ≠ "opened" then (st, -1, [])
  else if r.1 = -1 then (st, -1, [])
  else
    let ofidx := r.2.1.toNat
    let firstSec : Int := ((st.oftable ofidx).ofpos / FS3_SECTOR_SIZE : Nat)
    let s0 : SectorLoop σ :=
      { st := st, buf := readBuf, pos := 0, handled := 0, skipped := 0, failed := false }
    let s := if 0 < numToRead then readLoop net ofidx numToRead firstSec (allAddrs g) s0 else s0
    if s.failed then (s.st, -1, [])
    else (s.st, count, s.buf.take count)

/-! ## Driver: write -/

/-- The values the allocation loop of `fs3_write` works on: `globalLoc`, the
open file's `ofloc` and `numsec`, and the locals `trkidx` and `secidx`. -/
structure AllocLoop where
  globalLoc : Nat → Nat → Int
  ofloc : Nat → Nat → Nat
  numsec : Int
  trkidx : Int
  secidx : Int

/-- The loop `while (numSectors > 0)` of `fs3_write` with `n` iterations
left.  The return value of `findFreeLoc` is not looked at. -/
def allocLoop (g : Geometry) : Nat → AllocLoop → AllocLoop
  | 0, a => a
  | n + 1, a =>
    let r := findFreeLoc g a.globalLoc a.trkidx a.secidx
    allocLoop g n
      { globalLoc := r.1, ofloc := setLoc a.ofloc r.2.2.1 r.2.2.2 1, numsec := a.numsec + 1,
        trkidx := r.2.2.1, secidx := r.2.2.2 }

/-- The body of the loops of `fs3_write` for one sector to write, `tmpBuf`
being the sector's new content: switch the track if needed, ask the cache,
write the cached copy through if it is identical, otherwise write `tmpBuf`
through and put it in the cache.  `false` is a `return(-1)`. -/
def writeSector {σ : Type} (net : Transport σ) (st : DriverState σ) (trk sec : Nat)
    (tmpBuf : List Nat) : DriverState σ × Bool :=
  let sw := if (trk : Int) ≠ st.curTrk then switchTrack net st trk else (st, 0)
  if sw.2 = -1 then (sw.1, false)
  else
    let c := fs3_get_cache sw.1.cache trk sec
    let st1 := { sw.1 with cache := c.1 }
    let same : Option (List Nat) :=
      match c.2 with
      | some data => if sectorOf data = sectorOf tmpBuf then some data else none
      | none => none
    match same with
    | some data =>
      let r := net.syscall st1.ctl (construct_fs3_cmdblock FS3_OP_WRSECT sec 0 0) (sectorOf data)
      let st2 := { st1 with ctl := r.1 }
      if retOf r.2.2.1 ≠ 0 ∨ r.2.1 = -1 then (st2, false) else (st2, true)
    | none =>
      let r := net.syscall st1.ctl (construct_fs3_cmdblock FS3_OP_WRSECT sec 0 0) (sectorOf tmpBuf)
      let st2 := { st1 with ctl := r.1 }
      if retOf r.2.2.1 ≠ 0 ∨ r.2.1 = -1 then (st2, false)
      else
        let p := fs3_put_cache st2.cache trk sec tmpBuf
        let st3 := { st2 with cache := p.1 }
        if p.2 = -1 then (st3, false) else (st3, true)

/-- The nested loops of `fs3_write` over the addresses still to visit; `buf`
of the loop state is `writeBuf`, which the loop only reads. -/
def writeLoop {σ : Type} (net : Transport σ) (ofidx : Nat) (numToChange firstSec : Int) :
    List (Nat × Nat) → SectorLoop σ → SectorLoop σ
  | [], s => s
  | a :: rest, s =>
    if s.handled = numToChange then s
    else if (s.st.oftable ofidx).ofloc a.1 a.2 = 1 then
      if s.skipped = firstSec then
        match writeSector net s.st a.1 a.2 ((s.buf.drop s.pos).take FS3_SECTOR_SIZE) with
        | (st1, false) => { s with st := st1, failed := true }
        | (st1, true) =>
          writeLoop net ofidx numToChange firstSec rest
            { s with st := st1, pos := s.pos + FS3_SECTOR_SIZE, handled := s.handled + 1 }
      else writeLoop net ofidx numToChange firstSec rest { s with skipped := s.skipped + 1 }
    else writeLoop net ofidx numToChange firstSec rest s

/-- The growth step of `fs3_write` on the open file `ofidx` for the unsigned
end position `endPos = ofpos + count`: when it lies past `oflength` and more
sectors are required than the file has, `(int8_t)(required - numsec)` sectors
are claimed and `oflength` becomes `numsec * FS3_SECTOR_SIZE`. -/
def growFile {σ : Type} (g : Geometry) (st : DriverState σ) (ofidx : Nat) (endPos : Nat) :
    DriverState σ :=
  let o := st.oftable ofidx
  if (o.oflength % 2 ^ 32).toNat < endPos then
    let requiredSectors : Int := (ceilDiv1024 endPos : Nat)
    if o.numsec < requiredSectors then
      let numSectors := toInt8 (requiredSectors - o.numsec)
      let a := allocLoop g numSectors.toNat
        { globalLoc := st.globalLoc, ofloc := o.ofloc, numsec := o.numsec,
          trkidx := -1, secidx := -1 }
      { st with globalLoc := a.globalLoc,
                oftable := setEntry st.oftable ofidx
                  { o with ofloc := a.ofloc, numsec := a.numsec,
                           oflength := a.numsec * FS3_SECTOR_SIZE } }
    else st
  else st

/-- The number of iterations of the allocation loop `while(numSectors > 0)` in a call of
`fs3_write` on the open file `o` that ends at the position `endPos`: 0 when the growth
step is not entered (the end position is within the recorded length, or the file has the
sectors required), otherwise the value of the `int8_t` local `numSectors` when it is
positive. -/
def sectorsToAdd (o : FS3OpenFile) (endPos : Nat) : Nat :=
  if (o.oflength % 2 ^ 32).toNat < endPos then
    if o.numsec < ((ceilDiv1024 endPos : Nat) : Int) then
      (toInt8 (((ceilDiv1024 endPos : Nat) : Int) - o.numsec)).toNat
    else 0
  else 0

/-- The values the allocation loop of `fs3_write` starts from on the open file `ofidx`:
the allocation map, the bitmap and the sector count of the file, and the locals `trkidx`
and `secidx`, both -1. -/
def allocStart {σ : Type} (st : DriverState σ) (ofidx : Nat) : AllocLoop :=
  { globalLoc := st.globalLoc, ofloc := (st.oftable ofidx).ofloc,
    numsec := (st.oftable ofidx).numsec, trkidx := -1, secidx := -1 }

/-- Whether the locals `trkidx` and `secidx` of the allocation loop address an element of
the bitmap `ofloc[FS3_MAX_TRACKS][FS3_TRACK_SIZE]`.  The store
`oftable[ofidx].ofloc[trkidx][secidx] = 1` of an iteration is made with the values the
locals have after the iteration's `findFreeLoc`; with an index outside the bitmap it
writes to other memory, which `setLoc` does not model. -/
def AllocLoop.inBitmap (g : Geometry) (a : AllocLoop) : Bool :=
  decide (0 ≤ a.trkidx ∧ a.trkidx < (g.FS3_MAX_TRACKS : Int) ∧
    0 ≤ a.secidx ∧ a.secidx < (g.FS3_TRACK_SIZE : Int))

/-- `fs3_write(fd, buf, count)` for a count in 0 .. 2^31 - 1: the new globals
and the return value.  The C function reads the cursor of `oftable[ofidx]` and
allocates and clears `writeBuf` with the size `writeBufSize ofpos count`
before its checks; here the checks come first and nothing is allocated.  This
is the C function for a handle that `idxByHandle` resolves and a size that is
not negative: for a negative size the C call writes through the NULL pointer
that `malloc` returned and does not return, and for an unresolved handle the
cursor is read from `oftable[-1]`, outside the table. -/
def fs3_write {σ : Type} (g : Geometry) (net : Transport σ) (st : DriverState σ) (fd : Int)
    (buf : List Nat) (count : Nat) : DriverState σ × Int :=
  let r := idxByHandle st fd
  if r.2.1 = -1 ∨ r.2.2 = -1 then (st, -1)
  else if (st.ftable r.2.2.toNat).fstate ≠ "opened" then (st, -1)
  else
    let ofidx := r.2.1.toNat
    let ofpos := (st.oftable ofidx).ofpos
    let endPos := (ofpos + count) % 2 ^ 32
    let firstSec := toInt16 ((ofpos / 1024 : Nat) : Int)
    let lastSec := toInt16 ((ceilDiv1024 endPos : Nat) : Int)
    let numToChange := toInt16 (lastSec - firstSec)
    let writeBufSize := numToChange * FS3_SECTOR_SIZE
    if MAX_FILE_SIZE < endPos then (st, -1)
    else if r.1 = -1 then (st, -1)
    else
      let st1 := growFile g st ofidx endPos
      let rd : DriverState σ × Option (List Nat) :=
        if 0 < numToChange ∧ (st1.oftable ofidx).oflength ≠ 0 then
          let o1 := { st1.oftable ofidx with ofpos := (firstSec * FS3_SECTOR_SIZE).toNat }
          let st2 := { st1 with oftable := setEntry st1.oftable ofidx o1 }
          let rr := fs3_read g net st2 fd writeBufSize.toNat
          let st3 := rr.1
          let o3 := { st3.oftable ofidx with ofpos := ofpos }
          if rr.2.1 ≠ writeBufSize then (st3, none)
          else ({ st3 with oftable := setEntry st3.oftable ofidx o3 }, some rr.2.2)
        else (st1, some (List.replicate writeBufSize.toNat 0))
      match rd.2 with
      | none => (rd.1, -1)
      | some writeBuf0 =>
        let whereToWrite := ((ofpos : Int) - firstSec * FS3_SECTOR_SIZE).toNat
        let writeBuf := memcpyAt writeBuf0 whereToWrite buf count
        let s0 : SectorLoop σ :=
          { st := rd.1, buf := writeBuf, pos := 0, handled := 0, skipped := 0, failed := false }
        let s := writeLoop net ofidx numToChange firstSec (allAddrs g) s0
        if s.failed then (s.st, -1)
        else
          let st4 := s.st
          let o4 := { st4.oftable ofidx with ofpos := (ofpos + count) % 2 ^ 32 }
          ({ st4 with oftable := setEntry st4.oftable ofidx o4 }, count)

/-! ## Driver: unmount and sequences of calls -/

/-- The loop `for (i = 0; i < freeHandle; i++)` of `fs3_unmount_disk` from
index `i` on with `n` iterations left: every entry whose handle is not -1 is
passed to `fs3_close`, whose return value is not looked at. -/
def unmountLoop {σ : Type} : Nat → Nat → DriverState σ → DriverState σ
  | 0, _, st => st
  | n + 1, i, st =>
    unmountLoop n (i + 1)
      (if (st.oftable i).ofhandle ≠ -1 then (fs3_close st (st.oftable i).ofhandle).1 else st)

/-- `fs3_unmount_disk()`.  In the unmount branch `network_fs3_syscall`
assigns to its own pointer (`ret = &orderedCmd`), so the driver's local
`retCmd` is never written: `junk` is the content of that uninitialised
variable. -/
def fs3_unmount_disk {σ : Type} (net : Transport σ) (st : DriverState σ) (junk : Nat) :
    DriverState σ × Int :=
  if st.mountState ≠ "mounted" then (st, -1)
  else
    let st1 := unmountLoop st.freeHandle.toNat 0 st
    let r := net.syscall st1.ctl (construct_fs3_cmdblock FS3_OP_UMOUNT 0 0 0) []
    let st2 := { st1 with ctl := r.1 }
    if retOf junk ≠ 0 ∧ r.2.1 ≠ 0 then (st2, -1)
    else ({ st2 with mountState := "unmounted" }, 0)

/-- The calls a client of the driver and of the cache can issue.  The
arguments are reduced to the range of their C types when the call is run:
`fd` is an `int16_t`, `count` a non-negative `int32_t`, `loc` a `uint32_t`. -/
inductive DriverOp where
  | mount
  | unmount (junk : Nat)
  | openFile (path : String)
  | close (fd : Int)
  | read (fd : Int) (count : Nat)
  | write (fd : Int) (buf : List Nat) (count : Nat)
  | seek (fd : Int) (loc : Nat)
  | cache (op : CacheOp)

/-- Whether the path of a call fits a name field; only `fs3_open` takes a path. -/
def DriverOp.pathOk : DriverOp → Bool
  | .openFile path => pathFits path
  | _ => true

/-- The globals after one call. -/
def DriverOp.run {σ : Type} (g : Geometry) (net : Transport σ) (st : DriverState σ) :
    DriverOp → DriverState σ
  | .mount => (fs3_mount_disk g net st).1
  | .unmount junk => (fs3_unmount_disk net st junk).1
  | .openFile path => (fs3_open st path).1
  | .close fd => (fs3_close st (toInt16 fd)).1
  | .read fd count => (fs3_read g net st (toInt16 fd) (count % 2 ^ 31)).1
  | .write fd buf count => (fs3_write g net st (toInt16 fd) buf (count % 2 ^ 31)).1
  | .seek fd loc => (fs3_seek st (toInt16 fd) (loc % 2 ^ 32)).1
  | .cache op => { st with cache := op.run st.cache }

/-- The globals after a sequence of calls. -/
def runDriver {σ : Type} (g : Geometry) (net : Transport σ) (st : DriverState σ)
    (ops : List DriverOp) : DriverState σ :=
  ops.foldl (DriverOp.run g net) st

/-- A state of the globals the program can be in: the one at process start,
with any state of the other side of the transport, followed by any sequence
of calls. -/
def DriverReachable {σ : Type} (g : Geometry) (net : Transport σ) (st : DriverState σ) : Prop :=
  ∃ (ctl : σ) (ops : List DriverOp), runDriver g net (driverStart cacheStart ctl) ops = st

/-- The largest length a file record can hold: `MAX_FILE_SIZE` rounded up to
whole sectors. -/
def lengthBound : Nat := ceilDiv1024 MAX_FILE_SIZE * FS3_SECTOR_SIZE

/-- The bounds on the numbers of an open-table entry in a reachable state. -/
def OpenFileBounded (o : FS3OpenFile) : Prop :=
  o.ofpos ≤ lengthBound ∧ 0 ≤ o.oflength ∧ o.oflength ≤ lengthBound ∧ 0 ≤ o.numsec

/-- The bounds on the numbers of a permanent record in a reachable state. -/
def FileBounded (f : FS3File) : Prop :=
  0 ≤ f.flength ∧ f.flength ≤ lengthBound ∧ 0 ≤ f.numsec

/-- Every entry of both tables is within the bounds. -/
def TablesBounded {σ : Type} (st : DriverState σ) : Prop :=
  (∀ i, OpenFileBounded (st.oftable i)) ∧ (∀ j, FileBounded (st.ftable j))

/-- Every name in the two file tables fits its field. -/
def NamesFit {σ : Type} (st : DriverState σ) : Prop :=
  (∀ i, pathFits (st.oftable i).ofname = true) ∧ (∀ j, pathFits (st.ftable j).fname = true)

/-- The two states agree on everything but the cache, the head position and
the other side of the transport: what a read may change. -/
def SameTables {σ : Type} (st st' : DriverState σ) : Prop :=
  st'.oftable = st.oftable ∧ st'.ftable = st.ftable ∧ st'.mountState = st.mountState ∧
    st'.globalLoc = st.globalLoc ∧ st'.freeOFile = st.freeOFile ∧
    st'.freeFile = st.freeFile ∧ st'.freeHandle = st.freeHandle

/-- The permanent record `f` after `fs3_close` saved the open file `o` into
it: length, sector count and bitmap of `o`, state "closed". -/
def savedRecord (f : FS3File) (o : FS3OpenFile) : FS3File :=
  { f with flength := o.oflength, numsec := o.numsec, fstate := "closed", floc := o.ofloc }

/-- The open-table entry `o` after `fs3_close` reset it: length 0, handle -1,
position 0, sector count 0 and an empty bitmap; the name stays. -/
def clearedEntry (o : FS3OpenFile) : FS3OpenFile :=
  { o with oflength := 0, ofhandle := -1, ofpos := 0, numsec := 0, ofloc := fun _ _ => 0 }

/-- The open-table entry `o` with its cursor set to `loc`. -/
def withCursor (o : FS3OpenFile) (loc : Nat) : FS3OpenFile := { o with ofpos := loc }

/-! ## A transport that faithfully stores sectors -/

/-- Modelled from the spec: the controller on the other side of the
transport, which is not part of the sources.  It keeps the content of every
sector, the track selected by the last seek, and the command words received
(newest first). -/
structure Controller where
  disk : Nat → Nat → List Nat
  head : Nat
  log : List Nat

/-- Modelled from the spec: one round trip to a controller that never fails.
The fields of the command word are read at the offsets of the wire layout; a
seek selects the track, a read returns the stored sector of the selected
track, a write stores the sector sent.  The returned word is the command word
with status 0. -/
def controllerSyscall (c : Controller) (cmd : Nat) (buf : List Nat) :
    Controller × Int × Nat × List Nat :=
  let op := cmd / 2 ^ 60 % 2 ^ 4
  let sec := cmd / 2 ^ 44 % 2 ^ 16
  let trk := cmd / 2 ^ 12 % 2 ^ 32
  let c1 := { c with log := cmd :: c.log }
  if op = FS3_OP_TSEEK then ({ c1 with head := trk }, 0, cmd, buf)
  else if op = FS3_OP_RDSECT then (c1, 0, cmd, c.disk c.head sec)
  else if op = FS3_OP_WRSECT then
    ({ c1 with disk := fun t s => if t = c.head ∧ s = sec then fitSector buf else c.disk t s },
     0, cmd, buf)
  else (c1, 0, cmd, buf)

/-- The transport to a controller that faithfully stores sectors. -/
def faithfulNet : Transport Controller := { syscall := controllerSyscall }

/-- A controller whose sectors are all zero and that has received nothing. -/
def blankController : Controller :=
  { disk := fun _ _ => List.replicate FS3_SECTOR_SIZE 0, head := 0, log := [] }

/-- The bytes `i % 251` for `i = start, start + 1, ...` (`n` of them): a test
pattern whose value tells the position. -/
def patternBytes : Nat → Nat → List Nat
  | 0, _ => []
  | n + 1, start => start % 251 :: patternBytes n (start + 1)

/-! ## Command traces and frames -/

/-- The opcode field of a command word, bits 60-63. -/
def opOf (cmd : Nat) : Nat := cmd / 2 ^ 60 % 2 ^ 4

/-- The track field of a command word, bits 12-43. -/
def trkOf (cmd : Nat) : Nat := cmd / 2 ^ 12 % 2 ^ 32

/-- One entry of a command trace: the command word passed to `network_fs3_syscall` and
whether the call passed the driver's test `retval != 0 || netSuccess == -1` for a
failure. -/
structure Sent where
  cmd : Nat
  ok : Bool
deriving DecidableEq, Repr

/-- The transport `net` with a trace: it behaves as `net` and records every call, newest
first, on the other side of the transport. -/
def traced {σ : Type} (net : Transport σ) : Transport (σ × List Sent) :=
  { syscall := fun s cmd buf =>
      let r := net.syscall s.1 cmd buf
      ((r.1, { cmd := cmd, ok := decide (¬ (retOf r.2.2.1 ≠ 0 ∨ r.2.1 = -1)) } :: s.2),
       r.2.1, r.2.2.1, r.2.2.2) }

/-- The track of the latest successful seek-track command of a trace, if there is one. -/
def lastSeek : List Sent → Option Nat
  | [] => none
  | e :: rest =>
    if opOf e.cmd = FS3_OP_TSEEK ∧ e.ok = true then some (trkOf e.cmd) else lastSeek rest

/-- The current-track value that corresponds to the result of `lastSeek`: -1 when no
seek has succeeded. -/
def headOf : Option Nat → Int
  | none => -1
  | some t => (t : Int)

/-- Whether a command word is a read-sector or write-sector command. -/
def isSectorCmd (cmd : Nat) : Bool :=
  opOf cmd == FS3_OP_RDSECT || opOf cmd == FS3_OP_WRSECT

/-- Whether every sector command of the trace has a successful seek-track command
before it. -/
def sectorsAfterSeek : List Sent → Bool
  | [] => true
  | e :: rest => (!isSectorCmd e.cmd || (lastSeek rest).isSome) && sectorsAfterSeek rest

/-- The invariant that links the driver to the trace: the current-track value is the track
of the latest successful seek-track command (-1 when there is none), and every sector
command has a successful seek-track command before it. -/
def TraceInv {σ : Type} (st : DriverState (σ × List Sent)) : Prop :=
  st.curTrk = headOf (lastSeek st.ctl.2) ∧ sectorsAfterSeek st.ctl.2 = true

/-- A state the program can be in when its transport calls are traced from process
start. -/
def TracedReachable {σ : Type} (g : Geometry) (net : Transport σ)
    (st : DriverState (σ × List Sent)) : Prop :=
  ∃ (ctl : σ) (ops : List DriverOp),
    runDriver g (traced net) (driverStart cacheStart (ctl, [])) ops = st

/-- The seek-track command word of `switchTrack(trk)`. -/
def seekCmd (trk : Nat) : Nat := construct_fs3_cmdblock FS3_OP_TSEEK 0 trk 0

/-- What one access to the disk address (trk, sec) with the sector command `op` may add
to the trace `old`: nothing; a failed seek to `trk`; a successful seek to `trk`; a
successful seek to `trk` and then the sector command for `sec`; or the sector command
alone, the latest successful seek of `old` being the one to `trk`. -/
def Access (op trk sec : Nat) (old new : List Sent) : Prop :=
  new = old ∨ new = { cmd := seekCmd trk, ok := false } :: old ∨
    new = { cmd := seekCmd trk, ok := true } :: old ∨
    (∃ ok, new = { cmd := construct_fs3_cmdblock op sec 0 0, ok := ok } ::
        { cmd := seekCmd trk, ok := true } :: old) ∨
    (∃ ok, new = { cmd := construct_fs3_cmdblock op sec 0 0, ok := ok } :: old ∧
        lastSeek old = some trk)

/-- The two states agree on everything but the two file tables: what `fs3_open`,
`fs3_close` and `fs3_seek` leave alone, the counters apart. -/
def SameDevice {σ : Type} (st st' : DriverState σ) : Prop :=
  st'.curTrk = st.curTrk ∧ st'.ctl = st.ctl ∧ st'.cache = st.cache ∧
    st'.mountState = st.mountState ∧ st'.globalLoc = st.globalLoc

/-- The relation between the two counters of `fs3_open`: the next handle is one more than
the next open-table index. -/
def HandleInv {σ : Type} (st : DriverState σ) : Prop :=
  st.freeHandle = (st.freeOFile : Int) + 1

/-- The number of write-sector commands among the command words a controller received. -/
def writeSectorCount (log : List Nat) : Nat :=
  (log.filter (fun cmd => cmd / 2 ^ 60 % 2 ^ 4 == FS3_OP_WRSECT)).length

/-! ## Concrete scenarios -/

/-- A sector payload of 1024 bytes "A". -/
def payloadA : List Nat := List.replicate FS3_SECTOR_SIZE 65

/-- A sector payload of 1024 bytes "B". -/
def payloadB : List Nat := List.replicate FS3_SECTOR_SIZE 66

/-- A sector payload of 1024 bytes "C". -/
def payloadC : List Nat := List.replicate FS3_SECTOR_SIZE 67

/-- The capacity-2 scenario of the spec up to the eviction: both lines are
filled, then (T0, S0) is read again. -/
def lruOps : List CacheOp := [.init 2, .put 0 0 payloadA, .put 0 1 payloadB, .get 0 0]

/-- The cache globals after `lruOps`. -/
def lruState : CacheState := runCache cacheStart lruOps

/-- The two lines of `lruState`. -/
def lruLines : List FS3Cache :=
  [{ csec := 0, ctrk := 0, dataBuf := some payloadA, lastAccess := 2 },
   { csec := 1, ctrk := 0, dataBuf := some payloadB, lastAccess := 1 }]

/-- A capacity-2 cache with both lines filled. -/
def fullOps : List CacheOp := [.init 2, .put 0 0 payloadA, .put 0 1 payloadB]

/-- The cache globals after `fullOps`. -/
def fullState : CacheState := runCache cacheStart fullOps

/-- The two lines of `fullState`. -/
def fullLines : List FS3Cache :=
  [{ csec := 0, ctrk := 0, dataBuf := some payloadA, lastAccess := 0 },
   { csec := 1, ctrk := 0, dataBuf := some payloadB, lastAccess := 1 }]

/-- The cache globals after `fs3_init_cache(40000)` at process start. -/
def wideCache : CacheState := (fs3_init_cache cacheStart 40000).1

/-- A geometry of 64 tracks of 1024 sectors for the concrete runs of the
driver; what they show does not depend on it as long as the disk has two
sectors. -/
def demoGeometry : Geometry := { FS3_MAX_TRACKS := 64, FS3_TRACK_SIZE := 1024 }

/-- The driver right after a successful `fs3_mount_disk`, with a cache of 8
lines and a blank controller behind the faithful transport. -/
def mountedStart : DriverState Controller :=
  (fs3_mount_disk demoGeometry faithfulNet
    (driverStart (fs3_init_cache cacheStart 8).1 blankController)).1

/-- The 2000 bytes written in the scenario of the spec: byte `i` is
`i % 251`. -/
def fileBytes : List Nat := patternBytes 2000 0

/-- `fs3_open("a.txt")` on the freshly mounted driver. -/
def afterOpen : DriverState Controller × Int := fs3_open mountedStart "a.txt"

/-- Then `fs3_write(1, fileBytes, 2000)` at position 0. -/
def afterWrite : DriverState Controller × Int :=
  fs3_write demoGeometry faithfulNet afterOpen.1 1 fileBytes 2000

/-- Then `fs3_seek(1, 500)`. -/
def afterSeek : DriverState Controller × Int := fs3_seek afterWrite.1 1 500

/-- Then `fs3_read(1, buf, 10)`. -/
def afterRead : DriverState Controller × Int × List Nat :=
  fs3_read demoGeometry faithfulNet afterSeek.1 1 10

/-- A buffer of 131072 bytes: 128 sectors. -/
def bigBuf : List Nat := List.replicate 131072 7

/-- The values with which the sector loop of `fs3_write(1, bigBuf, 131072)`
starts on the new file "a.txt": the globals after the growth step and the
zeroed `writeBuf` overlaid with `bigBuf`. -/
def bigLoopStart (g : Geometry) : SectorLoop Controller :=
  { st := growFile g afterOpen.1 0 131072,
    buf := memcpyAt (List.replicate 131072 0) 0 bigBuf 131072,
    pos := 0, handled := 0, skipped := 0, failed := false }

/-- The calls `fs3_open("a.txt")`, `fs3_close(1)`, `fs3_open("a.txt")`,
`fs3_open("b.txt")`, `fs3_open("b.txt")`, `fs3_write(4, [9], 1)` and
`fs3_close(3)` on the freshly mounted driver: the return values in call order
and the final globals. -/
def twoHandles : List Int × DriverState Controller :=
  let r1 := fs3_open mountedStart "a.txt"
  let r2 := fs3_close r1.1 r1.2
  let r3 := fs3_open r2.1 "a.txt"
  let r4 := fs3_open r3.1 "b.txt"
  let r5 := fs3_open r4.1 "b.txt"
  let r6 := fs3_write demoGeometry faithfulNet r5.1 r5.2 [9] 1
  let r7 := fs3_close r6.1 r4.2
  ([r1.2, r2.2, r3.2, r4.2, r5.2, r6.2, r7.2], r7.1)

/-- The calls that lead to `afterWrite`, as a sequence from process start:
cache of 8 lines, mount, open "a.txt", write 2000 bytes. -/
def sessionOps : List DriverOp :=
  [.cache (.init 8), .mount, .openFile "a.txt", .write 1 fileBytes 2000]

/-- The globals after `sessionOps`: handle 1 is open on "a.txt", with cursor
2000 and length 2048. -/
def session : DriverState Controller :=
  runDriver demoGeometry faithfulNet (driverStart cacheStart blankController) sessionOps

/-- `fs3_open("a.txt")` = 1, `fs3_close(1)`, `fs3_open("a.txt")` = 2 on the
freshly mounted driver: "a.txt" is open again, in the second open-table
entry. -/
def reopenedA : DriverState Controller :=
  (fs3_open (fs3_close afterOpen.1 1).1 "a.txt").1

/-- Then `fs3_open("b.txt")` for the new path "b.txt". -/
def openedB : DriverState Controller × Int := fs3_open reopenedA "b.txt"

/-- Then `fs3_open("b.txt")` once more. -/
def openedBAgain : DriverState Controller × Int := fs3_open openedB.1 "b.txt"

/-- After `openedB`: `fs3_write(0, [9], 1)` with the handle value 0, which
`fs3_open` never returned. -/
def strayWrite : DriverState Controller × Int :=
  fs3_write demoGeometry faithfulNet openedB.1 0 [9] 1

/-- Then `fs3_close(2)`, the close of the open handle of "a.txt". -/
def closedA : DriverState Controller × Int := fs3_close strayWrite.1 2

/-- Then `fs3_open("a.txt")`, the reopen. -/
def reopenedAgain : DriverState Controller × Int := fs3_open closedA.1 "a.txt"

/-- A disk of one track with one sector. -/
def tinyGeometry : Geometry := { FS3_MAX_TRACKS := 1, FS3_TRACK_SIZE := 1 }

/-- `fs3_open("a.txt")` on a driver freshly mounted on the one-sector disk,
with a cache of 8 lines and a blank controller. -/
def tinyOpen : DriverState Controller × Int :=
  fs3_open (fs3_mount_disk tinyGeometry faithfulNet
    (driverStart (fs3_init_cache cacheStart 8).1 blankController)).1 "a.txt"

/-- Then `fs3_write(1, fileBytes, 2000)`, which needs two sectors. -/
def tinyWrite : DriverState Controller × Int :=
  fs3_write tinyGeometry faithfulNet tinyOpen.1 1 fileBytes 2000

/-- The calls that lead to `afterOpen`, as a sequence from process start. -/
def openedOps : List DriverOp := [.cache (.init 8), .mount, .openFile "a.txt"]

/-- The globals after `openedOps`: handle 1 is open on the new file "a.txt". -/
def opened : DriverState Controller :=
  runDriver demoGeometry faithfulNet (driverStart cacheStart blankController) openedOps

/-- A longer run of a capacity-2 cache: two puts, a hit and a miss. -/
def busyOps : List CacheOp :=
  [.init 2, .put 0 0 payloadA, .put 0 1 payloadB, .get 0 0, .get 0 5]

/-- The cache globals after `busyOps`. -/
def busyState : CacheState := runCache cacheStart busyOps

/-- The cache globals after `fs3_init_cache(65535)` at process start. -/
def fullRangeCache : CacheState := (fs3_init_cache cacheStart 65535).1

/-- A transport whose every call fails: it returns -1 and a word with the status bit
set. -/
def deadNet : Transport Unit := { syscall := fun _ _ buf => ((), -1, 2 ^ 11, buf) }

/-- A first mount session on the one-sector disk: cache of 8 lines, mount, open "a.txt"
(handle 1) and "b.txt" (handle 2), three bytes written to "b.txt", both files closed. -/
def sessionOneOps : List DriverOp :=
  [.cache (.init 8), .mount, .openFile "a.txt", .openFile "b.txt", .write 2 [7, 7, 7] 3,
   .close 1, .close 2]

/-- The globals after `sessionOneOps`. -/
def sessionOne : DriverState Controller :=
  runDriver tinyGeometry faithfulNet (driverStart cacheStart blankController) sessionOneOps

/-- Then `fs3_unmount_disk()`. -/
def sessionOneEnd : DriverState Controller × Int := fs3_unmount_disk faithfulNet sessionOne 0

/-- Then `fs3_mount_disk()` again. -/
def remounted : DriverState Controller × Int :=
  fs3_mount_disk tinyGeometry faithfulNet sessionOneEnd.1

/-- The calls between the two opens of the witness of the handle order: close, unmount and
mount. -/
def betweenOps : List DriverOp := [.close 1, .unmount 0, .mount]

/-- The globals before the first open of the witness of the handle order: cache of 8 lines
and mount. -/
def freshMount : DriverState Controller :=
  runDriver demoGeometry faithfulNet (driverStart cacheStart blankController)
    [.cache (.init 8), .mount]

/-- The driver at process start over a traced transport to a blank controller, with an
empty trace. -/
def tracedStart : DriverState (Controller × List Sent) :=
  driverStart cacheStart (blankController, [])

/-- Two mount sessions: in the first "a.txt" is created, one byte is written to it and it
is closed; after unmount and mount "b.txt" is created and one byte is written to it. -/
def remountOps : List DriverOp :=
  [.cache (.init 8), .mount, .openFile "a.txt", .write 1 [7] 1, .close 1, .unmount 0, .mount,
   .openFile "b.txt", .write 2 [9] 1]

/-- The trace of `remountOps` over the faithful transport, newest call first. -/
def remountTrace : List Sent :=
  (runDriver demoGeometry (traced faithfulNet) tracedStart remountOps).ctl.2

/-- A disk of two tracks with one sector each. -/
def twoTracks : Geometry := { FS3_MAX_TRACKS := 2, FS3_TRACK_SIZE := 1 }

/-- A controller like the faithful one whose head cannot reach track 1: the seek to
track 1 is answered with -1 and the status bit set, and the head stays. -/
def stuckSyscall (c : Controller) (cmd : Nat) (buf : List Nat) :
    Controller × Int × Nat × List Nat :=
  if opOf cmd = FS3_OP_TSEEK ∧ trkOf cmd = 1 then
    ({ c with log := cmd :: c.log }, -1, cmd + 2 ^ 11, buf)
  else controllerSyscall c cmd buf

/-- The transport to the controller of `stuckSyscall`. -/
def stuckNet : Transport Controller := { syscall := stuckSyscall }

/-- One mount session on `twoTracks`: "a.txt" gets the sector (0, 0) and "b.txt" the
sector (1, 0); the write to "b.txt" needs a seek to track 1; then "a.txt" is written
again from position 0. -/
def stuckOps : List DriverOp :=
  [.cache (.init 8), .mount, .openFile "a.txt", .openFile "b.txt", .write 1 [1] 1,
   .write 2 [2] 1, .seek 1 0, .write 1 [3] 1]

/-- The trace of `stuckOps` over `stuckNet`, newest call first. -/
def stuckTrace : List Sent :=
  (runDriver twoTracks (traced stuckNet) tracedStart stuckOps).ctl.2

/-- The globals after `sessionOps` over the traced faithful transport. -/
def tracedSession : DriverState (Controller × List Sent) :=
  runDriver demoGeometry (traced faithfulNet) tracedStart sessionOps

/-! ## Addresses in the cache -/

/-- Whether the address of a cache operation lies inside the disk geometry (`init` and
`close` carry no address). -/
def CacheOp.inGeometry (g : Geometry) : CacheOp → Bool
  | .put trk sct _ => decide (trk < g.FS3_MAX_TRACKS) && decide (sct < g.FS3_TRACK_SIZE)
  | .get trk sct => decide (trk < g.FS3_MAX_TRACKS) && decide (sct < g.FS3_TRACK_SIZE)
  | _ => true

/-- The invariant of the addresses in the cache: a line is as initialised or has a
non-negative address, and two different lines that are not as initialised have different
addresses. -/
def AddrInv (st : CacheState) : Prop :=
  ∀ lines, st.cache = some lines →
    (∀ l ∈ lines, l = emptyLine ∨ (0 ≤ l.ctrk ∧ 0 ≤ l.csec)) ∧
    ∀ (i j : Nat) (li lj : FS3Cache), i ≠ j → lines[i]? = some li → lines[j]? = some lj →
      li ≠ emptyLine → lj ≠ emptyLine → lineAddr li ≠ lineAddr lj

/-! ## Read plans -/

/-- The sectors a call `fs3_read(fd, buf, count)` on the open file `o` asks `readSector`
for, in this order: of the addresses of the disk that `o` owns, taken in increasing
(track, sector) order, the first `ofpos / FS3_SECTOR_SIZE` are passed over and the next
`numToRead` are read. -/
def readPlan (g : Geometry) (o : FS3OpenFile) (count : Nat) : List (Nat × Nat) :=
  ((((allAddrs g).filter (fun a => decide (o.ofloc a.1 a.2 = 1))).drop
    (o.ofpos / FS3_SECTOR_SIZE)).take (toInt16 (ceilDiv1024 count)).toNat)

/-- Reading the sectors of a list one after the other with `readSector`, each into the
next sector-sized stretch of the buffer from `pos` on, up to the first one that fails: the
globals afterwards and the buffer, `none` when a sector failed. -/
def readAll {σ : Type} (net : Transport σ) :
    List (Nat × Nat) → DriverState σ → List Nat → Nat → DriverState σ × Option (List Nat)
  | [], st, buf, _ => (st, some buf)
  | a :: rest, st, buf, pos =>
    match readSector net st a.1 a.2 with
    | (st1, none) => (st1, none)
    | (st1, some data) =>
      readAll net rest st1 (memcpyAt buf pos data FS3_SECTOR_SIZE) (pos + FS3_SECTOR_SIZE)

/-- The buffer `readBuf` that `fs3_read(fd, buf, count)` allocates and zeroes: `numToRead`
sectors.  (For a count of 2^15 sectors or more the `int16_t` value `numToRead` is not the
number of sectors of `count`; a negative size gives the empty buffer here.) -/
def readBuf (count : Nat) : List Nat :=
  List.replicate ((toInt16 (ceilDiv1024 count)).toNat * FS3_SECTOR_SIZE) 0

/-- The cache globals after `fs3_init_cache(32768)` at process start. -/
def halfRangeCache : CacheState := (fs3_init_cache cacheStart 32768).1

/-- After `openedBAgain`, which left the handles 3 and 4 open on "b.txt":
`fs3_write(4, [9], 1)`. -/
def doubleOpen : DriverState Controller × Int :=
  fs3_write demoGeometry faithfulNet openedBAgain.1 4 [9] 1

/-- Then `fs3_unmount_disk()`. -/
def doubleOpenEnd : DriverState Controller × Int :=
  fs3_unmount_disk faithfulNet doubleOpen.1 0

/-- A disk of one track with four sectors. -/
def oneTrack : Geometry := { FS3_MAX_TRACKS := 1, FS3_TRACK_SIZE := 4 }

/-- Two mount sessions on `oneTrack`.  First session: "a.txt" gets the sector (0, 0) with
first byte 1 and "b.txt" the sector (0, 1) with first byte 2; both are closed.  After
unmount and mount "b.txt" is opened again (handle 3). -/
def regrowOps : List DriverOp :=
  [.cache (.init 8), .mount, .openFile "a.txt", .openFile "b.txt", .write 1 [1] 1,
   .write 2 [2] 1, .close 1, .close 2, .unmount 0, .mount, .openFile "b.txt"]

/-- The globals after `regrowOps`. -/
def regrowStart : DriverState Controller :=
  runDriver oneTrack faithfulNet (driverStart cacheStart blankController) regrowOps

/-- Then `fs3_seek(3, 1024)` and `fs3_write(3, [5], 1)`: one byte appended to "b.txt". -/
def regrown : DriverState Controller × Int :=
  fs3_write oneTrack faithfulNet (fs3_seek regrowStart 3 1024).1 3 [5] 1

/-- After `tinyWrite`: `fs3_seek(1, 0)`, back to the start of the file that owns the only
sector of the disk. -/
def tinySeek : DriverState Controller × Int := fs3_seek tinyWrite.1 1 0

theorem scanLines_some (p : FS3Cache → Bool) : ∀ (ls : List FS3Cache) (n i k : Nat),
    scanLines p ls n i = some k →
    ∃ j l, k = i + j ∧ j < n ∧ ls[j]? = some l ∧ p l = true ∧
      ∀ m l', m < j → ls[m]? = some l' → p l' = false := by
  intro ls
  induction ls with
  | nil => intro n i k h; simp [scanLines] at h
  | cons a ls ih =>
    intro n i k h
    cases n with
    | zero => simp [scanLines] at h
    | succ n =>
      simp only [scanLines] at h
      by_cases hp : p a = true
      · rw [if_pos hp] at h
        refine ⟨0, a, ?_, Nat.succ_pos n, by simp, hp, ?_⟩
        · simpa using (Option.some.inj h).symm
        · intro m l' hm; omega
      · rw [if_neg hp] at h
        obtain ⟨j, l, hk, hj, hl, hpl, hbefore⟩ := ih n (i + 1) k h
        refine ⟨j + 1, l, by omega, by omega, by simpa using hl, hpl, ?_⟩
        intro m l' hm hml
        cases m with
        | zero =>
          simp at hml; subst hml; simpa using hp
        | succ m =>
          exact hbefore m l' (by omega) (by simpa using hml)

/-- A failed scan means that no line of the scanned range satisfies the test. -/
theorem scanLines_none (p : FS3Cache → Bool) : ∀ (ls : List FS3Cache) (n i : Nat),
    scanLines p ls n i = none →
    ∀ m l', m < n → ls[m]? = some l' → p l' = false := by
  intro ls
  induction ls with
  | nil => intro n i _ m l' _ h; simp at h
  | cons a ls ih =>
    intro n i h m l' hm hml
    cases n with
    | zero => omega
    | succ n =>
      simp only [scanLines] at h
      by_cases hp : p a = true
      · rw [if_pos hp] at h; simp at h
      · rw [if_neg hp] at h
        cases m with
        | zero => simp at hml; subst hml; simpa using hp
        | succ m => exact ih n (i + 1) h m l' (by omega) (by simpa using hml)

/-- The loop of `fs3_lru_idx` either keeps the index it started with, when no scanned stamp
is below the starting value, or returns the first index of the smallest scanned stamp. -/
theorem lruLoop_spec : ∀ (ls : List FS3Cache) (n i : Nat) (smallest idx : Int),
    (lruLoop ls n i smallest idx = idx ∧
      ∀ m l, m < n → ls[m]? = some l → smallest ≤ l.lastAccess) ∨
    (∃ j l, lruLoop ls n i smallest idx = ((i + j : Nat) : Int) ∧ j < n ∧ ls[j]? = some l ∧
      l.lastAccess < smallest ∧
      (∀ m l', m < n → ls[m]? = some l' → l.lastAccess ≤ l'.lastAccess) ∧
      (∀ m l', m < j → ls[m]? = some l' → l.lastAccess < l'.lastAccess)) := by
  intro ls
  induction ls with
  | nil =>
    intro n i smallest idx
    left
    refine ⟨by simp [lruLoop], ?_⟩
    intro m l _ h; simp at h
  | cons a ls ih =>
    intro n i smallest idx
    cases n with
    | zero =>
      left
      refine ⟨by simp [lruLoop], ?_⟩
      intro m l hm; omega
    | succ n =>
      simp only [lruLoop]
      by_cases hlt : a.lastAccess < smallest
      · rw [if_pos hlt]
        right
        rcases ih n (i + 1) a.lastAccess (i : Int) with ⟨heq, hall⟩ | ⟨j, l, heq, hj, hl, hls, hmin, hfirst⟩
        · refine ⟨0, a, by simpa using heq, Nat.succ_pos n, by simp, hlt, ?_, ?_⟩
          · intro m l' hm hml
            cases m with
            | zero => simp at hml; subst hml; exact le_refl _
            | succ m => exact hall m l' (by omega) (by simpa using hml)
          · intro m l' hm; omega
        · refine ⟨j + 1, l, ?_, by omega, by simpa using hl, by omega, ?_, ?_⟩
          · rw [heq]; congr 1; omega
          · intro m l' hm hml
            cases m with
            | zero => simp at hml; subst hml; omega
            | succ m => exact hmin m l' (by omega) (by simpa using hml)
          · intro m l' hm hml
            cases m with
            | zero => simp at hml; subst hml; exact hls
            | succ m => exact hfirst m l' (by omega) (by simpa using hml)
      · rw [if_neg hlt]
        rcases ih n (i + 1) smallest idx with ⟨heq, hall⟩ | ⟨j, l, heq, hj, hl, hls, hmin, hfirst⟩
        · left
          refine ⟨heq, ?_⟩
          intro m l' hm hml
          cases m with
          | zero => simp at hml; subst hml; omega
          | succ m => exact hall m l' (by omega) (by simpa using hml)
        · right
          refine ⟨j + 1, l, ?_, by omega, by simpa using hl, hls, ?_, ?_⟩
          · rw [heq]; congr 1; omega
          · intro m l' hm hml
            cases m with
            | zero => simp at hml; subst hml; omega
            | succ m => exact hmin m l' (by omega) (by simpa using hml)
          · intro m l' hm hml
            cases m with
            | zero => simp at hml; subst hml; omega
            | succ m => exact hfirst m l' (by omega) (by simpa using hml)


/-- A line of a list modified at index `k` is a line of the old list or the image of the old
line `k`. -/
theorem mem_modify (f : FS3Cache → FS3Cache) (lines : List FS3Cache) (k : Nat) (l : FS3Cache)
    (h : l ∈ lines.modify f k) :
    l ∈ lines ∨ ∃ l0, lines[k]? = some l0 ∧ l = f l0 := by
  obtain ⟨m, hm⟩ := List.mem_iff_getElem?.mp h
  rw [List.getElem?_modify] at hm
  cases hl : lines[m]? with
  | none => rw [hl] at hm; simp at hm
  | some a =>
    rw [hl] at hm
    simp only [Option.map_eq_map, Option.map_some', Option.some.injEq] at hm
    by_cases hkm : k = m
    · right
      subst hkm
      refine ⟨a, hl, ?_⟩
      simpa using hm.symm
    · left
      rw [if_neg hkm] at hm
      subst hm
      exact List.mem_iff_getElem?.mpr ⟨m, hl⟩

/-- Modifying an existing line is setting it to its image. -/
theorem modify_eq_set (f : FS3Cache → FS3Cache) : ∀ (lines : List FS3Cache) (k : Nat) (l0 : FS3Cache),
    lines[k]? = some l0 → lines.modify f k = lines.set k (f l0) := by
  intro lines
  induction lines with
  | nil => intro k l0 h; simp at h
  | cons a ls ih =>
    intro k l0 h
    cases k with
    | zero => simp at h; subst h; simp
    | succ k =>
      simp at h
      simp [ih k l0 h]

/-- `LineOk` is kept when the clock advances. -/
theorem lineOk_mono {c c' : Int} {l : FS3Cache} (h : LineOk c l) (hc : c ≤ c') : LineOk c' l :=
  ⟨lt_of_lt_of_le h.1 hc, h.2⟩

/-- Values below 2^15 are unchanged by the conversion to `int16_t`. -/
theorem toInt16_of_lt (n : Nat) (h : n < 2 ^ 15) : toInt16 (n : Int) = (n : Int) := by
  unfold toInt16; omega

/-- Values from 2^15 to 2^16 - 1 become negative in an `int16_t`. -/
theorem toInt16_neg_of_ge (n : Nat) (h1 : 2 ^ 15 ≤ n) (h2 : n < 2 ^ 16) : toInt16 (n : Int) < 0 := by
  unfold toInt16; omega

/-- `fs3_put_cache` when the first loop finds the address at line `k`. -/
theorem put_overwrite (st : CacheState) (lines : List FS3Cache) (trk sct : Nat) (buf : List Nat)
    (k : Nat) (hc : st.cache = some lines)
    (hs : scanLines (lineMatches trk sct) lines st.cacheSize.toNat 0 = some k) :
    fs3_put_cache st trk sct buf =
      ({ st with cache := some (lines.modify (overwriteLine buf st.nextAccess) k),
                 nextAccess := st.nextAccess + 1,
                 cacheInserts := st.cacheInserts + 1 }, 0) := by
  simp [fs3_put_cache, hc, hs]

/-- `fs3_put_cache` when the address is absent and the fill loop finds the unused line `k`. -/
theorem put_fill (st : CacheState) (lines : List FS3Cache) (trk sct : Nat) (buf : List Nat)
    (k : Nat) (hc : st.cache = some lines)
    (hs : scanLines (lineMatches trk sct) lines st.cacheSize.toNat 0 = none)
    (hu : scanLines lineUnused lines st.cacheSize.toNat 0 = some k) :
    fs3_put_cache st trk sct buf =
      ({ st with cache := some (lines.modify (fillLine trk sct buf st.nextAccess) k),
                 nextAccess := st.nextAccess + 1,
                 cacheItems := toInt16 (st.cacheItems + 1),
                 cacheInserts := st.cacheInserts + 1 }, 0) := by
  simp [fs3_put_cache, hc, hs, hu]

/-- `fs3_put_cache` when the address is absent and no scanned line is unused. -/
theorem put_evict (st : CacheState) (lines : List FS3Cache) (trk sct : Nat) (buf : List Nat)
    (hc : st.cache = some lines)
    (hs : scanLines (lineMatches trk sct) lines st.cacheSize.toNat 0 = none)
    (hu : scanLines lineUnused lines st.cacheSize.toNat 0 = none) :
    fs3_put_cache st trk sct buf =
      if fs3_lru_idx lines st.nextAccess st.cacheSize = -1 then (st, -1)
      else
        ({ st with cache := some (lines.modify (evictLine trk sct buf st.nextAccess)
                      (fs3_lru_idx lines st.nextAccess st.cacheSize).toNat),
                   nextAccess := st.nextAccess + 1,
                   cacheInserts := st.cacheInserts + 1 }, 0) := by
  simp [fs3_put_cache, hc, hs, hu]

/-- `fs3_get_cache` when the loop finds the address at line `k`. -/
theorem get_hit (st : CacheState) (lines : List FS3Cache) (trk sct : Nat)
    (k : Nat) (hc : st.cache = some lines)
    (hs : scanLines (lineMatches trk sct) lines st.cacheSize.toNat 0 = some k) :
    fs3_get_cache st trk sct =
      ({ st with cache := some (lines.modify (fun l => { l with lastAccess := st.nextAccess }) k),
                 nextAccess := st.nextAccess + 1,
                 cacheGets := st.cacheGets + 1,
                 cacheHits := st.cacheHits + 1 },
       (lines.get? k).bind (fun l => l.dataBuf)) := by
  simp [fs3_get_cache, hc, hs]

/-- `fs3_get_cache` when the loop does not find the address. -/
theorem get_miss (st : CacheState) (lines : List FS3Cache) (trk sct : Nat)
    (hc : st.cache = some lines)
    (hs : scanLines (lineMatches trk sct) lines st.cacheSize.toNat 0 = none) :
    fs3_get_cache st trk sct =
      ({ st with cacheGets := st.cacheGets + 1, cacheMisses := st.cacheMisses + 1 }, none) := by
  simp [fs3_get_cache, hc, hs]


/-- A scan over zero lines finds nothing. -/
theorem scanLines_zero (p : FS3Cache → Bool) (ls : List FS3Cache) (i : Nat) :
    scanLines p ls 0 i = none := by
  cases ls <;> rfl

/-- The loop of `fs3_lru_idx` over zero lines keeps the starting index. -/
theorem lruLoop_zero (ls : List FS3Cache) (i : Nat) (s idx : Int) :
    lruLoop ls 0 i s idx = idx := by
  cases ls <;> rfl

/-- A line that matches an address is not a line as initialised. -/
theorem not_empty_of_matches {trk sct : Nat} {l : FS3Cache} (h : lineMatches trk sct l = true) :
    l ≠ emptyLine := by
  intro he
  subst he
  simp [lineMatches, emptyLine] at h

/-- A line whose stamp is not the sentinel is not a line as initialised. -/
theorem not_empty_of_used {l : FS3Cache} (h : lineUnused l = false) : l ≠ emptyLine := by
  intro he
  subst he
  simp [lineUnused, emptyLine] at h

/-- A `LineOk` line that is not as initialised has a non-negative stamp and a buffer. -/
theorem hasBuf_of_ok {c : Int} {l : FS3Cache} (h : LineOk c l) (hne : l ≠ emptyLine) :
    0 ≤ l.lastAccess ∧ l.dataBuf.isSome = true := by
  rcases h.2 with he | h2
  · exact absurd he hne
  · exact h2

/-- The invariant survives a change of one line into a `LineOk` line together with a clock
tick, when `cacheSize` is the number of lines. -/
theorem inv_modify (st st' : CacheState) (lines : List FS3Cache) (k : Nat)
    (f : FS3Cache → FS3Cache) (hinv : CacheInv st) (hc : st.cache = some lines)
    (hsz : st.cacheSize = (lines.length : Int))
    (hc' : st'.cache = some (lines.modify f k)) (hn : st'.nextAccess = st.nextAccess + 1)
    (hs : st'.cacheSize = st.cacheSize)
    (hf : ∀ l0, lines[k]? = some l0 → LineOk (st.nextAccess + 1) (f l0)) : CacheInv st' := by
  obtain ⟨hclk, hall⟩ := hinv
  obtain ⟨hlen, hok, hsize⟩ := hall lines hc
  refine ⟨by omega, ?_⟩
  intro lines' hl'
  rw [hc'] at hl'
  cases hl'
  refine ⟨by simpa using hlen, ?_, ?_⟩
  · intro l hl
    rcases mem_modify f lines k l hl with hmem | ⟨l0, hl0, rfl⟩
    · rw [hn]; exact lineOk_mono (hok l hmem) (by omega)
    · rw [hn]; exact hf l0 hl0
  · left
    rcases hsize with ⟨_, hlt⟩ | ⟨hneg, _⟩
    · exact ⟨by simpa [hs] using hsz, by simpa using hlt⟩
    · omega

/-- Under the invariant either `cacheSize` is the number of lines, or the loops scan nothing
and no line was ever used. -/
theorem size_cases (st : CacheState) (lines : List FS3Cache) (hinv : CacheInv st)
    (hc : st.cache = some lines) :
    (st.cacheSize = (lines.length : Int) ∧ lines.length < 2 ^ 15 ∧ st.cacheSize.toNat = lines.length) ∨
    (st.cacheSize.toNat = 0 ∧ ∀ l ∈ lines, l = emptyLine) := by
  rcases (hinv.2 lines hc).2.2 with ⟨h1, h2⟩ | ⟨h1, h2⟩
  · left; exact ⟨h1, h2, by omega⟩
  · right; exact ⟨by omega, h2⟩

/-- With at least one line and every stamp below the clock, `fs3_lru_idx` returns the first
index of the smallest stamp. -/
theorem lru_found (lines : List FS3Cache) (clock : Int) (hlen : 0 < lines.length)
    (hlt : lines.length < 2 ^ 15) (hok : ∀ l ∈ lines, l.lastAccess < clock) :
    ∃ (k : Nat) (l : FS3Cache), fs3_lru_idx lines clock (lines.length : Int) = (k : Int) ∧ k < lines.length ∧
      lines[k]? = some l ∧
      (∀ (m : Nat) (l' : FS3Cache), lines[m]? = some l' → l.lastAccess ≤ l'.lastAccess) ∧
      (∀ (m : Nat) (l' : FS3Cache), m < k → lines[m]? = some l' →
        l.lastAccess < l'.lastAccess) := by
  unfold fs3_lru_idx
  rw [Int.toNat_ofNat]
  rcases lruLoop_spec lines lines.length 0 clock (-1) with ⟨_, hall⟩ | ⟨j, l, heq, hj, hl, _, hmin, hfirst⟩
  · exfalso
    have h0 : lines[0]? = some (lines[0]) := List.getElem?_eq_getElem hlen
    have := hall 0 _ hlen h0
    have := hok _ (List.getElem_mem hlen)
    omega
  · refine ⟨j, l, ?_, hj, hl, ?_, hfirst⟩
    · rw [heq]; simp only [Nat.zero_add]; exact toInt16_of_lt j (by omega)
    · intro m l' hml
      have hm : m < lines.length := by
        by_contra hge
        rw [List.getElem?_eq_none (by omega)] at hml
        cases hml
      exact hmin m l' hm hml


/-- The invariant holds at process start. -/
theorem inv_start : CacheInv cacheStart := by
  refine ⟨by simp [cacheStart], ?_⟩
  intro lines h
  simp [cacheStart] at h

/-- `fs3_init_cache` keeps the invariant. -/
theorem inv_init (st : CacheState) (c : Nat) (hc : c < 2 ^ 16) (hinv : CacheInv st) :
    CacheInv (fs3_init_cache st c).1 := by
  unfold fs3_init_cache
  split
  · exact hinv
  · split
    · exact hinv
    · rename_i h0
      refine ⟨hinv.1, ?_⟩
      intro lines hl
      simp only [Option.some.injEq] at hl
      subst hl
      refine ⟨by simpa using Nat.pos_of_ne_zero h0, ?_, ?_⟩
      · intro l hl
        rw [List.eq_of_mem_replicate hl]
        exact ⟨by have := hinv.1; simp [emptyLine]; omega, Or.inl rfl⟩
      · by_cases hsmall : c < 2 ^ 15
        · left
          simp only [List.length_replicate]
          exact ⟨toInt16_of_lt c hsmall, hsmall⟩
        · right
          exact ⟨toInt16_neg_of_ge c (by omega) hc, fun l hl => List.eq_of_mem_replicate hl⟩

/-- `fs3_close_cache` keeps the invariant. -/
theorem inv_close (st : CacheState) (hinv : CacheInv st) : CacheInv (fs3_close_cache st).1 := by
  unfold fs3_close_cache
  split
  · exact hinv
  · refine ⟨hinv.1, ?_⟩
    intro lines hl
    simp at hl

/-- `fs3_put_cache` keeps the invariant. -/
theorem inv_put (st : CacheState) (trk sct : Nat) (buf : List Nat) (hinv : CacheInv st) :
    CacheInv (fs3_put_cache st trk sct buf).1 := by
  cases hc : st.cache with
  | none => simpa [fs3_put_cache, hc] using hinv
  | some lines =>
    obtain ⟨hlen, hok, _⟩ := hinv.2 lines hc
    rcases size_cases st lines hinv hc with ⟨hsz, hlt, hn⟩ | ⟨hn, hempty⟩
    · cases hs : scanLines (lineMatches trk sct) lines st.cacheSize.toNat 0 with
      | some k =>
        rw [put_overwrite st lines trk sct buf k hc hs]
        refine inv_modify st _ lines k _ hinv hc hsz rfl rfl rfl ?_
        intro l0 hl0
        obtain ⟨j, l, hk, _, hl, hp, _⟩ := scanLines_some _ _ _ _ _ hs
        have hkj : k = j := by omega
        subst hkj
        rw [hl0] at hl
        cases hl
        have hb := hasBuf_of_ok (hok l0 (List.mem_iff_getElem?.mpr ⟨k, hl0⟩))
          (not_empty_of_matches hp)
        refine ⟨by simp [overwriteLine], Or.inr ⟨by simpa [overwriteLine] using hinv.1, ?_⟩⟩
        simpa [overwriteLine] using hb.2
      | none =>
        cases hu : scanLines lineUnused lines st.cacheSize.toNat 0 with
        | some k =>
          rw [put_fill st lines trk sct buf k hc hs hu]
          refine inv_modify st _ lines k _ hinv hc hsz rfl rfl rfl ?_
          intro l0 _
          exact ⟨by simp [fillLine], Or.inr ⟨by simpa [fillLine] using hinv.1, by simp [fillLine]⟩⟩
        | none =>
          rw [put_evict st lines trk sct buf hc hs hu]
          split
          · exact hinv
          · refine inv_modify st _ lines _ _ hinv hc hsz rfl rfl rfl ?_
            intro l0 hl0
            have hmem : l0 ∈ lines := List.mem_iff_getElem?.mpr ⟨_, hl0⟩
            obtain ⟨m, hm⟩ := List.mem_iff_getElem?.mp hmem
            have hmlt : m < lines.length := by
              by_contra hge
              rw [List.getElem?_eq_none (by omega)] at hm
              cases hm
            have hused := scanLines_none _ _ _ _ hu m l0 (by omega) hm
            have hb := hasBuf_of_ok (hok l0 hmem) (not_empty_of_used hused)
            refine ⟨by simp [evictLine], Or.inr ⟨by simpa [evictLine] using hinv.1, ?_⟩⟩
            simpa [evictLine] using hb.2
    · have hs : scanLines (lineMatches trk sct) lines st.cacheSize.toNat 0 = none := by
        rw [hn]; exact scanLines_zero _ _ _
      have hu : scanLines lineUnused lines st.cacheSize.toNat 0 = none := by
        rw [hn]; exact scanLines_zero _ _ _
      rw [put_evict st lines trk sct buf hc hs hu]
      have hl : fs3_lru_idx lines st.nextAccess st.cacheSize = -1 := by
        unfold fs3_lru_idx
        rw [hn, lruLoop_zero]
        decide
      rw [if_pos hl]
      exact hinv

/-- `fs3_get_cache` keeps the invariant. -/
theorem inv_get (st : CacheState) (trk sct : Nat) (hinv : CacheInv st) :
    CacheInv (fs3_get_cache st trk sct).1 := by
  cases hc : st.cache with
  | none => simpa [fs3_get_cache, hc, CacheInv] using hinv
  | some lines =>
    obtain ⟨hlen, hok, _⟩ := hinv.2 lines hc
    cases hs : scanLines (lineMatches trk sct) lines st.cacheSize.toNat 0 with
    | some k =>
      rw [get_hit st lines trk sct k hc hs]
      rcases size_cases st lines hinv hc with ⟨hsz, hlt, hn⟩ | ⟨hn, hempty⟩
      · refine inv_modify st _ lines k _ hinv hc hsz rfl rfl rfl ?_
        intro l0 hl0
        obtain ⟨j, l, hk, _, hl, hp, _⟩ := scanLines_some _ _ _ _ _ hs
        have hkj : k = j := by omega
        subst hkj
        rw [hl0] at hl
        cases hl
        have hb := hasBuf_of_ok (hok l0 (List.mem_iff_getElem?.mpr ⟨k, hl0⟩))
          (not_empty_of_matches hp)
        exact ⟨by simp, Or.inr ⟨by simpa using hinv.1, by simpa using hb.2⟩⟩
      · rw [hn, scanLines_zero] at hs
        cases hs
    | none =>
      rw [get_miss st lines trk sct hc hs]
      exact hinv

/-- Every cache operation keeps the invariant. -/
theorem inv_run (st : CacheState) (op : CacheOp) (hinv : CacheInv st) : CacheInv (op.run st) := by
  cases op with
  | init c => exact inv_init st _ (Nat.mod_lt _ (by norm_num)) hinv
  | close => exact inv_close st hinv
  | put trk sct buf => exact inv_put st trk sct buf hinv
  | get trk sct => exact inv_get st trk sct hinv

/-- Every sequence of cache operations keeps the invariant. -/
theorem inv_runCache (ops : List CacheOp) : ∀ st, CacheInv st → CacheInv (runCache st ops) := by
  induction ops with
  | nil => intro st h; exact h
  | cons op ops ih =>
    intro st h
    exact ih _ (inv_run st op h)

/-- Every reachable state satisfies the invariant. -/
theorem inv_of_reachable {st : CacheState} (h : CacheReachable st) : CacheInv st := by
  obtain ⟨ops, rfl⟩ := h
  exact inv_runCache ops _ inv_start

/-- A scan returns index `k` when line `k` is in range and satisfies the test and no earlier
line does. -/
theorem scanLines_eq_some (p : FS3Cache → Bool) : ∀ (ls : List FS3Cache) (n i k : Nat)
    (l : FS3Cache), k < n → ls[k]? = some l → p l = true →
    (∀ (m : Nat) (l' : FS3Cache), m < k → ls[m]? = some l' → p l' = false) →
    scanLines p ls n i = some (i + k) := by
  intro ls
  induction ls with
  | nil => intro n i k l _ h; simp at h
  | cons a ls ih =>
    intro n i k l hk hl hp hbefore
    cases n with
    | zero => omega
    | succ n =>
      simp only [scanLines]
      cases k with
      | zero =>
        simp at hl
        subst hl
        simp [hp]
      | succ k =>
        have ha : p a = false := hbefore 0 a (by omega) (by simp)
        simp only [ha, Bool.false_eq_true, if_false]
        rw [ih n (i + 1) k l (by omega) (by simpa using hl) hp
          (fun m l' hm hml => hbefore (m + 1) l' (by omega) (by simpa using hml))]
        congr 1
        omega

/-- How a count over the lines changes when line `k` is modified. -/
theorem countP_modify (p : FS3Cache → Bool) (f : FS3Cache → FS3Cache) :
    ∀ (lines : List FS3Cache) (k : Nat) (l0 : FS3Cache), lines[k]? = some l0 →
    (lines.modify f k).countP p + (if p l0 = true then 1 else 0)
      = lines.countP p + (if p (f l0) = true then 1 else 0) := by
  intro lines
  induction lines with
  | nil => intro k l0 h; simp at h
  | cons a ls ih =>
    intro k l0 h
    cases k with
    | zero =>
      simp at h
      subst h
      simp only [List.modify_zero_cons, List.countP_cons]
      omega
    | succ k =>
      simp at h
      have := ih k l0 h
      simp only [List.modify_succ_cons, List.countP_cons]
      omega


/-- A line with a non-negative stamp counts as used. -/
theorem used_of_stamp {l : FS3Cache} (h : 0 ≤ l.lastAccess) : (!lineUnused l) = true := by
  simp [lineUnused]
  omega

/-- The item invariant survives a change of a used line into a used line. -/
theorem items_modify_used (st st' : CacheState) (lines : List FS3Cache) (k : Nat)
    (f : FS3Cache → FS3Cache) (l0 : FS3Cache) (hit : ItemsInv st) (hc : st.cache = some lines)
    (hl0 : lines[k]? = some l0) (hc' : st'.cache = some (lines.modify f k))
    (hi : st'.cacheItems = st.cacheItems)
    (h0 : (!lineUnused l0) = true) (h1 : (!lineUnused (f l0)) = true) : ItemsInv st' := by
  refine ⟨fun h => (by rw [hc'] at h; cases h), ?_⟩
  intro lines' hl'
  rw [hc'] at hl'
  cases hl'
  have := countP_modify (fun l => !lineUnused l) f lines k l0 hl0
  simp only [h0, h1, if_true] at this
  rw [hi, hit.2 lines hc]
  unfold usedLines
  omega

/-- `fs3_put_cache` keeps the item invariant. -/
theorem items_put (st : CacheState) (trk sct : Nat) (buf : List Nat) (hinv : CacheInv st)
    (hit : ItemsInv st) : ItemsInv (fs3_put_cache st trk sct buf).1 := by
  cases hc : st.cache with
  | none => simpa [fs3_put_cache, hc] using hit
  | some lines =>
    obtain ⟨hlen, hok, _⟩ := hinv.2 lines hc
    rcases size_cases st lines hinv hc with ⟨hsz, hlt, hn⟩ | ⟨hn, hempty⟩
    · cases hs : scanLines (lineMatches trk sct) lines st.cacheSize.toNat 0 with
      | some k =>
        rw [put_overwrite st lines trk sct buf k hc hs]
        obtain ⟨j, l, hk, _, hl, hp, _⟩ := scanLines_some _ _ _ _ _ hs
        have hkj : k = j := by omega
        subst hkj
        have hb := hasBuf_of_ok (hok l (List.mem_iff_getElem?.mpr ⟨k, hl⟩))
          (not_empty_of_matches hp)
        exact items_modify_used st _ lines k _ l hit hc hl rfl rfl (used_of_stamp hb.1)
          (used_of_stamp (by simpa [overwriteLine] using hinv.1))
      | none =>
        cases hu : scanLines lineUnused lines st.cacheSize.toNat 0 with
        | some k =>
          rw [put_fill st lines trk sct buf k hc hs hu]
          obtain ⟨j, l, hk, _, hl, hp, _⟩ := scanLines_some _ _ _ _ _ hu
          have hkj : k = j := by omega
          subst hkj
          refine ⟨fun h => (by cases h), ?_⟩
          intro lines' hl'
          cases hl'
          have hcnt := countP_modify (fun l => !lineUnused l)
            (fillLine trk sct buf st.nextAccess) lines k l hl
          have h1 : (!lineUnused (fillLine trk sct buf st.nextAccess l)) = true :=
            used_of_stamp (by simpa [fillLine] using hinv.1)
          simp only [hp, h1, Bool.not_true, Bool.false_eq_true, if_false, if_true] at hcnt
          have hle := List.countP_le_length (fun l => !lineUnused l)
            (l := lines.modify (fillLine trk sct buf st.nextAccess) k)
          rw [List.length_modify] at hle
          show toInt16 (st.cacheItems + 1) = _
          rw [hit.2 lines hc]
          unfold usedLines at *
          have : ((List.countP (fun l => !lineUnused l) lines : Nat) : Int) + 1
              = ((List.countP (fun l => !lineUnused l) lines + 1 : Nat) : Int) := by
            push_cast; rfl
          rw [this, toInt16_of_lt _ (by omega)]
          congr 1
          omega
        | none =>
          rw [put_evict st lines trk sct buf hc hs hu]
          split
          · exact hit
          · obtain ⟨k, victim, hidx, hk, hv, _, _⟩ :=
              lru_found lines st.nextAccess hlen hlt (fun l hl => (hok l hl).1)
            rw [hsz, hidx, Int.toNat_ofNat]
            have hused := scanLines_none _ _ _ _ hu k victim (by omega) hv
            have hb := hasBuf_of_ok (hok victim (List.mem_iff_getElem?.mpr ⟨k, hv⟩))
              (not_empty_of_used hused)
            exact items_modify_used st _ lines k _ victim hit hc hv rfl rfl
              (used_of_stamp hb.1) (used_of_stamp (by simpa [evictLine] using hinv.1))
    · have hs : scanLines (lineMatches trk sct) lines st.cacheSize.toNat 0 = none := by
        rw [hn]; exact scanLines_zero _ _ _
      have hu : scanLines lineUnused lines st.cacheSize.toNat 0 = none := by
        rw [hn]; exact scanLines_zero _ _ _
      rw [put_evict st lines trk sct buf hc hs hu]
      have hl : fs3_lru_idx lines st.nextAccess st.cacheSize = -1 := by
        unfold fs3_lru_idx
        rw [hn, lruLoop_zero]
        decide
      rw [if_pos hl]
      exact hit

/-- `fs3_get_cache` keeps the item invariant. -/
theorem items_get (st : CacheState) (trk sct : Nat) (hinv : CacheInv st) (hit : ItemsInv st) :
    ItemsInv (fs3_get_cache st trk sct).1 := by
  cases hc : st.cache with
  | none => simpa [fs3_get_cache, hc, ItemsInv] using hit
  | some lines =>
    obtain ⟨hlen, hok, _⟩ := hinv.2 lines hc
    cases hs : scanLines (lineMatches trk sct) lines st.cacheSize.toNat 0 with
    | some k =>
      rw [get_hit st lines trk sct k hc hs]
      obtain ⟨j, l, hk, _, hl, hp, _⟩ := scanLines_some _ _ _ _ _ hs
      have hkj : k = j := by omega
      subst hkj
      have hb := hasBuf_of_ok (hok l (List.mem_iff_getElem?.mpr ⟨k, hl⟩))
        (not_empty_of_matches hp)
      exact items_modify_used st _ lines k _ l hit hc hl rfl rfl (used_of_stamp hb.1)
        (used_of_stamp (by simpa using hinv.1))
    | none =>
      rw [get_miss st lines trk sct hc hs]
      exact hit

/-- `fs3_init_cache` keeps the item invariant. -/
theorem items_init (st : CacheState) (c : Nat) (hit : ItemsInv st) :
    ItemsInv (fs3_init_cache st c).1 := by
  unfold fs3_init_cache
  split
  · exact hit
  · split
    · exact hit
    · rename_i h1 _
      have hnone : st.cache = none := by
        cases hc : st.cache with
        | none => rfl
        | some l => simp [hc] at h1
      refine ⟨fun h => (by cases h), ?_⟩
      intro lines hl
      simp only [Option.some.injEq] at hl
      subst hl
      show st.cacheItems = _
      rw [hit.1 hnone]
      unfold usedLines
      rw [List.countP_eq_zero.mpr]
      · rfl
      · intro l hl
        rw [List.eq_of_mem_replicate hl]
        decide

/-- `fs3_close_cache` keeps the item invariant. -/
theorem items_close (st : CacheState) (hit : ItemsInv st) : ItemsInv (fs3_close_cache st).1 := by
  unfold fs3_close_cache
  split
  · exact hit
  · exact ⟨fun _ => rfl, fun lines h => by cases h⟩

/-- Every sequence of cache operations keeps the item invariant. -/
theorem items_runCache (ops : List CacheOp) :
    ∀ st, CacheInv st → ItemsInv st → ItemsInv (runCache st ops) := by
  induction ops with
  | nil => intro st _ h; exact h
  | cons op ops ih =>
    intro st hinv hit
    refine ih _ (inv_run st op hinv) ?_
    cases op with
    | init c => exact items_init st _ hit
    | close => exact items_close st hit
    | put trk sct buf => exact items_put st trk sct buf hinv hit
    | get trk sct => exact items_get st trk sct hinv hit

/-- In every reachable state the item counter is the number of used lines. -/
theorem items_of_reachable {st : CacheState} (h : CacheReachable st) : ItemsInv st := by
  obtain ⟨ops, rfl⟩ := h
  exact items_runCache ops _ inv_start ⟨fun _ => rfl, fun lines h => by cases h⟩


/-- After line `k` was changed into a line with the address and a payload, and no earlier
line has the address, `fs3_get_cache` returns that payload. -/
theorem get_after_modify (st' : CacheState) (lines : List FS3Cache) (k : Nat)
    (f : FS3Cache → FS3Cache) (l0 : FS3Cache) (trk sct : Nat) (payload : List Nat)
    (hc' : st'.cache = some (lines.modify f k)) (hk : k < st'.cacheSize.toNat)
    (hl0 : lines[k]? = some l0) (hm : lineMatches trk sct (f l0) = true)
    (hd : (f l0).dataBuf = some payload)
    (hbefore : ∀ (m : Nat) (l : FS3Cache), m < k → lines[m]? = some l →
      lineMatches trk sct l = false) :
    (fs3_get_cache st' trk sct).2 = some payload := by
  have hk' : (lines.modify f k)[k]? = some (f l0) := by
    rw [List.getElem?_modify_eq, hl0]; rfl
  have hscan : scanLines (lineMatches trk sct) (lines.modify f k) st'.cacheSize.toNat 0
      = some k := by
    have := scanLines_eq_some (lineMatches trk sct) (lines.modify f k) st'.cacheSize.toNat 0 k
      (f l0) hk hk' hm (by
        intro m l hmk hml
        rw [List.getElem?_modify_ne _ _ (by omega)] at hml
        exact hbefore m l hmk hml)
    simpa using this
  rw [get_hit st' _ trk sct k hc' hscan]
  simp [List.get?_eq_getElem?, hk', hd]

/-- The round trip of C4 on a cache whose capacity fits `cacheSize`: in a reachable state
with `0 ≤ cacheSize`, for an address with both coordinates below 2^15, `fs3_put_cache`
succeeds and the following `fs3_get_cache` returns the payload just stored. -/
theorem put_then_get (st : CacheState) (lines : List FS3Cache) (trk sct : Nat)
    (buf : List Nat) (hreach : CacheReachable st) (hc : st.cache = some lines)
    (hsize : 0 ≤ st.cacheSize) (htrk : trk < 2 ^ 15) (hsct : sct < 2 ^ 15) :
    (fs3_put_cache st trk sct buf).2 = 0 ∧
      (fs3_get_cache (fs3_put_cache st trk sct buf).1 trk sct).2 = some (sectorOf buf) := by
  have hinv := inv_of_reachable hreach
  obtain ⟨hlen, hok, _⟩ := hinv.2 lines hc
  have hnew : lineMatches trk sct (newLine trk sct buf st.nextAccess) = true := by
    simp [lineMatches, newLine, toInt16_of_lt trk htrk, toInt16_of_lt sct hsct]
  rcases size_cases st lines hinv hc with ⟨hsz, hlt, hn⟩ | ⟨hn, hempty⟩
  · cases hs : scanLines (lineMatches trk sct) lines st.cacheSize.toNat 0 with
    | some k =>
      obtain ⟨j, l, hk, hjn, hl, hp, hbefore⟩ := scanLines_some _ _ _ _ _ hs
      have hkj : k = j := by omega
      subst hkj
      obtain ⟨b, hb⟩ := Option.isSome_iff_exists.mp
        (hasBuf_of_ok (hok l (List.mem_iff_getElem?.mpr ⟨k, hl⟩)) (not_empty_of_matches hp)).2
      rw [put_overwrite st lines trk sct buf k hc hs]
      refine ⟨rfl, get_after_modify _ lines k _ l trk sct _ rfl hjn hl ?_ ?_ hbefore⟩
      · simpa [overwriteLine, lineMatches] using hp
      · simp [overwriteLine, hb]
    | none =>
      have hnomatch := scanLines_none _ _ _ _ hs
      cases hu : scanLines lineUnused lines st.cacheSize.toNat 0 with
      | some k =>
        obtain ⟨j, l, hk, hjn, hl, hp, _⟩ := scanLines_some _ _ _ _ _ hu
        have hkj : k = j := by omega
        subst hkj
        rw [put_fill st lines trk sct buf k hc hs hu]
        refine ⟨rfl, get_after_modify _ lines k _ l trk sct _ rfl hjn hl ?_ ?_ ?_⟩
        · simpa [fillLine, newLine, lineMatches] using hnew
        · simp [fillLine]
        · intro m l' hm hml; exact hnomatch m l' (by omega) hml
      | none =>
        obtain ⟨k, victim, hidx, hk, hv, _, _⟩ :=
          lru_found lines st.nextAccess hlen hlt (fun l hl => (hok l hl).1)
        have hused := scanLines_none _ _ _ _ hu k victim (by omega) hv
        obtain ⟨b, hb⟩ := Option.isSome_iff_exists.mp
          (hasBuf_of_ok (hok victim (List.mem_iff_getElem?.mpr ⟨k, hv⟩))
            (not_empty_of_used hused)).2
        rw [put_evict st lines trk sct buf hc hs hu, hsz, hidx]
        have hne : ¬ ((k : Int) = -1) := by omega
        rw [if_neg hne, Int.toNat_ofNat]
        refine ⟨rfl, get_after_modify _ lines k _ victim trk sct _ rfl ?_ hv ?_ ?_ ?_⟩
        · simpa using hk
        · simpa [evictLine, newLine, lineMatches] using hnew
        · simp [evictLine, hb]
        · intro m l' hm hml; exact hnomatch m l' (by omega) hml
  · omega


/-- An address held by a scanned line is cached. -/
theorem isCached_of_line (st : CacheState) (lines : List FS3Cache) (t s m : Nat)
    (l : FS3Cache) (hc : st.cache = some lines) (hm : m < st.cacheSize.toNat)
    (hl : lines[m]? = some l) (hp : lineMatches t s l = true) : isCached st t s = true := by
  unfold isCached
  rw [hc]
  cases hs : scanLines (lineMatches t s) lines st.cacheSize.toNat 0 with
  | some k => simp [hs]
  | none =>
    have := scanLines_none _ _ _ _ hs m l hm hl
    rw [hp] at this
    cases this

/-- Fill before evict (C7) on a cache whose capacity fits `cacheSize`: in a reachable
state with `0 ≤ cacheSize` in which some line still has the sentinel stamp and the
address is not cached, `fs3_put_cache` succeeds, turns the first sentinel-stamped line
(which is still as initialised) into the new line and changes no other line; the item
counter and the insert counter grow by one and every cached address stays cached. -/
theorem fill_first_unused (st : CacheState) (lines : List FS3Cache) (trk sct : Nat)
    (buf : List Nat) (hreach : CacheReachable st) (hc : st.cache = some lines)
    (hsize : 0 ≤ st.cacheSize) (hfree : ∃ l ∈ lines, l.lastAccess = -1)
    (hmiss : isCached st trk sct = false) :
    ∃ (k : Nat), lines[k]? = some emptyLine ∧
      (∀ (m : Nat) (l : FS3Cache), m < k → lines[m]? = some l → l.lastAccess ≠ -1) ∧
      fs3_put_cache st trk sct buf =
        ({ st with cache := some (lines.set k (newLine trk sct buf st.nextAccess)),
                   nextAccess := st.nextAccess + 1,
                   cacheItems := st.cacheItems + 1,
                   cacheInserts := st.cacheInserts + 1 }, 0) ∧
      ∀ (t s : Nat), isCached st t s = true →
        isCached (fs3_put_cache st trk sct buf).1 t s = true := by
  have hinv := inv_of_reachable hreach
  have hit := items_of_reachable hreach
  obtain ⟨hlen, hok, _⟩ := hinv.2 lines hc
  have hs : scanLines (lineMatches trk sct) lines st.cacheSize.toNat 0 = none := by
    simpa [isCached, hc] using hmiss
  rcases size_cases st lines hinv hc with ⟨hsz, hlt, hn⟩ | ⟨hn, hempty⟩
  · obtain ⟨lf, hlf, hstamp⟩ := hfree
    obtain ⟨mf, hmf⟩ := List.mem_iff_getElem?.mp hlf
    have hmflt : mf < lines.length := by
      by_contra hge
      rw [List.getElem?_eq_none (by omega)] at hmf
      cases hmf
    cases hu : scanLines lineUnused lines st.cacheSize.toNat 0 with
    | none =>
      exfalso
      have := scanLines_none _ _ _ _ hu mf lf (by omega) hmf
      simp [lineUnused, hstamp] at this
    | some k =>
      obtain ⟨j, l0, hk, hjn, hl, hp, hbefore⟩ := scanLines_some _ _ _ _ _ hu
      have hkj : k = j := by omega
      subst hkj
      have hl0 : l0 = emptyLine := by
        rcases (hok l0 (List.mem_iff_getElem?.mpr ⟨k, hl⟩)).2 with he | ⟨h0, _⟩
        · exact he
        · simp [lineUnused] at hp
          omega
      subst hl0
      have hitems : toInt16 (st.cacheItems + 1) = st.cacheItems + 1 := by
        have hcnt := countP_modify (fun l => !lineUnused l)
          (fillLine trk sct buf st.nextAccess) lines k emptyLine hl
        have h1 : (!lineUnused (fillLine trk sct buf st.nextAccess emptyLine)) = true :=
          used_of_stamp (by simpa [fillLine] using hinv.1)
        simp only [hp, h1, Bool.not_true, Bool.false_eq_true, if_false, if_true] at hcnt
        have hle := List.countP_le_length (fun l => !lineUnused l)
          (l := lines.modify (fillLine trk sct buf st.nextAccess) k)
        rw [List.length_modify] at hle
        rw [hit.2 lines hc]
        unfold usedLines
        have : ((List.countP (fun l => !lineUnused l) lines : Nat) : Int) + 1
            = ((List.countP (fun l => !lineUnused l) lines + 1 : Nat) : Int) := by
          push_cast; rfl
        rw [this, toInt16_of_lt _ (by omega)]
      have hput : fs3_put_cache st trk sct buf =
          ({ st with cache := some (lines.set k (newLine trk sct buf st.nextAccess)),
                     nextAccess := st.nextAccess + 1,
                     cacheItems := st.cacheItems + 1,
                     cacheInserts := st.cacheInserts + 1 }, 0) := by
        rw [put_fill st lines trk sct buf k hc hs hu, modify_eq_set _ lines k emptyLine hl, hitems]
        rfl
      refine ⟨k, hl, ?_, hput, ?_⟩
      · intro m l hm hml
        have := hbefore m l hm hml
        simpa [lineUnused] using this
      · intro t s hts
        rw [hput]
        unfold isCached at hts
        rw [hc] at hts
        cases hs2 : scanLines (lineMatches t s) lines st.cacheSize.toNat 0 with
        | none => simp [hs2] at hts
        | some j =>
          obtain ⟨j', l, _, hj'n, hl', hp', _⟩ := scanLines_some _ _ _ _ _ hs2
          have hne : k ≠ j' := by
            intro he
            subst he
            rw [hl] at hl'
            cases hl'
            exact not_empty_of_matches hp' rfl
          refine isCached_of_line _ (lines.set k (newLine trk sct buf st.nextAccess)) t s j' l
            rfl hj'n ?_ hp'
          rw [List.getElem?_set_ne hne]
          exact hl'
  · omega

/-- The address invariant survives the change of line `k` into a line with a
non-negative address, when either the address is the old one of a
line that was in use or no other line has the new address. -/
theorem addr_modify (st st' : CacheState) (lines : List FS3Cache) (k : Nat)
    (f : FS3Cache → FS3Cache) (l0 : FS3Cache) (hadd : AddrInv st) (hc : st.cache = some lines)
    (hl0 : lines[k]? = some l0) (hc' : st'.cache = some (lines.modify f k))
    (hnn : 0 ≤ (f l0).ctrk ∧ 0 ≤ (f l0).csec)
    (hcase : (lineAddr (f l0) = lineAddr l0 ∧ l0 ≠ emptyLine) ∨
      ∀ (m : Nat) (lm : FS3Cache), m ≠ k → lines[m]? = some lm → lineAddr lm ≠ lineAddr (f l0)) :
    AddrInv st' := by
  obtain ⟨ha, hb⟩ := hadd lines hc
  intro lines' hl'
  rw [hc'] at hl'
  cases hl'
  have hk : (lines.modify f k)[k]? = some (f l0) := by
    rw [List.getElem?_modify_eq, hl0]; rfl
  refine ⟨?_, ?_⟩
  · intro l hl
    rcases mem_modify f lines k l hl with hmem | ⟨l1, hl1, rfl⟩
    · exact ha l hmem
    · rw [hl0] at hl1
      cases hl1
      exact Or.inr hnn
  · intro i j li lj hij hi hj hnei hnej
    by_cases hik : i = k
    · subst hik
      rw [hk] at hi
      cases hi
      rw [List.getElem?_modify_ne _ _ hij] at hj
      rcases hcase with ⟨hsame, hused⟩ | hother
      · rw [hsame]
        exact hb i j l0 lj hij hl0 hj hused hnej
      · exact fun h => hother j lj (Ne.symm hij) hj h.symm
    · rw [List.getElem?_modify_ne _ _ (Ne.symm hik)] at hi
      by_cases hjk : j = k
      · subst hjk
        rw [hk] at hj
        cases hj
        rcases hcase with ⟨hsame, hused⟩ | hother
        · rw [hsame]
          exact hb i j li l0 hij hi hl0 hnei hused
        · exact hother i li hik hi
      · rw [List.getElem?_modify_ne _ _ (Ne.symm hjk)] at hj
        exact hb i j li lj hij hi hj hnei hnej

/-- A line that does not match an address has another address. -/
theorem addr_ne_of_not_matches {trk sct : Nat} {l : FS3Cache}
    (h : lineMatches trk sct l = false) : lineAddr l ≠ ((trk : Int), (sct : Int)) := by
  intro he
  have h1 : l.ctrk = (trk : Int) := congrArg Prod.fst he
  have h2 : l.csec = (sct : Int) := congrArg Prod.snd he
  simp [lineMatches, h1, h2] at h

/-- An index with a line is below the number of lines. -/
theorem lt_length_of_getElem? {lines : List FS3Cache} {m : Nat} {l : FS3Cache}
    (h : lines[m]? = some l) : m < lines.length := by
  by_contra hge
  rw [List.getElem?_eq_none (by omega)] at h
  cases h

/-- `fs3_put_cache` with an address below 2^15 keeps the address invariant. -/
theorem addr_put (st : CacheState) (trk sct : Nat) (buf : List Nat) (ht : trk < 2 ^ 15)
    (hsc : sct < 2 ^ 15) (hinv : CacheInv st) (hadd : AddrInv st) :
    AddrInv (fs3_put_cache st trk sct buf).1 := by
  cases hc : st.cache with
  | none => simpa [fs3_put_cache, hc] using hadd
  | some lines =>
    obtain ⟨hlen, hok, _⟩ := hinv.2 lines hc
    have hclk := hinv.1
    rcases size_cases st lines hinv hc with ⟨hsz, hlt, hn⟩ | ⟨hn, hempty⟩
    · cases hs : scanLines (lineMatches trk sct) lines st.cacheSize.toNat 0 with
      | some k =>
        rw [put_overwrite st lines trk sct buf k hc hs]
        obtain ⟨j, l, hk, _, hl, hp, _⟩ := scanLines_some _ _ _ _ _ hs
        have hkj : k = j := by omega
        subst hkj
        have hm : l.ctrk = (trk : Int) ∧ l.csec = (sct : Int) := by
          simpa [lineMatches] using hp
        refine addr_modify st _ lines k _ l hadd hc hl rfl ?_
          (Or.inl ⟨rfl, not_empty_of_matches hp⟩)
        · show 0 ≤ l.ctrk ∧ 0 ≤ l.csec
          rw [hm.1, hm.2]
          exact ⟨Int.ofNat_zero_le _, Int.ofNat_zero_le _⟩
      | none =>
        have hnomatch := scanLines_none _ _ _ _ hs
        have hother : ∀ (k m : Nat) (lm : FS3Cache), m ≠ k → lines[m]? = some lm →
            lineAddr lm ≠ ((trk : Int), (sct : Int)) := by
          intro k m lm _ hml
          exact addr_ne_of_not_matches
            (hnomatch m lm (by have := lt_length_of_getElem? hml; omega) hml)
        cases hu : scanLines lineUnused lines st.cacheSize.toNat 0 with
        | some k =>
          rw [put_fill st lines trk sct buf k hc hs hu]
          obtain ⟨j, l, hk, _, hl, hp, _⟩ := scanLines_some _ _ _ _ _ hu
          have hkj : k = j := by omega
          subst hkj
          refine addr_modify st _ lines k _ l hadd hc hl rfl ?_ (Or.inr ?_)
          · show 0 ≤ toInt16 (trk : Int) ∧ 0 ≤ toInt16 (sct : Int)
            rw [toInt16_of_lt trk ht, toInt16_of_lt sct hsc]
            exact ⟨Int.ofNat_zero_le _, Int.ofNat_zero_le _⟩
          · intro m lm hmk hml
            show lineAddr lm ≠ (toInt16 (trk : Int), toInt16 (sct : Int))
            rw [toInt16_of_lt trk ht, toInt16_of_lt sct hsc]
            exact hother k m lm hmk hml
        | none =>
          rw [put_evict st lines trk sct buf hc hs hu]
          split
          · exact hadd
          · obtain ⟨k, victim, hidx, hk, hv, _, _⟩ :=
              lru_found lines st.nextAccess hlen hlt (fun l hl => (hok l hl).1)
            rw [hsz, hidx, Int.toNat_ofNat]
            refine addr_modify st _ lines k _ victim hadd hc hv rfl ?_ (Or.inr ?_)
            · show 0 ≤ toInt16 (trk : Int) ∧ 0 ≤ toInt16 (sct : Int)
              rw [toInt16_of_lt trk ht, toInt16_of_lt sct hsc]
              exact ⟨Int.ofNat_zero_le _, Int.ofNat_zero_le _⟩
            · intro m lm hmk hml
              show lineAddr lm ≠ (toInt16 (trk : Int), toInt16 (sct : Int))
              rw [toInt16_of_lt trk ht, toInt16_of_lt sct hsc]
              exact hother k m lm hmk hml
    · have hs : scanLines (lineMatches trk sct) lines st.cacheSize.toNat 0 = none := by
        rw [hn]; exact scanLines_zero _ _ _
      have hu : scanLines lineUnused lines st.cacheSize.toNat 0 = none := by
        rw [hn]; exact scanLines_zero _ _ _
      rw [put_evict st lines trk sct buf hc hs hu]
      have hl : fs3_lru_idx lines st.nextAccess st.cacheSize = -1 := by
        unfold fs3_lru_idx
        rw [hn, lruLoop_zero]
        decide
      rw [if_pos hl]
      exact hadd

/-- `fs3_get_cache` keeps the address invariant. -/
theorem addr_get (st : CacheState) (trk sct : Nat) (hinv : CacheInv st) (hadd : AddrInv st) :
    AddrInv (fs3_get_cache st trk sct).1 := by
  cases hc : st.cache with
  | none => simp [fs3_get_cache, hc, AddrInv]
  | some lines =>
    cases hs : scanLines (lineMatches trk sct) lines st.cacheSize.toNat 0 with
    | some k =>
      rw [get_hit st lines trk sct k hc hs]
      obtain ⟨j, l, hk, _, hl, hp, _⟩ := scanLines_some _ _ _ _ _ hs
      have hkj : k = j := by omega
      subst hkj
      have hm : l.ctrk = (trk : Int) ∧ l.csec = (sct : Int) := by
        simpa [lineMatches] using hp
      have hclk := hinv.1
      refine addr_modify st _ lines k _ l hadd hc hl rfl ?_
        (Or.inl ⟨rfl, not_empty_of_matches hp⟩)
      · show 0 ≤ l.ctrk ∧ 0 ≤ l.csec
        rw [hm.1, hm.2]
        exact ⟨Int.ofNat_zero_le _, Int.ofNat_zero_le _⟩
    | none =>
      rw [get_miss st lines trk sct hc hs]
      exact hadd

/-- `fs3_init_cache` keeps the address invariant. -/
theorem addr_init (st : CacheState) (c : Nat) (hadd : AddrInv st) :
    AddrInv (fs3_init_cache st c).1 := by
  unfold fs3_init_cache
  split
  · exact hadd
  · split
    · exact hadd
    · intro lines hl
      simp only [Option.some.injEq] at hl
      subst hl
      refine ⟨fun l hl => Or.inl (List.eq_of_mem_replicate hl), ?_⟩
      intro i j li lj _ hi _ hnei
      exact absurd (List.eq_of_mem_replicate (List.mem_iff_getElem?.mpr ⟨i, hi⟩)) hnei

/-- `fs3_close_cache` keeps the address invariant. -/
theorem addr_close (st : CacheState) (hadd : AddrInv st) : AddrInv (fs3_close_cache st).1 := by
  unfold fs3_close_cache
  split
  · exact hadd
  · intro lines h; cases h

/-- Every sequence of cache operations with addresses inside a geometry of at most 2^15
tracks and 2^15 sectors a track keeps the address invariant. -/
theorem addr_runCache (g : Geometry) (hg1 : g.FS3_MAX_TRACKS ≤ 2 ^ 15)
    (hg2 : g.FS3_TRACK_SIZE ≤ 2 ^ 15) (ops : List CacheOp) :
    ∀ st, CacheInv st → AddrInv st → (∀ op ∈ ops, CacheOp.inGeometry g op = true) →
      AddrInv (runCache st ops) := by
  induction ops with
  | nil => intro st _ h _; exact h
  | cons op ops ih =>
    intro st hinv hadd hops
    refine ih _ (inv_run st op hinv) ?_ (fun o ho => hops o (List.mem_cons_of_mem _ ho))
    have hop := hops op (List.mem_cons_self _ _)
    cases op with
    | init c => exact addr_init st _ hadd
    | close => exact addr_close st hadd
    | put trk sct buf =>
      have h : trk < g.FS3_MAX_TRACKS ∧ sct < g.FS3_TRACK_SIZE := by
        simp [CacheOp.inGeometry] at hop
        exact hop
      exact addr_put st trk sct buf (by omega) (by omega) hinv hadd
    | get trk sct => exact addr_get st trk sct hinv hadd

theorem countersWithin_iff (b : Int) (st : CacheState) :
    countersWithin b st = true ↔
      (0 ≤ st.nextAccess ∧ st.nextAccess ≤ b) ∧ (0 ≤ st.cacheGets ∧ st.cacheGets ≤ b) ∧
      (0 ≤ st.cacheInserts ∧ st.cacheInserts ≤ b) ∧
      (0 ≤ st.cacheMisses ∧ st.cacheMisses ≤ b) ∧ (0 ≤ st.cacheHits ∧ st.cacheHits ≤ b) := by
  simp [countersWithin, and_assoc]

theorem countersWithin_mono {b c : Int} {st : CacheState} (hbc : b ≤ c)
    (h : countersWithin b st = true) : countersWithin c st = true := by
  rw [countersWithin_iff] at h ⊢
  omega

/-- One cache operation raises the clock and each statistics counter by at most one. -/
theorem countersWithin_run (b : Int) (st : CacheState) (op : CacheOp)
    (h : countersWithin b st = true) : countersWithin (b + 1) (op.run st) = true := by
  rw [countersWithin_iff] at h ⊢
  cases op with
  | init c =>
    simp only [CacheOp.run, fs3_init_cache]
    split
    · dsimp only; omega
    · split
      · dsimp only; omega
      · dsimp only; omega
  | close =>
    simp only [CacheOp.run, fs3_close_cache]
    split
    · dsimp only; omega
    · dsimp only; omega
  | put trk sct buf =>
    simp only [CacheOp.run, fs3_put_cache]
    split
    · dsimp only; omega
    · split
      · dsimp only; omega
      · split
        · dsimp only; omega
        · split
          · dsimp only; omega
          · dsimp only; omega
  | get trk sct =>
    simp only [CacheOp.run, fs3_get_cache]
    split
    · dsimp only; omega
    · split
      · dsimp only; omega
      · dsimp only; omega

/-- After `ops` every counter is at most the number of operations above its old bound. -/
theorem countersWithin_runCache (ops : List CacheOp) :
    ∀ (b : Int) (st : CacheState), countersWithin b st = true →
      countersWithin (b + (ops.length : Int)) (runCache st ops) = true := by
  induction ops with
  | nil =>
    intro b st h
    simpa [runCache] using h
  | cons op rest ih =>
    intro b st h
    have h1 := ih (b + 1) (op.run st) (countersWithin_run b st op h)
    have e : b + 1 + (rest.length : Int) = b + ((op :: rest).length : Int) := by
      simp only [List.length_cons]; push_cast; omega
    rw [e] at h1
    exact h1

/-- From process start the clock and the counters are at most the number of cache
operations issued. -/
theorem countersWithin_start (ops : List CacheOp) :
    countersWithin (ops.length : Int) (runCache cacheStart ops) = true := by
  have h := countersWithin_runCache ops 0 cacheStart (by decide)
  simpa using h

/-! ## Lemmas on the driver -/

/-- The loop of `idxByHandle` finds nothing when no entry it visits holds the handle. -/
theorem idxByHandleLoop_unknown {σ : Type} (st : DriverState σ) (fd : Int) :
    ∀ (n i : Nat) (ofidx : Int),
      (∀ k, i ≤ k → k < i + n → (st.oftable k).ofhandle ≠ fd) →
      idxByHandleLoop st fd n i ofidx = (-1, ofidx, -1) := by
  intro n
  induction n with
  | zero => intro i ofidx _; rfl
  | succ n ih =>
    intro i ofidx h
    unfold idxByHandleLoop
    rw [if_neg (h i (Nat.le_refl i) (by omega))]
    exact ih (i + 1) ofidx (fun k hk1 hk2 => h k (by omega) (by omega))

/-- `idxByHandle` fails, leaving both indices at -1, when no open-table entry holds the
handle. -/
theorem idxByHandle_unknown {σ : Type} (st : DriverState σ) (fd : Int)
    (h : ∀ i, i < FS3_MAX_TOTAL_FILES → (st.oftable i).ofhandle ≠ fd) :
    idxByHandle st fd = (-1, -1, -1) := by
  unfold idxByHandle
  exact idxByHandleLoop_unknown st fd _ 0 (-1) (fun k _ hk => h k (by omega))

/-- `SameTables` is reflexive. -/
theorem sameTables_refl {σ : Type} (st : DriverState σ) : SameTables st st :=
  ⟨rfl, rfl, rfl, rfl, rfl, rfl, rfl⟩

/-- `SameTables` is transitive. -/
theorem sameTables_trans {σ : Type} {a b c : DriverState σ} (h1 : SameTables a b)
    (h2 : SameTables b c) : SameTables a c := by
  obtain ⟨a1, a2, a3, a4, a5, a6, a7⟩ := h1
  obtain ⟨b1, b2, b3, b4, b5, b6, b7⟩ := h2
  exact ⟨b1.trans a1, b2.trans a2, b3.trans a3, b4.trans a4, b5.trans a5, b6.trans a6,
    b7.trans a7⟩

/-- `switchTrack` changes only the head position and the other side of the transport. -/
theorem switchTrack_same {σ : Type} (net : Transport σ) (st : DriverState σ) (trk : Int) :
    SameTables st (switchTrack net st trk).1 := by
  unfold switchTrack
  split
  · dsimp only
    split <;> exact ⟨rfl, rfl, rfl, rfl, rfl, rfl, rfl⟩
  · exact sameTables_refl st

/-- Reading one sector leaves the tables, the allocation map and the counters alone. -/
theorem readSector_same {σ : Type} (net : Transport σ) (st : DriverState σ) (trk sec : Nat) :
    SameTables st (readSector net st trk sec).1 := by
  unfold readSector
  dsimp only
  by_cases h : (trk : Int) ≠ st.curTrk
  · rw [if_pos h]
    have hsw := switchTrack_same net st trk
    repeat' split
    all_goals exact hsw
  · rw [if_neg h]
    repeat' split
    all_goals exact ⟨rfl, rfl, rfl, rfl, rfl, rfl, rfl⟩

/-- Writing one sector leaves the tables, the allocation map and the counters alone. -/
theorem writeSector_same {σ : Type} (net : Transport σ) (st : DriverState σ) (trk sec : Nat)
    (tmpBuf : List Nat) : SameTables st (writeSector net st trk sec tmpBuf).1 := by
  unfold writeSector
  dsimp only
  by_cases h : (trk : Int) ≠ st.curTrk
  · rw [if_pos h]
    have hsw := switchTrack_same net st trk
    repeat' split
    all_goals exact hsw
  · rw [if_neg h]
    repeat' split
    all_goals exact ⟨rfl, rfl, rfl, rfl, rfl, rfl, rfl⟩

/-- The sector loop of `fs3_read` leaves the tables, the allocation map and the counters
alone. -/
theorem readLoop_same {σ : Type} (net : Transport σ) (ofidx : Nat) (n f : Int) :
    ∀ (addrs : List (Nat × Nat)) (s : SectorLoop σ),
      SameTables s.st (readLoop net ofidx n f addrs s).st := by
  intro addrs
  induction addrs with
  | nil => intro s; exact sameTables_refl _
  | cons a rest ih =>
    intro s
    unfold readLoop
    split
    · exact sameTables_refl _
    · split
      · split
        · have hrs := readSector_same net s.st a.1 a.2
          split
          · rename_i st1 heq
            rw [heq] at hrs
            exact hrs
          · rename_i st1 data heq
            rw [heq] at hrs
            exact sameTables_trans hrs (ih _)
        · exact ih _
      · exact ih _

/-- The sector loop of `fs3_write` leaves the tables, the allocation map and the counters
alone. -/
theorem writeLoop_same {σ : Type} (net : Transport σ) (ofidx : Nat) (n f : Int) :
    ∀ (addrs : List (Nat × Nat)) (s : SectorLoop σ),
      SameTables s.st (writeLoop net ofidx n f addrs s).st := by
  intro addrs
  induction addrs with
  | nil => intro s; exact sameTables_refl _
  | cons a rest ih =>
    intro s
    unfold writeLoop
    split
    · exact sameTables_refl _
    · split
      · split
        · have hrs := writeSector_same net s.st a.1 a.2
            ((s.buf.drop s.pos).take FS3_SECTOR_SIZE)
          split
          · rename_i st1 heq
            rw [heq] at hrs
            exact hrs
          · rename_i st1 heq
            rw [heq] at hrs
            exact sameTables_trans hrs (ih _)
        · exact ih _
      · exact ih _

/-- `fs3_read` leaves the tables, the allocation map and the counters alone, whatever it
returns. -/
theorem fs3_read_same {σ : Type} (g : Geometry) (net : Transport σ) (st : DriverState σ)
    (fd : Int) (count : Nat) : SameTables st (fs3_read g net st fd count).1 := by
  unfold fs3_read
  dsimp only
  split
  · exact sameTables_refl st
  · split
    · exact sameTables_refl st
    · split
      · exact sameTables_refl st
      · split
        · split
          · exact readLoop_same net _ _ _ _ _
          · exact readLoop_same net _ _ _ _ _
        · split
          · exact sameTables_refl st
          · exact sameTables_refl st


/-- Every iteration of the allocation loop adds one to the sector count. -/
theorem allocLoop_numsec (g : Geometry) : ∀ (n : Nat) (a : AllocLoop),
    (allocLoop g n a).numsec = a.numsec + n := by
  intro n
  induction n with
  | zero => intro a; simp [allocLoop]
  | succ n ih =>
    intro a
    unfold allocLoop
    rw [ih]
    dsimp only
    push_cast
    omega

/-- Reading the entry just assigned. -/
theorem setEntry_same {α : Type} (tab : Nat → α) (i : Nat) (v : α) : setEntry tab i v i = v := by
  simp [setEntry]

/-- Reading another entry than the one assigned. -/
theorem setEntry_other {α : Type} (tab : Nat → α) (i k : Nat) (v : α) (h : k ≠ i) :
    setEntry tab i v k = tab k := by
  simp [setEntry, h]

/-- Assigning an entry its own value changes nothing. -/
theorem setEntry_self {α : Type} (tab : Nat → α) (i : Nat) : setEntry tab i (tab i) = tab := by
  funext k
  unfold setEntry
  split
  · rename_i hk; rw [hk]
  · rfl

/-- The second of two assignments to the same entry wins. -/
theorem setEntry_setEntry {α : Type} (tab : Nat → α) (i : Nat) (v w : α) :
    setEntry (setEntry tab i v) i w = setEntry tab i w := by
  funext k
  unfold setEntry
  split <;> rfl

/-- The growth step changes only the bitmap, sector count and length of the open file
`i` and the allocation map. -/
theorem growFile_effect {σ : Type} (g : Geometry) (st : DriverState σ) (i e : Nat) :
    ∃ (loc : Nat → Nat → Nat) (ns len : Int) (gl : Nat → Nat → Int),
      growFile g st i e =
        { st with globalLoc := gl,
                  oftable := setEntry st.oftable i
                    { (st.oftable i) with ofloc := loc, numsec := ns, oflength := len } } ∧
      (OpenFileBounded (st.oftable i) → e ≤ MAX_FILE_SIZE →
        0 ≤ len ∧ len ≤ lengthBound ∧ 0 ≤ ns) := by
  unfold growFile
  dsimp only
  split
  · split
    · rename_i h1 h2
      refine ⟨_, _, _, _, rfl, ?_⟩
      intro hb he
      rw [allocLoop_numsec]
      dsimp only
      obtain ⟨_, _, _, hns⟩ := hb
      have hreq : ceilDiv1024 e ≤ ceilDiv1024 MAX_FILE_SIZE := by
        unfold ceilDiv1024
        exact Nat.div_le_div_right (by omega)
      have h8 : ∀ d : Int, 0 < d → ((toInt8 d).toNat : Int) ≤ d := by
        intro d hd
        unfold toInt8
        omega
      have := h8 (↑(ceilDiv1024 e) - (st.oftable i).numsec) (by omega)
      unfold lengthBound FS3_SECTOR_SIZE
      unfold FS3_SECTOR_SIZE at *
      have hc : ((ceilDiv1024 e : Nat) : Int) ≤ ((ceilDiv1024 MAX_FILE_SIZE : Nat) : Int) := by
        exact_mod_cast hreq
      push_cast
      refine ⟨by omega, by omega, by omega⟩
    · refine ⟨(st.oftable i).ofloc, (st.oftable i).numsec, (st.oftable i).oflength,
        st.globalLoc, ?_, ?_⟩
      · show st = { st with oftable := setEntry st.oftable i (st.oftable i) }
        rw [setEntry_self]
      · intro hb _; exact ⟨hb.2.1, hb.2.2.1, hb.2.2.2⟩
  · refine ⟨(st.oftable i).ofloc, (st.oftable i).numsec, (st.oftable i).oflength,
      st.globalLoc, ?_, ?_⟩
    · show st = { st with oftable := setEntry st.oftable i (st.oftable i) }
      rw [setEntry_self]
    · intro hb _; exact ⟨hb.2.1, hb.2.2.1, hb.2.2.2⟩


/-- An assignment to entry `i` of a table that is itself an assignment to entry `i`. -/
theorem setEntry_of_base {α : Type} (tab tab0 : Nat → α) (i : Nat) (v w : α)
    (h : tab = setEntry tab0 i v) : setEntry tab i w = setEntry tab0 i w := by
  rw [h, setEntry_setEntry]

/-- The last part of `fs3_write`, from the sector loop on: the tables are those before
the loop, except that the cursor of entry `i` is the end position exactly when the part
ends with `count`. -/
theorem write_tail {σ : Type} (net : Transport σ) (i : Nat) (n f : Int)
    (addrs : List (Nat × Nat)) (st5 : DriverState σ) (wb : List Nat) (e count : Nat)
    (res : DriverState σ × Int)
    (hres :
      (if (writeLoop net i n f addrs
            { st := st5, buf := wb, pos := 0, handled := 0, skipped := 0, failed := false }).failed
        then
          ((writeLoop net i n f addrs
            { st := st5, buf := wb, pos := 0, handled := 0, skipped := 0, failed := false }).st, -1)
        else
          ({ (writeLoop net i n f addrs
                { st := st5, buf := wb, pos := 0, handled := 0, skipped := 0,
                  failed := false }).st with
              oftable := setEntry
                (writeLoop net i n f addrs
                  { st := st5, buf := wb, pos := 0, handled := 0, skipped := 0,
                    failed := false }).st.oftable i
                { ((writeLoop net i n f addrs
                    { st := st5, buf := wb, pos := 0, handled := 0, skipped := 0,
                      failed := false }).st.oftable i) with ofpos := e } }, (count : Int))) = res) :
    ∃ (x : Nat), res.1.oftable = setEntry st5.oftable i { (st5.oftable i) with ofpos := x } ∧
      SameTables st5 { res.1 with oftable := st5.oftable } ∧
      ((x = (st5.oftable i).ofpos ∧ res.2 = -1) ∨ (x = e ∧ res.2 = count)) := by
  have hws := writeLoop_same net i n f addrs
    { st := st5, buf := wb, pos := 0, handled := 0, skipped := 0, failed := false }
  generalize writeLoop net i n f addrs
    { st := st5, buf := wb, pos := 0, handled := 0, skipped := 0, failed := false } = s
    at hws hres
  dsimp only at hws
  obtain ⟨h1, h2, h3, h4, h5, h6, h7⟩ := hws
  by_cases hf : s.failed = true
  · rw [if_pos hf] at hres
    subst hres
    refine ⟨(st5.oftable i).ofpos, ?_, ⟨rfl, h2, h3, h4, h5, h6, h7⟩, Or.inl ⟨rfl, rfl⟩⟩
    show s.st.oftable = _
    rw [h1]
    exact (setEntry_self st5.oftable i).symm
  · rw [if_neg hf] at hres
    subst hres
    refine ⟨e, ?_, ⟨rfl, h2, h3, h4, h5, h6, h7⟩, Or.inr ⟨rfl, rfl⟩⟩
    show setEntry s.st.oftable i _ = _
    rw [h1]

/-- What `fs3_write` can do to the tables on a handle that resolves to the open file
`i`: either nothing (return -1), or the end position is within `MAX_FILE_SIZE` and the
only change is in entry `i`, which is the entry after the growth step with a cursor that
is the old one, the start of the first sector (when the read failed) or, exactly when
the call returns `count`, the end position. -/
theorem write_effect {σ : Type} (g : Geometry) (net : Transport σ) (st : DriverState σ)
    (fd : Int) (buf : List Nat) (count i j : Nat)
    (hidx : idxByHandle st fd = (0, (i : Int), (j : Int))) :
    fs3_write g net st fd buf count = (st, -1) ∨
    ∃ (x : Nat),
      ((st.oftable i).ofpos + count) % 2 ^ 32 ≤ MAX_FILE_SIZE ∧
      (fs3_write g net st fd buf count).1.oftable = setEntry st.oftable i
        { (growFile g st i (((st.oftable i).ofpos + count) % 2 ^ 32)).oftable i with
            ofpos := x } ∧
      SameTables (growFile g st i (((st.oftable i).ofpos + count) % 2 ^ 32))
        { (fs3_write g net st fd buf count).1 with
            oftable := (growFile g st i (((st.oftable i).ofpos + count) % 2 ^ 32)).oftable } ∧
      (x = (st.oftable i).ofpos ∨
        x = (toInt16 (((st.oftable i).ofpos / 1024 : Nat) : Int) * FS3_SECTOR_SIZE).toNat ∨
        x = ((st.oftable i).ofpos + count) % 2 ^ 32) ∧
      ((fs3_write g net st fd buf count).2 = -1 ∨
        ((fs3_write g net st fd buf count).2 = count ∧
          x = ((st.oftable i).ofpos + count) % 2 ^ 32)) := by
  have hi : ¬ ((i : Int) = -1 ∨ (j : Int) = -1) := by omega
  have h0 : ¬ ((0 : Int) = -1) := by decide
  obtain ⟨loc, ns, len, gl, hg, _⟩ :=
    growFile_effect g st i (((st.oftable i).ofpos + count) % 2 ^ 32)
  have hgi : (growFile g st i (((st.oftable i).ofpos + count) % 2 ^ 32)).oftable
      = setEntry st.oftable i
          ((growFile g st i (((st.oftable i).ofpos + count) % 2 ^ 32)).oftable i) := by
    rw [hg]
    dsimp only
    rw [setEntry_same]
  have hti : ((i : Int)).toNat = i := Int.toNat_ofNat i
  have htj : ((j : Int)).toNat = j := Int.toNat_ofNat j
  have hpos1 : ((growFile g st i (((st.oftable i).ofpos + count) % 2 ^ 32)).oftable i).ofpos
      = (st.oftable i).ofpos := by
    rw [hg]
    dsimp only
    rw [setEntry_same]
  generalize hres : fs3_write g net st fd buf count = res
  unfold fs3_write at hres
  rw [hidx] at hres
  dsimp only at hres
  rw [if_neg hi, hti, htj] at hres
  by_cases hst : (st.ftable j).fstate ≠ "opened"
  · rw [if_pos hst] at hres; left; exact hres.symm
  rw [if_neg hst] at hres
  by_cases hmax : MAX_FILE_SIZE < ((st.oftable i).ofpos + count) % 2 ^ 32
  · rw [if_pos hmax] at hres; left; exact hres.symm
  rw [if_neg hmax, if_neg h0] at hres
  right
  generalize growFile g st i (((st.oftable i).ofpos + count) % 2 ^ 32) = st1
    at hgi hpos1 hres ⊢
  generalize toInt16 (toInt16 ↑(ceilDiv1024 (((st.oftable i).ofpos + count) % 2 ^ 32)) -
    toInt16 ↑((st.oftable i).ofpos / 1024)) = numToChange at hres
  have hself : setEntry st1.oftable i { (st1.oftable i) with ofpos := (st.oftable i).ofpos }
      = st1.oftable := by
    rw [← hpos1]
    exact setEntry_self st1.oftable i
  generalize hfs : (toInt16 ↑((st.oftable i).ofpos / 1024) * ↑FS3_SECTOR_SIZE).toNat = fs
    at hres ⊢
  by_cases hread : 0 < numToChange ∧ (st1.oftable i).oflength ≠ 0
  · rw [if_pos hread] at hres
    have hrs := fs3_read_same g net
      { st1 with oftable := setEntry st1.oftable i { (st1.oftable i) with ofpos := fs } }
      fd (numToChange * ↑FS3_SECTOR_SIZE).toNat
    generalize fs3_read g net
      { st1 with oftable := setEntry st1.oftable i { (st1.oftable i) with ofpos := fs } }
      fd (numToChange * ↑FS3_SECTOR_SIZE).toNat = rr at hrs hres
    obtain ⟨r1, r2, r3, r4, r5, r6, r7⟩ := hrs
    dsimp only at r1 r2 r3 r4 r5 r6 r7
    by_cases hne : rr.2.1 ≠ numToChange * ↑FS3_SECTOR_SIZE
    · rw [if_pos hne] at hres
      dsimp only at hres
      subst hres
      refine ⟨_, by omega, ?_, ⟨rfl, r2, r3, r4, r5, r6, r7⟩, Or.inr (Or.inl rfl), Or.inl rfl⟩
      show rr.1.oftable = _
      rw [r1]
      exact setEntry_of_base _ _ _ _ _ hgi
    · rw [if_neg hne] at hres
      dsimp only at hres
      obtain ⟨x, hx1, hx2, hx3⟩ := write_tail net i numToChange _ (allAddrs g) _ _ _ count res hres
      dsimp only at hx1 hx2 hx3
      have h5 : setEntry rr.1.oftable i
          { (rr.1.oftable i) with ofpos := (st.oftable i).ofpos } = st1.oftable := by
        rw [r1, setEntry_setEntry, setEntry_same]
        exact hself
      rw [h5] at hx1 hx2 hx3
      obtain ⟨_, s2, s3, s4, s5, s6, s7⟩ := hx2
      dsimp only at s2 s3 s4 s5 s6 s7
      refine ⟨x, by omega, ?_, ⟨rfl, s2.trans r2, s3.trans r3, s4.trans r4, s5.trans r5,
        s6.trans r6, s7.trans r7⟩, ?_, ?_⟩
      · rw [hx1]; exact setEntry_of_base _ _ _ _ _ hgi
      · rcases hx3 with ⟨h, _⟩ | ⟨h, _⟩
        · left; rw [h, hpos1]
        · right; right; exact h
      · rcases hx3 with ⟨_, h⟩ | ⟨h, h'⟩
        · left; exact h
        · right; exact ⟨h', h⟩
  · rw [if_neg hread] at hres
    dsimp only at hres
    obtain ⟨x, hx1, hx2, hx3⟩ := write_tail net i numToChange _ (allAddrs g) _ _ _ count res hres
    refine ⟨x, by omega, ?_, hx2, ?_, ?_⟩
    · rw [hx1]; exact setEntry_of_base _ _ _ _ _ hgi
    · rcases hx3 with ⟨h, _⟩ | ⟨h, _⟩
      · left; rw [h, hpos1]
      · right; right; exact h
    · rcases hx3 with ⟨_, h⟩ | ⟨h, h'⟩
      · left; exact h
      · right; exact ⟨h', h⟩

/-- A successful `firstIdxFrom` returns an index of the range that satisfies the test. -/
theorem firstIdxFrom_some (p : Nat → Bool) : ∀ (n s j : Nat),
    firstIdxFrom p n s = some j → s ≤ j ∧ j < s + n ∧ p j = true := by
  intro n
  induction n with
  | zero => intro s j h; simp [firstIdxFrom] at h
  | succ n ih =>
    intro s j h
    unfold firstIdxFrom at h
    by_cases hp : p s = true
    · rw [if_pos hp] at h
      cases h
      exact ⟨Nat.le_refl _, by omega, hp⟩
    · rw [if_neg hp] at h
      obtain ⟨h1, h2, h3⟩ := ih (s + 1) j h
      exact ⟨by omega, by omega, h3⟩

/-- The result of the loop of `idxByHandle`: a failure with `*fidx` still -1, or a
success with the index of an entry that holds the handle and of a record with its
name. -/
theorem idxByHandleLoop_shape {σ : Type} (st : DriverState σ) (fd : Int) :
    ∀ (n i : Nat) (ofidx : Int), i + n ≤ FS3_MAX_TOTAL_FILES →
      ((idxByHandleLoop st fd n i ofidx).1 = -1 ∧ (idxByHandleLoop st fd n i ofidx).2.2 = -1) ∨
      ∃ (k j : Nat), k < FS3_MAX_TOTAL_FILES ∧ j < FS3_MAX_TOTAL_FILES ∧
        idxByHandleLoop st fd n i ofidx = (0, (k : Int), (j : Int)) ∧
        (st.oftable k).ofhandle = fd ∧ (st.ftable j).fname = (st.oftable k).ofname := by
  intro n
  induction n with
  | zero => intro i ofidx _; left; exact ⟨rfl, rfl⟩
  | succ n ih =>
    intro i ofidx hle
    unfold idxByHandleLoop
    by_cases hh : (st.oftable i).ofhandle = fd
    · rw [if_pos hh]
      cases hf : firstIdxFrom (fun j => (st.oftable i).ofname == (st.ftable j).fname)
          FS3_MAX_TOTAL_FILES 0 with
      | none => exact ih (i + 1) _ (by omega)
      | some j =>
        right
        obtain ⟨_, hj, hp⟩ := firstIdxFrom_some _ _ _ _ hf
        have hjlt : j < FS3_MAX_TOTAL_FILES := by omega
        unfold FS3_MAX_TOTAL_FILES at hle hjlt
        refine ⟨i, j, by unfold FS3_MAX_TOTAL_FILES; omega, by unfold FS3_MAX_TOTAL_FILES; omega,
          ?_, hh, ?_⟩
        · show (0, toInt16 i, toInt16 j) = _
          rw [toInt16_of_lt i (by omega), toInt16_of_lt j (by omega)]
        · have := beq_iff_eq.mp hp
          exact this.symm
    · rw [if_neg hh]
      exact ih (i + 1) ofidx (by omega)

/-- The result of `idxByHandle`: (-1, _, -1), or (0, k, j) for an open-table entry `k`
that holds the handle and the first permanent record `j` with the entry's name. -/
theorem idxByHandle_shape {σ : Type} (st : DriverState σ) (fd : Int) :
    ((idxByHandle st fd).1 = -1 ∧ (idxByHandle st fd).2.2 = -1) ∨
    ∃ (k j : Nat), k < FS3_MAX_TOTAL_FILES ∧ j < FS3_MAX_TOTAL_FILES ∧
      idxByHandle st fd = (0, (k : Int), (j : Int)) ∧
      (st.oftable k).ofhandle = fd ∧ (st.ftable j).fname = (st.oftable k).ofname := by
  unfold idxByHandle
  exact idxByHandleLoop_shape st fd _ 0 (-1) (by omega)


/-- A zeroed open-table entry is within the bounds. -/
theorem zeroOpenFile_bounded : OpenFileBounded zeroOpenFile := by
  exact ⟨Nat.zero_le _, le_refl _, Int.ofNat_zero_le _, le_refl _⟩

/-- A zeroed permanent record is within the bounds. -/
theorem zeroFile_bounded : FileBounded zeroFile := by
  exact ⟨le_refl _, Int.ofNat_zero_le _, le_refl _⟩

/-- The bounds survive the replacement of one open-table entry by a bounded one. -/
theorem bounded_setEntry_of {σ : Type} (st st' : DriverState σ) (i : Nat) (o : FS3OpenFile)
    (h : TablesBounded st) (hof : st'.oftable = setEntry st.oftable i o)
    (hf : st'.ftable = st.ftable) (ho : OpenFileBounded o) : TablesBounded st' := by
  refine ⟨?_, ?_⟩
  · intro k
    rw [hof]
    unfold setEntry
    split
    · exact ho
    · exact h.1 k
  · intro k
    rw [hf]
    exact h.2 k

/-- The bounds hold at process start. -/
theorem bounded_start {σ : Type} (c : CacheState) (ctl : σ) : TablesBounded (driverStart c ctl) :=
  ⟨fun _ => zeroOpenFile_bounded, fun _ => zeroFile_bounded⟩

/-- The bounds survive every change that leaves the tables alone. -/
theorem bounded_of_same {σ : Type} {st st' : DriverState σ} (h : TablesBounded st)
    (hs : SameTables st st') : TablesBounded st' := by
  obtain ⟨h1, h2, _⟩ := hs
  exact ⟨fun k => by rw [h1]; exact h.1 k, fun k => by rw [h2]; exact h.2 k⟩

/-- `fs3_mount_disk` keeps the bounds. -/
theorem bounded_mount {σ : Type} (g : Geometry) (net : Transport σ) (st : DriverState σ)
    (h : TablesBounded st) : TablesBounded (fs3_mount_disk g net st).1 := by
  unfold fs3_mount_disk
  split
  · exact h
  · dsimp only
    split
    · refine ⟨fun _ => zeroOpenFile_bounded, ?_⟩
      intro k
      dsimp only
      split
      · exact zeroFile_bounded
      · exact h.2 k
    · exact h

/-- `fs3_open` keeps the bounds. -/
theorem bounded_open {σ : Type} (st : DriverState σ) (path : String) (h : TablesBounded st) :
    TablesBounded (fs3_open st path).1 := by
  unfold fs3_open
  split
  · rename_i i _
    split
    · exact h
    · refine ⟨?_, ?_⟩
      · intro k
        show OpenFileBounded (setEntry st.oftable st.freeOFile _ k)
        unfold setEntry
        split
        · exact ⟨(h.1 st.freeOFile).1, (h.2 i).1, (h.2 i).2.1, (h.2 i).2.2⟩
        · exact h.1 k
      · intro k
        show FileBounded (setEntry st.ftable i _ k)
        unfold setEntry
        split
        · exact h.2 i
        · exact h.2 k
  · refine ⟨?_, ?_⟩
    · intro k
      show OpenFileBounded (setEntry st.oftable st.freeOFile _ k)
      unfold setEntry
      split
      · exact ⟨Nat.zero_le _, le_refl _, Int.ofNat_zero_le _, le_refl _⟩
      · exact h.1 k
    · intro k
      show FileBounded (setEntry (setEntry st.ftable st.freeFile _) st.freeOFile _ k)
      unfold setEntry
      split
      · split
        · exact h.2 st.freeFile
        · exact h.2 st.freeOFile
      · split
        · exact h.2 st.freeFile
        · exact h.2 k

/-- `fs3_close` keeps the bounds. -/
theorem bounded_close {σ : Type} (st : DriverState σ) (fd : Int) (h : TablesBounded st) :
    TablesBounded (fs3_close st fd).1 := by
  unfold fs3_close
  dsimp only
  split
  · exact h
  · split
    · exact h
    · split
      · exact h
      · refine ⟨?_, ?_⟩
        · intro k
          show OpenFileBounded (setEntry st.oftable _ _ k)
          unfold setEntry
          split
          · exact ⟨Nat.zero_le _, le_refl _, Int.ofNat_zero_le _, le_refl _⟩
          · exact h.1 k
        · intro k
          show FileBounded (setEntry st.ftable _ _ k)
          unfold setEntry
          split
          · exact ⟨(h.1 _).2.1, (h.1 _).2.2.1, (h.1 _).2.2.2⟩
          · exact h.2 k

/-- `fs3_seek` keeps the bounds. -/
theorem bounded_seek {σ : Type} (st : DriverState σ) (fd : Int) (loc : Nat)
    (h : TablesBounded st) : TablesBounded (fs3_seek st fd loc).1 := by
  unfold fs3_seek
  dsimp only
  split
  · exact h
  · split
    · exact h
    · rename_i hn
      refine ⟨?_, h.2⟩
      intro k
      show OpenFileBounded (setEntry st.oftable _ _ k)
      unfold setEntry
      split
      · obtain ⟨hp, h0, hl, hs⟩ := h.1 (idxByHandle st fd).2.1.toNat
        refine ⟨?_, h0, hl, hs⟩
        show loc ≤ lengthBound
        have hlb : lengthBound < 2 ^ 32 := by decide
        have : ¬ (((st.oftable (idxByHandle st fd).2.1.toNat).oflength % 2 ^ 32).toNat < loc) :=
          fun hc => hn (Or.inl hc)
        omega
      · exact h.1 k

/-- The closing loop of `fs3_unmount_disk` keeps the bounds. -/
theorem bounded_unmountLoop {σ : Type} : ∀ (n i : Nat) (st : DriverState σ),
    TablesBounded st → TablesBounded (unmountLoop n i st) := by
  intro n
  induction n with
  | zero => intro i st h; exact h
  | succ n ih =>
    intro i st h
    unfold unmountLoop
    apply ih
    split
    · exact bounded_close st _ h
    · exact h

/-- `fs3_unmount_disk` keeps the bounds. -/
theorem bounded_unmount {σ : Type} (net : Transport σ) (st : DriverState σ) (junk : Nat)
    (h : TablesBounded st) : TablesBounded (fs3_unmount_disk net st junk).1 := by
  unfold fs3_unmount_disk
  have hl := bounded_unmountLoop st.freeHandle.toNat 0 st h
  split
  · exact h
  · dsimp only
    split <;> exact hl


/-- The value of `lengthBound`. -/
theorem lengthBound_eq : lengthBound = 10000384 := by decide

/-- `fs3_write` keeps the bounds, whatever it returns. -/
theorem bounded_write {σ : Type} (g : Geometry) (net : Transport σ) (st : DriverState σ)
    (fd : Int) (buf : List Nat) (count : Nat) (h : TablesBounded st) :
    TablesBounded (fs3_write g net st fd buf count).1 := by
  rcases idxByHandle_shape st fd with ⟨_, h2⟩ | ⟨k, j, _, _, hidx, _, _⟩
  · have : fs3_write g net st fd buf count = (st, -1) := by
      unfold fs3_write
      dsimp only
      rw [if_pos (Or.inr h2)]
    rw [this]
    exact h
  · rcases write_effect g net st fd buf count k j hidx with hfail | ⟨x, hmax, hof, hsame, hx, _⟩
    · rw [hfail]; exact h
    · obtain ⟨loc, ns, len, gl, hg, hb⟩ :=
        growFile_effect g st k (((st.oftable k).ofpos + count) % 2 ^ 32)
      obtain ⟨hp, h0, hl, hs⟩ := h.1 k
      obtain ⟨b1, b2, b3⟩ := hb (h.1 k) hmax
      have hft : (fs3_write g net st fd buf count).1.ftable = st.ftable := by
        have := hsame.2.1
        rw [hg] at this
        exact this
      refine bounded_setEntry_of st _ k _ h hof hft ?_
      rw [hg]
      dsimp only
      rw [setEntry_same]
      refine ⟨?_, b1, b2, b3⟩
      show x ≤ lengthBound
      rw [lengthBound_eq] at hp ⊢
      rcases hx with hx | hx | hx
      · omega
      · rw [hx]
        unfold toInt16 FS3_SECTOR_SIZE
        omega
      · rw [hx]
        unfold MAX_FILE_SIZE at hmax
        omega

/-- Every call keeps the bounds. -/
theorem bounded_run {σ : Type} (g : Geometry) (net : Transport σ) (st : DriverState σ)
    (op : DriverOp) (h : TablesBounded st) : TablesBounded (op.run g net st) := by
  cases op with
  | mount => exact bounded_mount g net st h
  | unmount junk => exact bounded_unmount net st junk h
  | openFile path => exact bounded_open st path h
  | close fd => exact bounded_close st _ h
  | read fd count => exact bounded_of_same h (fs3_read_same g net st _ _)
  | write fd buf count => exact bounded_write g net st _ buf _ h
  | seek fd loc => exact bounded_seek st _ _ h
  | cache op => exact h

/-- Every sequence of calls keeps the bounds. -/
theorem bounded_runDriver {σ : Type} (g : Geometry) (net : Transport σ) (ops : List DriverOp) :
    ∀ (st : DriverState σ), TablesBounded st → TablesBounded (runDriver g net st ops) := by
  induction ops with
  | nil => intro st h; exact h
  | cons op ops ih =>
    intro st h
    exact ih _ (bounded_run g net st op h)

/-- In every reachable state all cursors, lengths and sector counts are within the bounds. -/
theorem bounded_of_reachable {σ : Type} {g : Geometry} {net : Transport σ}
    {st : DriverState σ} (h : DriverReachable g net st) : TablesBounded st := by
  obtain ⟨ctl, ops, rfl⟩ := h
  exact bounded_runDriver g net ops _ (bounded_start _ ctl)

/-- When the loop of `idxByHandle` leaves `ofidx` at -1, it started from -1 and no entry in
the range it walked holds the handle. -/
theorem idxByHandleLoop_none {σ : Type} (st : DriverState σ) (fd : Int) :
    ∀ (n i : Nat) (ofidx : Int), i + n ≤ FS3_MAX_TOTAL_FILES →
      (idxByHandleLoop st fd n i ofidx).2.1 = -1 →
      ofidx = -1 ∧ ∀ k, i ≤ k → k < i + n → (st.oftable k).ofhandle ≠ fd := by
  intro n
  induction n with
  | zero => intro i ofidx _ h; exact ⟨h, fun k h1 h2 => by omega⟩
  | succ n ih =>
    intro i ofidx hle
    have hi : toInt16 i = (i : Int) := toInt16_of_lt i (by unfold FS3_MAX_TOTAL_FILES at hle; omega)
    unfold idxByHandleLoop
    by_cases hh : (st.oftable i).ofhandle = fd
    · rw [if_pos hh]
      cases hf : firstIdxFrom (fun j => (st.oftable i).ofname == (st.ftable j).fname)
          FS3_MAX_TOTAL_FILES 0 with
      | none =>
        intro h
        have := (ih (i + 1) _ (by omega) h).1
        omega
      | some j =>
        intro h
        have h2 : toInt16 i = -1 := h
        omega
    · rw [if_neg hh]
      intro h
      obtain ⟨h1, h2⟩ := ih (i + 1) ofidx (by omega) h
      refine ⟨h1, fun k hk1 hk2 => ?_⟩
      by_cases hk : k = i
      · rw [hk]; exact hh
      · exact h2 k (by omega) (by omega)

/-- When `idxByHandle` leaves `ofidx` at -1, no open-table entry holds the handle. -/
theorem idxByHandle_none {σ : Type} (st : DriverState σ) (fd : Int)
    (h : (idxByHandle st fd).2.1 = -1) :
    ∀ i, i < FS3_MAX_TOTAL_FILES → (st.oftable i).ofhandle ≠ fd := by
  intro i hi
  exact (idxByHandleLoop_none st fd _ 0 (-1) (by omega) h).2 i (Nat.zero_le i) (by omega)

/-- `fs3_close` leaves the head position, the transport, the cache, the mount state and
the allocation map alone. -/
theorem close_device {σ : Type} (st : DriverState σ) (fd : Int) :
    SameDevice st (fs3_close st fd).1 := by
  unfold fs3_close
  dsimp only
  repeat' split
  all_goals exact ⟨rfl, rfl, rfl, rfl, rfl⟩

/-- The closing loop of `fs3_unmount_disk` leaves the head position, the transport, the
cache, the mount state and the allocation map alone. -/
theorem unmountLoop_device {σ : Type} : ∀ (n i : Nat) (st : DriverState σ),
    SameDevice st (unmountLoop n i st) := by
  intro n
  induction n with
  | zero => intro i st; exact ⟨rfl, rfl, rfl, rfl, rfl⟩
  | succ n ih =>
    intro i st
    unfold unmountLoop
    split
    · obtain ⟨a1, a2, a3, a4, a5⟩ := close_device st (st.oftable i).ofhandle
      obtain ⟨b1, b2, b3, b4, b5⟩ := ih (i + 1) (fs3_close st (st.oftable i).ofhandle).1
      exact ⟨b1.trans a1, b2.trans a2, b3.trans a3, b4.trans a4, b5.trans a5⟩
    · exact ih (i + 1) st

/-- `fs3_open` either fails and changes nothing, or returns the next handle as an
`int16_t` and moves both counters on by one. -/
theorem open_effect {σ : Type} (st : DriverState σ) (path : String) :
    fs3_open st path = (st, -1) ∨
      ((fs3_open st path).2 = toInt16 st.freeHandle ∧
        (fs3_open st path).1.freeHandle = st.freeHandle + 1 ∧
        (fs3_open st path).1.freeOFile = st.freeOFile + 1) := by
  unfold fs3_open
  split
  · split
    · left; rfl
    · right
      refine ⟨?_, rfl, rfl⟩
      show (setEntry st.oftable st.freeOFile _ st.freeOFile).ofhandle = _
      rw [setEntry_same]
  · right
    refine ⟨?_, rfl, rfl⟩
    show (setEntry st.oftable st.freeOFile _ st.freeOFile).ofhandle = _
    rw [setEntry_same]

/-- `fs3_write` leaves the counters of `fs3_open` alone. -/
theorem write_counters {σ : Type} (g : Geometry) (net : Transport σ) (st : DriverState σ)
    (fd : Int) (buf : List Nat) (count : Nat) :
    (fs3_write g net st fd buf count).1.freeHandle = st.freeHandle ∧
      (fs3_write g net st fd buf count).1.freeOFile = st.freeOFile := by
  rcases idxByHandle_shape st fd with ⟨_, h2⟩ | ⟨k, j, _, _, hidx, _, _⟩
  · have : fs3_write g net st fd buf count = (st, -1) := by
      unfold fs3_write
      dsimp only
      rw [if_pos (Or.inr h2)]
    rw [this]
    exact ⟨rfl, rfl⟩
  · rcases write_effect g net st fd buf count k j hidx with hfail | ⟨x, _, _, hsame, _, _⟩
    · rw [hfail]; exact ⟨rfl, rfl⟩
    · obtain ⟨loc, ns, len, gl, hg, _⟩ :=
        growFile_effect g st k (((st.oftable k).ofpos + count) % 2 ^ 32)
      obtain ⟨_, _, _, _, s5, _, s7⟩ := hsame
      rw [hg] at s5 s7
      exact ⟨s7, s5⟩

/-- The closing loop of `fs3_unmount_disk` leaves the counters of `fs3_open` alone. -/
theorem unmountLoop_counters {σ : Type} : ∀ (n i : Nat) (st : DriverState σ),
    (unmountLoop n i st).freeHandle = st.freeHandle ∧
      (unmountLoop n i st).freeOFile = st.freeOFile := by
  intro n
  induction n with
  | zero => intro i st; exact ⟨rfl, rfl⟩
  | succ n ih =>
    intro i st
    unfold unmountLoop
    split
    · have hc : (fs3_close st (st.oftable i).ofhandle).1.freeHandle = st.freeHandle ∧
          (fs3_close st (st.oftable i).ofhandle).1.freeOFile = st.freeOFile := by
        unfold fs3_close
        dsimp only
        repeat' split
        all_goals exact ⟨rfl, rfl⟩
      obtain ⟨b1, b2⟩ := ih (i + 1) (fs3_close st (st.oftable i).ofhandle).1
      exact ⟨b1.trans hc.1, b2.trans hc.2⟩
    · exact ih (i + 1) st

/-- Every call either leaves the counters of `fs3_open` alone or moves both on by one. -/
theorem run_counters {σ : Type} (g : Geometry) (net : Transport σ) (st : DriverState σ)
    (op : DriverOp) :
    ((op.run g net st).freeHandle = st.freeHandle ∧
        (op.run g net st).freeOFile = st.freeOFile) ∨
      ((op.run g net st).freeHandle = st.freeHandle + 1 ∧
        (op.run g net st).freeOFile = st.freeOFile + 1) := by
  cases op with
  | mount =>
    left
    show (fs3_mount_disk g net st).1.freeHandle = _ ∧ (fs3_mount_disk g net st).1.freeOFile = _
    unfold fs3_mount_disk
    split
    · exact ⟨rfl, rfl⟩
    · dsimp only
      split <;> exact ⟨rfl, rfl⟩
  | unmount junk =>
    left
    show (fs3_unmount_disk net st junk).1.freeHandle = _ ∧
      (fs3_unmount_disk net st junk).1.freeOFile = _
    have hl := unmountLoop_counters st.freeHandle.toNat 0 st
    unfold fs3_unmount_disk
    split
    · exact ⟨rfl, rfl⟩
    · dsimp only
      split <;> exact hl
  | openFile path =>
    show ((fs3_open st path).1.freeHandle = _ ∧ (fs3_open st path).1.freeOFile = _) ∨
      ((fs3_open st path).1.freeHandle = _ ∧ (fs3_open st path).1.freeOFile = _)
    rcases open_effect st path with h | ⟨_, h2, h3⟩
    · left; rw [h]; exact ⟨rfl, rfl⟩
    · right; exact ⟨h2, h3⟩
  | close fd =>
    left
    show (fs3_close st (toInt16 fd)).1.freeHandle = _ ∧ (fs3_close st (toInt16 fd)).1.freeOFile = _
    unfold fs3_close
    dsimp only
    repeat' split
    all_goals exact ⟨rfl, rfl⟩
  | read fd count =>
    left
    obtain ⟨_, _, _, _, s5, _, s7⟩ := fs3_read_same g net st (toInt16 fd) (count % 2 ^ 31)
    exact ⟨s7, s5⟩
  | write fd buf count =>
    left
    exact write_counters g net st (toInt16 fd) buf (count % 2 ^ 31)
  | seek fd loc =>
    left
    show (fs3_seek st (toInt16 fd) (loc % 2 ^ 32)).1.freeHandle = _ ∧
      (fs3_seek st (toInt16 fd) (loc % 2 ^ 32)).1.freeOFile = _
    unfold fs3_seek
    dsimp only
    repeat' split
    all_goals exact ⟨rfl, rfl⟩
  | cache op => left; exact ⟨rfl, rfl⟩

/-- A sequence of calls keeps the relation between the counters and never lowers them. -/
theorem counters_runDriver {σ : Type} (g : Geometry) (net : Transport σ)
    (ops : List DriverOp) : ∀ (st : DriverState σ), HandleInv st →
      HandleInv (runDriver g net st ops) ∧ st.freeOFile ≤ (runDriver g net st ops).freeOFile := by
  induction ops with
  | nil => intro st h; exact ⟨h, Nat.le_refl _⟩
  | cons op ops ih =>
    intro st h
    have hstep : HandleInv (op.run g net st) ∧ st.freeOFile ≤ (op.run g net st).freeOFile := by
      unfold HandleInv at h ⊢
      rcases run_counters g net st op with ⟨h1, h2⟩ | ⟨h1, h2⟩
      · rw [h1, h2]; exact ⟨h, Nat.le_refl _⟩
      · rw [h1, h2]; exact ⟨by push_cast; omega, by omega⟩
    obtain ⟨i1, i2⟩ := ih _ hstep.1
    exact ⟨i1, Nat.le_trans hstep.2 i2⟩

/-- In every reachable state the next handle is one more than the next open-table index. -/
theorem handleInv_of_reachable {σ : Type} {g : Geometry} {net : Transport σ}
    {st : DriverState σ} (h : DriverReachable g net st) : HandleInv st := by
  obtain ⟨ctl, ops, rfl⟩ := h
  have h0 : HandleInv (driverStart cacheStart ctl) := by
    show (1 : Int) = ((0 : Nat) : Int) + 1
    decide
  exact (counters_runDriver g net ops _ h0).1

/-- The word built by `construct_fs3_cmdblock` from fields within their widths. -/
theorem construct_sum (op sec trk : Nat) (hop : op < 16) (hsec : sec < 2 ^ 16)
    (htrk : trk < 2 ^ 32) :
    construct_fs3_cmdblock op sec trk 0 = op * 2 ^ 60 + sec * 2 ^ 44 + trk * 2 ^ 12 := by
  unfold construct_fs3_cmdblock
  simp only [Nat.shiftLeft_eq]
  have h1 : op * 2 ^ 60 % 2 ^ 64 = op * 2 ^ 60 := Nat.mod_eq_of_lt (by omega)
  have h2 : sec * 2 ^ 44 % 2 ^ 64 = sec * 2 ^ 44 := Nat.mod_eq_of_lt (by omega)
  have h3 : trk * 2 ^ 12 % 2 ^ 64 = trk * 2 ^ 12 := Nat.mod_eq_of_lt (by omega)
  have h4 : 0 * 2 ^ 11 % 2 ^ 64 = 0 := by decide
  rw [h1, h2, h3, h4, Nat.or_zero]
  have e1 : sec * 2 ^ 44 ||| trk * 2 ^ 12 = sec * 2 ^ 44 + trk * 2 ^ 12 := by
    rw [Nat.mul_comm sec]
    exact (Nat.mul_add_lt_is_or (by omega) sec).symm
  have e2 : op * 2 ^ 60 ||| (sec * 2 ^ 44 + trk * 2 ^ 12)
      = op * 2 ^ 60 + (sec * 2 ^ 44 + trk * 2 ^ 12) := by
    rw [Nat.mul_comm op]
    exact (Nat.mul_add_lt_is_or (by omega) op).symm
  rw [Nat.or_assoc, e1, e2]
  omega

/-- The opcode and track fields of the seek-track command word. -/
theorem seekCmd_fields (trk : Nat) (htrk : trk < 2 ^ 32) :
    opOf (seekCmd trk) = FS3_OP_TSEEK ∧ trkOf (seekCmd trk) = trk := by
  unfold seekCmd opOf trkOf FS3_OP_TSEEK
  rw [construct_sum 1 0 trk (by decide) (by decide) htrk]
  constructor <;> omega

/-- The opcode field of a command word without a track. -/
theorem opOf_construct (op sec : Nat) (hop : op < 16) (hsec : sec < 2 ^ 16) :
    opOf (construct_fs3_cmdblock op sec 0 0) = op := by
  unfold opOf
  rw [construct_sum op sec 0 hop hsec (by decide)]
  omega

/-- A failed call, or a call with another opcode than seek-track, does not change the
latest successful seek. -/
theorem lastSeek_cons_other (c : Nat) (ok : Bool) (old : List Sent)
    (h : opOf c ≠ FS3_OP_TSEEK ∨ ok = false) :
    lastSeek ({ cmd := c, ok := ok } :: old) = lastSeek old := by
  show (if opOf c = FS3_OP_TSEEK ∧ ok = true then some (trkOf c) else lastSeek old) = _
  rw [if_neg]
  rintro ⟨h1, h2⟩
  rcases h with h | h
  · exact h h1
  · rw [h] at h2; exact absurd h2 (by decide)

/-- A successful seek-track command is the latest successful seek. -/
theorem lastSeek_cons_seek (trk : Nat) (old : List Sent) (htrk : trk < 2 ^ 32) :
    lastSeek ({ cmd := seekCmd trk, ok := true } :: old) = some trk := by
  show (if opOf (seekCmd trk) = FS3_OP_TSEEK ∧ true = true then some (trkOf (seekCmd trk))
    else lastSeek old) = _
  rw [if_pos ⟨(seekCmd_fields trk htrk).1, rfl⟩, (seekCmd_fields trk htrk).2]

/-- The seek-track command word is not a sector command. -/
theorem seekCmd_not_sector (trk : Nat) (htrk : trk < 2 ^ 32) :
    isSectorCmd (seekCmd trk) = false := by
  unfold isSectorCmd
  rw [(seekCmd_fields trk htrk).1]
  decide

/-- The invariant after a call that is not a successful seek: it still holds when the
current track is unchanged and, for a sector command, the current track is not -1. -/
theorem traceInv_push {σ : Type} (st st' : DriverState (σ × List Sent)) (c : Nat) (ok : Bool)
    (hinv : TraceInv st) (hcur : st'.curTrk = st.curTrk)
    (htr : st'.ctl.2 = { cmd := c, ok := ok } :: st.ctl.2)
    (hop : opOf c ≠ FS3_OP_TSEEK ∨ ok = false)
    (hsec : isSectorCmd c = true → 0 ≤ st.curTrk) : TraceInv st' := by
  obtain ⟨h1, h2⟩ := hinv
  unfold TraceInv
  rw [htr, hcur, lastSeek_cons_other c ok _ hop]
  refine ⟨h1, ?_⟩
  show ((!isSectorCmd c || (lastSeek st.ctl.2).isSome) && sectorsAfterSeek st.ctl.2) = true
  rw [h2, Bool.and_true]
  cases hs : isSectorCmd c with
  | false => rfl
  | true =>
    have h0 := hsec hs
    rw [h1] at h0
    cases hl : lastSeek st.ctl.2 with
    | none =>
      rw [hl] at h0
      have h3 : (0 : Int) ≤ -1 := h0
      exact absurd h3 (by decide)
    | some t => rfl

/-- The invariant after a successful seek-track command that sets the current track. -/
theorem traceInv_seek {σ : Type} (st st' : DriverState (σ × List Sent)) (trk : Nat)
    (htrk : trk < 2 ^ 32) (hinv : TraceInv st) (hcur : st'.curTrk = (trk : Int))
    (htr : st'.ctl.2 = { cmd := seekCmd trk, ok := true } :: st.ctl.2) : TraceInv st' := by
  obtain ⟨_, h2⟩ := hinv
  unfold TraceInv
  rw [htr, hcur, lastSeek_cons_seek trk _ htrk]
  refine ⟨rfl, ?_⟩
  show ((!isSectorCmd (seekCmd trk) || (lastSeek st.ctl.2).isSome) && sectorsAfterSeek st.ctl.2)
    = true
  rw [h2, seekCmd_not_sector trk htrk]
  rfl

/-- The invariant depends on the current track and the trace only. -/
theorem traceInv_of_eq {σ : Type} {st st' : DriverState (σ × List Sent)} (hinv : TraceInv st)
    (hcur : st'.curTrk = st.curTrk) (htr : st'.ctl = st.ctl) : TraceInv st' := by
  unfold TraceInv at hinv ⊢
  rw [hcur, htr]
  exact hinv

/-- With the invariant, a current track that is the index `trk` is the track of the
latest successful seek. -/
theorem lastSeek_of_cur {σ : Type} (st : DriverState (σ × List Sent)) (trk : Nat)
    (hinv : TraceInv st) (hcur : st.curTrk = (trk : Int)) : lastSeek st.ctl.2 = some trk := by
  have h1 := hinv.1
  rw [hcur] at h1
  cases hl : lastSeek st.ctl.2 with
  | none =>
    rw [hl] at h1
    have h2 : (trk : Int) = -1 := h1
    omega
  | some t =>
    rw [hl] at h1
    have h2 : (trk : Int) = (t : Int) := h1
    have : t = trk := by omega
    rw [this]

/-- The track switch at the start of a sector access under a traced transport: the
invariant is kept; when the switch does not fail the current track is `trk` and the trace
is as before or has a successful seek to `trk` in front; when it fails the trace has a
failed seek to `trk` in front. -/
theorem switch_trace {σ : Type} (net : Transport σ) (st : DriverState (σ × List Sent))
    (trk : Nat) (htrk : trk < 2 ^ 32) (hinv : TraceInv st) :
    TraceInv (if (trk : Int) ≠ st.curTrk then switchTrack (traced net) st trk else (st, 0)).1 ∧
      ((if (trk : Int) ≠ st.curTrk then switchTrack (traced net) st trk else (st, 0)).2 ≠ -1 →
        (if (trk : Int) ≠ st.curTrk then switchTrack (traced net) st trk
          else (st, 0)).1.curTrk = (trk : Int) ∧
        ((if (trk : Int) ≠ st.curTrk then switchTrack (traced net) st trk
            else (st, 0)).1.ctl.2 = st.ctl.2 ∨
          (if (trk : Int) ≠ st.curTrk then switchTrack (traced net) st trk
            else (st, 0)).1.ctl.2 = { cmd := seekCmd trk, ok := true } :: st.ctl.2)) ∧
      ((if (trk : Int) ≠ st.curTrk then switchTrack (traced net) st trk else (st, 0)).2 = -1 →
        (if (trk : Int) ≠ st.curTrk then switchTrack (traced net) st trk
          else (st, 0)).1.ctl.2 = { cmd := seekCmd trk, ok := false } :: st.ctl.2) := by
  by_cases h : (trk : Int) ≠ st.curTrk
  · rw [if_pos h]
    have hsw : switchTrack (traced net) st trk =
        if retOf (net.syscall st.ctl.1 (seekCmd trk) []).2.2.1 ≠ 0 ∨
            (net.syscall st.ctl.1 (seekCmd trk) []).2.1 = -1 then
          ({ st with ctl := ((net.syscall st.ctl.1 (seekCmd trk) []).1, Sent.mk (seekCmd trk)
                (decide (¬ (retOf (net.syscall st.ctl.1 (seekCmd trk) []).2.2.1 ≠ 0 ∨
                  (net.syscall st.ctl.1 (seekCmd trk) []).2.1 = -1))) :: st.ctl.2) }, -1)
        else
          ({ st with ctl := ((net.syscall st.ctl.1 (seekCmd trk) []).1, Sent.mk (seekCmd trk)
                (decide (¬ (retOf (net.syscall st.ctl.1 (seekCmd trk) []).2.2.1 ≠ 0 ∨
                  (net.syscall st.ctl.1 (seekCmd trk) []).2.1 = -1))) :: st.ctl.2),
                     curTrk := (trk : Int) }, 0) := by
      unfold switchTrack
      rw [if_pos h, Int.toNat_ofNat]
      rfl
    rw [hsw]
    generalize net.syscall st.ctl.1 (seekCmd trk) [] = r
    by_cases hf : retOf r.2.2.1 ≠ 0 ∨ r.2.1 = -1
    · rw [if_pos hf]
      have hd : decide (¬ (retOf r.2.2.1 ≠ 0 ∨ r.2.1 = -1)) = false := by simp [hf]
      rw [hd]
      refine ⟨?_, fun hne => absurd rfl hne, fun _ => rfl⟩
      exact traceInv_push st _ (seekCmd trk) false hinv rfl rfl (Or.inr rfl)
        (fun hs => by rw [seekCmd_not_sector trk htrk] at hs; exact absurd hs (by decide))
    · rw [if_neg hf]
      have hd : decide (¬ (retOf r.2.2.1 ≠ 0 ∨ r.2.1 = -1)) = true := by simp [hf]
      rw [hd]
      refine ⟨?_, fun _ => ⟨rfl, Or.inr rfl⟩, fun hm => ?_⟩
      · exact traceInv_seek st _ trk htrk hinv rfl rfl
      · have hneg : (0 : Int) = -1 := hm
        exact absurd hneg (by decide)
  · rw [if_neg h]
    refine ⟨hinv, fun _ => ⟨?_, Or.inl rfl⟩, fun hm => ?_⟩
    · have : (trk : Int) = st.curTrk := by
        by_contra hc
        exact h hc
      exact this.symm
    · have hneg : (0 : Int) = -1 := hm
      exact absurd hneg (by decide)

/-- Where `readSector` leaves the current track and the transport: as after the track
switch, or after one more call with the read-sector command, made only when the switch did
not fail. -/
theorem readSector_shape {τ : Type} (net : Transport τ) (st : DriverState τ) (trk sec : Nat) :
    (readSector net st trk sec).1.curTrk
        = (if (trk : Int) ≠ st.curTrk then switchTrack net st trk else (st, 0)).1.curTrk ∧
      ((readSector net st trk sec).1.ctl
          = (if (trk : Int) ≠ st.curTrk then switchTrack net st trk else (st, 0)).1.ctl ∨
        ((if (trk : Int) ≠ st.curTrk then switchTrack net st trk else (st, 0)).2 ≠ -1 ∧
          (readSector net st trk sec).1.ctl
            = (net.syscall (if (trk : Int) ≠ st.curTrk then switchTrack net st trk
                else (st, 0)).1.ctl (construct_fs3_cmdblock FS3_OP_RDSECT sec 0 0) []).1)) := by
  unfold readSector
  dsimp only
  generalize (if (trk : Int) ≠ st.curTrk then switchTrack net st trk else (st, 0)) = sw
  by_cases h : sw.2 = -1
  · rw [if_pos h]
    exact ⟨rfl, Or.inl rfl⟩
  · rw [if_neg h]
    split
    · exact ⟨rfl, Or.inl rfl⟩
    · repeat' split
      all_goals exact ⟨rfl, Or.inr ⟨h, rfl⟩⟩

/-- Where `writeSector` leaves the current track and the transport: as after the track
switch, or after one more call with the write-sector command, made only when the switch did
not fail. -/
theorem writeSector_shape {τ : Type} (net : Transport τ) (st : DriverState τ) (trk sec : Nat)
    (tmpBuf : List Nat) :
    (writeSector net st trk sec tmpBuf).1.curTrk
        = (if (trk : Int) ≠ st.curTrk then switchTrack net st trk else (st, 0)).1.curTrk ∧
      ((writeSector net st trk sec tmpBuf).1.ctl
          = (if (trk : Int) ≠ st.curTrk then switchTrack net st trk else (st, 0)).1.ctl ∨
        ((if (trk : Int) ≠ st.curTrk then switchTrack net st trk else (st, 0)).2 ≠ -1 ∧
          ∃ b, (writeSector net st trk sec tmpBuf).1.ctl
            = (net.syscall (if (trk : Int) ≠ st.curTrk then switchTrack net st trk
                else (st, 0)).1.ctl (construct_fs3_cmdblock FS3_OP_WRSECT sec 0 0) b).1)) := by
  unfold writeSector
  dsimp only
  generalize (if (trk : Int) ≠ st.curTrk then switchTrack net st trk else (st, 0)) = sw
  by_cases h : sw.2 = -1
  · rw [if_pos h]
    exact ⟨rfl, Or.inl rfl⟩
  · rw [if_neg h]
    repeat' split
    all_goals exact ⟨rfl, Or.inr ⟨h, _, rfl⟩⟩

/-- One sector access under a traced transport, for the sector command `op`: when the
access ends with the current track and the transport as after the track switch, or after
one more call with the command for `sec`, the invariant is kept and the trace grows as
`Access` says. -/
theorem access_trace {σ : Type} (net : Transport σ) (st res : DriverState (σ × List Sent))
    (op trk sec : Nat) (htrk : trk < 2 ^ 32) (hsec : sec < 2 ^ 16)
    (hop : op = FS3_OP_RDSECT ∨ op = FS3_OP_WRSECT) (hinv : TraceInv st)
    (hcur : res.curTrk
      = (if (trk : Int) ≠ st.curTrk then switchTrack (traced net) st trk else (st, 0)).1.curTrk)
    (hctl : res.ctl
        = (if (trk : Int) ≠ st.curTrk then switchTrack (traced net) st trk else (st, 0)).1.ctl ∨
      ((if (trk : Int) ≠ st.curTrk then switchTrack (traced net) st trk else (st, 0)).2 ≠ -1 ∧
        ∃ b, res.ctl
          = ((traced net).syscall (if (trk : Int) ≠ st.curTrk then switchTrack (traced net) st trk
              else (st, 0)).1.ctl (construct_fs3_cmdblock op sec 0 0) b).1)) :
    TraceInv res ∧ Access op trk sec st.ctl.2 res.ctl.2 := by
  obtain ⟨hsw1, hsw2, hsw3⟩ := switch_trace net st trk htrk hinv
  generalize (if (trk : Int) ≠ st.curTrk then switchTrack (traced net) st trk else (st, 0)) = sw
    at hcur hctl hsw1 hsw2 hsw3
  have hop16 : op < 16 := by
    rcases hop with h | h <;> rw [h] <;> decide
  have hopOf : opOf (construct_fs3_cmdblock op sec 0 0) = op := opOf_construct op sec hop16 hsec
  have hnotseek : opOf (construct_fs3_cmdblock op sec 0 0) ≠ FS3_OP_TSEEK := by
    rw [hopOf]
    rcases hop with h | h <;> rw [h] <;> decide
  rcases hctl with hctl | ⟨hne, b, hctl⟩
  · refine ⟨traceInv_of_eq hsw1 hcur hctl, ?_⟩
    rw [hctl]
    by_cases hm : sw.2 = -1
    · right; left; exact hsw3 hm
    · rcases (hsw2 hm).2 with h | h
      · left; exact h
      · right; right; left; exact h
  · obtain ⟨hc, htr⟩ := hsw2 hne
    have htrace : res.ctl.2 = Sent.mk (construct_fs3_cmdblock op sec 0 0)
        (decide (¬ (retOf (net.syscall sw.1.ctl.1 (construct_fs3_cmdblock op sec 0 0) b).2.2.1 ≠ 0 ∨
          (net.syscall sw.1.ctl.1 (construct_fs3_cmdblock op sec 0 0) b).2.1 = -1))) ::
          sw.1.ctl.2 := by
      rw [hctl]
      rfl
    generalize decide (¬ (retOf (net.syscall sw.1.ctl.1 (construct_fs3_cmdblock op sec 0 0)
      b).2.2.1 ≠ 0 ∨ (net.syscall sw.1.ctl.1 (construct_fs3_cmdblock op sec 0 0) b).2.1 = -1))
      = okv at htrace
    refine ⟨traceInv_push sw.1 res _ _ hsw1 hcur htrace (Or.inl hnotseek)
      (fun _ => by rw [hc]; exact Int.ofNat_zero_le trk), ?_⟩
    rw [htrace]
    rcases htr with h | h
    · right; right; right; right
      refine ⟨okv, ?_, ?_⟩
      · rw [h]
      · have := lastSeek_of_cur sw.1 trk hsw1 hc
        rw [h] at this
        exact this
    · right; right; right; left
      refine ⟨okv, ?_⟩
      rw [h]

/-- `readSector` under a traced transport keeps the invariant, and the trace grows as
`Access` says for the read-sector command. -/
theorem readSector_trace {σ : Type} (net : Transport σ) (st : DriverState (σ × List Sent))
    (trk sec : Nat) (htrk : trk < 2 ^ 32) (hsec : sec < 2 ^ 16) (hinv : TraceInv st) :
    TraceInv (readSector (traced net) st trk sec).1 ∧
      Access FS3_OP_RDSECT trk sec st.ctl.2 (readSector (traced net) st trk sec).1.ctl.2 := by
  obtain ⟨h1, h2⟩ := readSector_shape (traced net) st trk sec
  refine access_trace net st _ FS3_OP_RDSECT trk sec htrk hsec (Or.inl rfl) hinv h1 ?_
  rcases h2 with h | ⟨hne, h⟩
  · left; exact h
  · right; exact ⟨hne, [], h⟩

/-- `writeSector` under a traced transport keeps the invariant, and the trace grows as
`Access` says for the write-sector command. -/
theorem writeSector_trace {σ : Type} (net : Transport σ) (st : DriverState (σ × List Sent))
    (trk sec : Nat) (tmpBuf : List Nat) (htrk : trk < 2 ^ 32) (hsec : sec < 2 ^ 16)
    (hinv : TraceInv st) :
    TraceInv (writeSector (traced net) st trk sec tmpBuf).1 ∧
      Access FS3_OP_WRSECT trk sec st.ctl.2
        (writeSector (traced net) st trk sec tmpBuf).1.ctl.2 := by
  obtain ⟨h1, h2⟩ := writeSector_shape (traced net) st trk sec tmpBuf
  exact access_trace net st _ FS3_OP_WRSECT trk sec htrk hsec (Or.inr rfl) hinv h1 h2

/-- The addresses of `trackAddrs` lie on the track, from the starting sector on. -/
theorem trackAddrs_mem (trk : Nat) : ∀ (n sec : Nat) (a : Nat × Nat),
    a ∈ trackAddrs trk n sec → a.1 = trk ∧ sec ≤ a.2 ∧ a.2 < sec + n := by
  intro n
  induction n with
  | zero => intro sec a h; simp [trackAddrs] at h
  | succ n ih =>
    intro sec a h
    unfold trackAddrs at h
    rcases List.mem_cons.mp h with h | h
    · rw [h]; exact ⟨rfl, Nat.le_refl _, by omega⟩
    · obtain ⟨h1, h2, h3⟩ := ih (sec + 1) a h
      exact ⟨h1, by omega, by omega⟩

/-- The addresses of `gridAddrs` lie within the tracks visited and the track size. -/
theorem gridAddrs_mem (g : Geometry) : ∀ (n trk : Nat) (a : Nat × Nat),
    a ∈ gridAddrs g n trk → trk ≤ a.1 ∧ a.1 < trk + n ∧ a.2 < g.FS3_TRACK_SIZE := by
  intro n
  induction n with
  | zero => intro trk a h; simp [gridAddrs] at h
  | succ n ih =>
    intro trk a h
    unfold gridAddrs at h
    rcases List.mem_append.mp h with h | h
    · obtain ⟨h1, _, h3⟩ := trackAddrs_mem trk _ 0 a h
      exact ⟨by omega, by omega, by omega⟩
    · obtain ⟨h1, h2, h3⟩ := ih (trk + 1) a h
      exact ⟨by omega, by omega, h3⟩

/-- On a geometry that fits the fields of the command word, every address of the disk
does. -/
theorem allAddrs_fit (g : Geometry) (hT : g.FS3_MAX_TRACKS ≤ 2 ^ 32)
    (hS : g.FS3_TRACK_SIZE ≤ 2 ^ 16) :
    ∀ a ∈ allAddrs g, a.1 < 2 ^ 32 ∧ a.2 < 2 ^ 16 := by
  intro a ha
  obtain ⟨_, h2, h3⟩ := gridAddrs_mem g _ 0 a ha
  exact ⟨by omega, by omega⟩

/-- The sector loop of `fs3_read` under a traced transport keeps the invariant. -/
theorem readLoop_trace {σ : Type} (net : Transport σ) (ofidx : Nat) (n f : Int) :
    ∀ (addrs : List (Nat × Nat)), (∀ a ∈ addrs, a.1 < 2 ^ 32 ∧ a.2 < 2 ^ 16) →
      ∀ (s : SectorLoop (σ × List Sent)), TraceInv s.st →
        TraceInv (readLoop (traced net) ofidx n f addrs s).st := by
  intro addrs
  induction addrs with
  | nil => intro _ s h; exact h
  | cons a rest ih =>
    intro hfit s h
    have hrest : ∀ b ∈ rest, b.1 < 2 ^ 32 ∧ b.2 < 2 ^ 16 :=
      fun b hb => hfit b (List.mem_cons_of_mem a hb)
    obtain ⟨ha1, ha2⟩ := hfit a (List.mem_cons_self a rest)
    unfold readLoop
    split
    · exact h
    · split
      · split
        · have hrs := (readSector_trace net s.st a.1 a.2 ha1 ha2 h).1
          split
          · rename_i st1 heq
            rw [heq] at hrs
            exact hrs
          · rename_i st1 data heq
            rw [heq] at hrs
            exact ih hrest _ hrs
        · exact ih hrest _ h
      · exact ih hrest _ h

/-- The sector loop of `fs3_write` under a traced transport keeps the invariant. -/
theorem writeLoop_trace {σ : Type} (net : Transport σ) (ofidx : Nat) (n f : Int) :
    ∀ (addrs : List (Nat × Nat)), (∀ a ∈ addrs, a.1 < 2 ^ 32 ∧ a.2 < 2 ^ 16) →
      ∀ (s : SectorLoop (σ × List Sent)), TraceInv s.st →
        TraceInv (writeLoop (traced net) ofidx n f addrs s).st := by
  intro addrs
  induction addrs with
  | nil => intro _ s h; exact h
  | cons a rest ih =>
    intro hfit s h
    have hrest : ∀ b ∈ rest, b.1 < 2 ^ 32 ∧ b.2 < 2 ^ 16 :=
      fun b hb => hfit b (List.mem_cons_of_mem a hb)
    obtain ⟨ha1, ha2⟩ := hfit a (List.mem_cons_self a rest)
    unfold writeLoop
    split
    · exact h
    · split
      · split
        · have hrs := (writeSector_trace net s.st a.1 a.2
            ((s.buf.drop s.pos).take FS3_SECTOR_SIZE) ha1 ha2 h).1
          split
          · rename_i st1 heq
            rw [heq] at hrs
            exact hrs
          · rename_i st1 heq
            rw [heq] at hrs
            exact ih hrest _ hrs
        · exact ih hrest _ h
      · exact ih hrest _ h

/-- `fs3_read` under a traced transport keeps the invariant. -/
theorem fs3_read_trace {σ : Type} (g : Geometry) (net : Transport σ)
    (st : DriverState (σ × List Sent)) (fd : Int) (count : Nat)
    (hfit : ∀ a ∈ allAddrs g, a.1 < 2 ^ 32 ∧ a.2 < 2 ^ 16) (hinv : TraceInv st) :
    TraceInv (fs3_read g (traced net) st fd count).1 := by
  unfold fs3_read
  dsimp only
  split
  · exact hinv
  · split
    · exact hinv
    · split
      · exact hinv
      · split
        · split
          · exact readLoop_trace net _ _ _ _ hfit _ hinv
          · exact readLoop_trace net _ _ _ _ hfit _ hinv
        · split
          · exact hinv
          · exact hinv

/-- The growth step of `fs3_write` leaves the current track and the transport alone. -/
theorem growFile_device {σ : Type} (g : Geometry) (st : DriverState σ) (i e : Nat) :
    (growFile g st i e).curTrk = st.curTrk ∧ (growFile g st i e).ctl = st.ctl := by
  obtain ⟨loc, ns, len, gl, hg, _⟩ := growFile_effect g st i e
  rw [hg]
  exact ⟨rfl, rfl⟩

/-- The last part of `fs3_write`, from the sector loop on, under a traced transport keeps
the invariant. -/
theorem write_tail_trace {σ : Type} (net : Transport σ) (i : Nat) (n f : Int)
    (addrs : List (Nat × Nat)) (st5 : DriverState (σ × List Sent)) (wb : List Nat)
    (e count : Nat) (res : DriverState (σ × List Sent) × Int)
    (hfit : ∀ a ∈ addrs, a.1 < 2 ^ 32 ∧ a.2 < 2 ^ 16) (hinv : TraceInv st5)
    (hres :
      (if (writeLoop (traced net) i n f addrs
            { st := st5, buf := wb, pos := 0, handled := 0, skipped := 0, failed := false }).failed
        then
          ((writeLoop (traced net) i n f addrs
            { st := st5, buf := wb, pos := 0, handled := 0, skipped := 0, failed := false }).st, -1)
        else
          ({ (writeLoop (traced net) i n f addrs
                { st := st5, buf := wb, pos := 0, handled := 0, skipped := 0,
                  failed := false }).st with
              oftable := setEntry
                (writeLoop (traced net) i n f addrs
                  { st := st5, buf := wb, pos := 0, handled := 0, skipped := 0,
                    failed := false }).st.oftable i
                { ((writeLoop (traced net) i n f addrs
                    { st := st5, buf := wb, pos := 0, handled := 0, skipped := 0,
                      failed := false }).st.oftable i) with ofpos := e } }, (count : Int))) = res) :
    TraceInv res.1 := by
  have hws := writeLoop_trace net i n f addrs hfit
    { st := st5, buf := wb, pos := 0, handled := 0, skipped := 0, failed := false } hinv
  generalize writeLoop (traced net) i n f addrs
    { st := st5, buf := wb, pos := 0, handled := 0, skipped := 0, failed := false } = s
    at hws hres
  by_cases hf : s.failed = true
  · rw [if_pos hf] at hres
    subst hres
    exact hws
  · rw [if_neg hf] at hres
    subst hres
    exact traceInv_of_eq hws rfl rfl

/-- `fs3_write` under a traced transport keeps the invariant. -/
theorem fs3_write_trace {σ : Type} (g : Geometry) (net : Transport σ)
    (st : DriverState (σ × List Sent)) (fd : Int) (buf : List Nat) (count : Nat)
    (hfit : ∀ a ∈ allAddrs g, a.1 < 2 ^ 32 ∧ a.2 < 2 ^ 16) (hinv : TraceInv st) :
    TraceInv (fs3_write g (traced net) st fd buf count).1 := by
  generalize hres : fs3_write g (traced net) st fd buf count = res
  unfold fs3_write at hres
  dsimp only at hres
  generalize idxByHandle st fd = r at hres
  by_cases h1 : r.2.1 = -1 ∨ r.2.2 = -1
  · rw [if_pos h1] at hres; subst hres; exact hinv
  rw [if_neg h1] at hres
  by_cases h2 : (st.ftable r.2.2.toNat).fstate ≠ "opened"
  · rw [if_pos h2] at hres; subst hres; exact hinv
  rw [if_neg h2] at hres
  generalize r.2.1.toNat = i at hres
  by_cases h3 : MAX_FILE_SIZE < ((st.oftable i).ofpos + count) % 2 ^ 32
  · rw [if_pos h3] at hres; subst hres; exact hinv
  rw [if_neg h3] at hres
  by_cases h4 : r.1 = -1
  · rw [if_pos h4] at hres; subst hres; exact hinv
  rw [if_neg h4] at hres
  have hg : TraceInv (growFile g st i (((st.oftable i).ofpos + count) % 2 ^ 32)) :=
    traceInv_of_eq hinv (growFile_device g st i _).1 (growFile_device g st i _).2
  generalize growFile g st i (((st.oftable i).ofpos + count) % 2 ^ 32) = st1 at hg hres
  generalize toInt16 (toInt16 ↑(ceilDiv1024 (((st.oftable i).ofpos + count) % 2 ^ 32)) -
    toInt16 ↑((st.oftable i).ofpos / 1024)) = numToChange at hres
  generalize (toInt16 ↑((st.oftable i).ofpos / 1024) * ↑FS3_SECTOR_SIZE).toNat = fs at hres
  by_cases hread : 0 < numToChange ∧ (st1.oftable i).oflength ≠ 0
  · rw [if_pos hread] at hres
    have hrs := fs3_read_trace g net
      { st1 with oftable := setEntry st1.oftable i { (st1.oftable i) with ofpos := fs } }
      fd (numToChange * ↑FS3_SECTOR_SIZE).toNat hfit (traceInv_of_eq hg rfl rfl)
    generalize fs3_read g (traced net)
      { st1 with oftable := setEntry st1.oftable i { (st1.oftable i) with ofpos := fs } }
      fd (numToChange * ↑FS3_SECTOR_SIZE).toNat = rr at hrs hres
    by_cases hne : rr.2.1 ≠ numToChange * ↑FS3_SECTOR_SIZE
    · rw [if_pos hne] at hres
      dsimp only at hres
      subst hres
      exact hrs
    · rw [if_neg hne] at hres
      dsimp only at hres
      refine write_tail_trace net i numToChange _ (allAddrs g) _ _ _ count res hfit ?_ hres
      exact traceInv_of_eq hrs rfl rfl
  · rw [if_neg hread] at hres
    dsimp only at hres
    exact write_tail_trace net i numToChange _ (allAddrs g) _ _ _ count res hfit hg hres

/-- `fs3_open` leaves the current track and the transport alone. -/
theorem open_device {σ : Type} (st : DriverState σ) (path : String) :
    (fs3_open st path).1.curTrk = st.curTrk ∧ (fs3_open st path).1.ctl = st.ctl := by
  unfold fs3_open
  repeat' split
  all_goals exact ⟨rfl, rfl⟩

/-- `fs3_seek` leaves the current track and the transport alone. -/
theorem seek_device {σ : Type} (st : DriverState σ) (fd : Int) (loc : Nat) :
    (fs3_seek st fd loc).1.curTrk = st.curTrk ∧ (fs3_seek st fd loc).1.ctl = st.ctl := by
  unfold fs3_seek
  dsimp only
  repeat' split
  all_goals exact ⟨rfl, rfl⟩

/-- `fs3_mount_disk` under a traced transport keeps the invariant. -/
theorem mount_trace {σ : Type} (g : Geometry) (net : Transport σ)
    (st : DriverState (σ × List Sent)) (hinv : TraceInv st) :
    TraceInv (fs3_mount_disk g (traced net) st).1 := by
  have hop : opOf (construct_fs3_cmdblock FS3_OP_MOUNT 0 0 0) ≠ FS3_OP_TSEEK := by decide
  have hns : isSectorCmd (construct_fs3_cmdblock FS3_OP_MOUNT 0 0 0) = true → 0 ≤ st.curTrk :=
    fun h => absurd h (by decide)
  unfold fs3_mount_disk
  split
  · exact hinv
  · dsimp only
    split
    · exact traceInv_push st _ _ _ hinv rfl rfl (Or.inl hop) hns
    · exact traceInv_push st _ _ _ hinv rfl rfl (Or.inl hop) hns

/-- `fs3_unmount_disk` under a traced transport keeps the invariant. -/
theorem unmount_trace {σ : Type} (net : Transport σ) (st : DriverState (σ × List Sent))
    (junk : Nat) (hinv : TraceInv st) : TraceInv (fs3_unmount_disk (traced net) st junk).1 := by
  have hop : opOf (construct_fs3_cmdblock FS3_OP_UMOUNT 0 0 0) ≠ FS3_OP_TSEEK := by decide
  obtain ⟨d1, d2, _⟩ := unmountLoop_device st.freeHandle.toNat 0 st
  have hl : TraceInv (unmountLoop st.freeHandle.toNat 0 st) := traceInv_of_eq hinv d1 d2
  have hns : isSectorCmd (construct_fs3_cmdblock FS3_OP_UMOUNT 0 0 0) = true →
      0 ≤ (unmountLoop st.freeHandle.toNat 0 st).curTrk :=
    fun h => absurd h (by decide)
  unfold fs3_unmount_disk
  split
  · exact hinv
  · dsimp only
    split
    · exact traceInv_push _ _ _ _ hl rfl rfl (Or.inl hop) hns
    · exact traceInv_push _ _ _ _ hl rfl rfl (Or.inl hop) hns

/-- Every call under a traced transport keeps the invariant. -/
theorem run_trace {σ : Type} (g : Geometry) (net : Transport σ)
    (st : DriverState (σ × List Sent)) (op : DriverOp)
    (hfit : ∀ a ∈ allAddrs g, a.1 < 2 ^ 32 ∧ a.2 < 2 ^ 16) (hinv : TraceInv st) :
    TraceInv (op.run g (traced net) st) := by
  cases op with
  | mount => exact mount_trace g net st hinv
  | unmount junk => exact unmount_trace net st junk hinv
  | openFile path => exact traceInv_of_eq hinv (open_device st path).1 (open_device st path).2
  | close fd =>
    exact traceInv_of_eq hinv (close_device st (toInt16 fd)).1 (close_device st (toInt16 fd)).2.1
  | read fd count => exact fs3_read_trace g net st _ _ hfit hinv
  | write fd buf count => exact fs3_write_trace g net st _ buf _ hfit hinv
  | seek fd loc => exact traceInv_of_eq hinv (seek_device st _ _).1 (seek_device st _ _).2
  | cache op => exact traceInv_of_eq hinv rfl rfl

/-- Every sequence of calls under a traced transport keeps the invariant. -/
theorem runDriver_trace {σ : Type} (g : Geometry) (net : Transport σ) (ops : List DriverOp)
    (hfit : ∀ a ∈ allAddrs g, a.1 < 2 ^ 32 ∧ a.2 < 2 ^ 16) :
    ∀ (st : DriverState (σ × List Sent)), TraceInv st →
      TraceInv (runDriver g (traced net) st ops) := by
  induction ops with
  | nil => intro st h; exact h
  | cons op ops ih =>
    intro st h
    exact ih _ (run_trace g net st op hfit h)

/-- The invariant holds in every state reached with an empty trace at process start. -/
theorem traceInv_of_reachable {σ : Type} {g : Geometry} {net : Transport σ}
    {st : DriverState (σ × List Sent)} (hT : g.FS3_MAX_TRACKS ≤ 2 ^ 32)
    (hS : g.FS3_TRACK_SIZE ≤ 2 ^ 16) (h : TracedReachable g net st) : TraceInv st := by
  obtain ⟨ctl, ops, rfl⟩ := h
  exact runDriver_trace g net ops (allAddrs_fit g hT hS) _ ⟨rfl, rfl⟩

/-- Masking with a shifted mask and shifting back is masking the shifted word. -/
theorem and_shiftLeft_shiftRight (w m k : Nat) : (w &&& (m <<< k)) >>> k = (w >>> k) &&& m := by
  apply Nat.eq_of_testBit_eq
  intro i
  simp only [Nat.testBit_shiftRight, Nat.testBit_and, Nat.testBit_shiftLeft]
  have h1 : k + i ≥ k := by omega
  have h2 : k + i - k = i := by omega
  simp [h1, h2]

/-- The word built by `construct_fs3_cmdblock` from fields within their widths, status
included. -/
theorem construct_sum_ret (op sec trk ret : Nat) (hop : op < 16) (hsec : sec < 2 ^ 16)
    (htrk : trk < 2 ^ 32) (hret : ret < 2) :
    construct_fs3_cmdblock op sec trk ret
      = op * 2 ^ 60 + sec * 2 ^ 44 + trk * 2 ^ 12 + ret * 2 ^ 11 := by
  unfold construct_fs3_cmdblock
  simp only [Nat.shiftLeft_eq]
  have h1 : op * 2 ^ 60 % 2 ^ 64 = op * 2 ^ 60 := Nat.mod_eq_of_lt (by omega)
  have h2 : sec * 2 ^ 44 % 2 ^ 64 = sec * 2 ^ 44 := Nat.mod_eq_of_lt (by omega)
  have h3 : trk * 2 ^ 12 % 2 ^ 64 = trk * 2 ^ 12 := Nat.mod_eq_of_lt (by omega)
  have h4 : ret * 2 ^ 11 % 2 ^ 64 = ret * 2 ^ 11 := Nat.mod_eq_of_lt (by omega)
  rw [h1, h2, h3, h4]
  have e0 : trk * 2 ^ 12 ||| ret * 2 ^ 11 = trk * 2 ^ 12 + ret * 2 ^ 11 := by
    rw [Nat.mul_comm trk]
    exact (Nat.mul_add_lt_is_or (by omega) trk).symm
  have e1 : sec * 2 ^ 44 ||| (trk * 2 ^ 12 + ret * 2 ^ 11)
      = sec * 2 ^ 44 + (trk * 2 ^ 12 + ret * 2 ^ 11) := by
    rw [Nat.mul_comm sec]
    exact (Nat.mul_add_lt_is_or (by omega) sec).symm
  have e2 : op * 2 ^ 60 ||| (sec * 2 ^ 44 + (trk * 2 ^ 12 + ret * 2 ^ 11))
      = op * 2 ^ 60 + (sec * 2 ^ 44 + (trk * 2 ^ 12 + ret * 2 ^ 11)) := by
    rw [Nat.mul_comm op]
    exact (Nat.mul_add_lt_is_or (by omega) op).symm
  rw [Nat.or_assoc, Nat.or_assoc, e0, e1, e2]
  omega

/-- The loop of `idxByHandle` looks at the two file tables only. -/
theorem idxByHandleLoop_congr {σ τ : Type} (st : DriverState σ) (st' : DriverState τ) (fd : Int)
    (h1 : st'.oftable = st.oftable) (h2 : st'.ftable = st.ftable) :
    ∀ (n i : Nat) (ofidx : Int),
      idxByHandleLoop st' fd n i ofidx = idxByHandleLoop st fd n i ofidx := by
  intro n
  induction n with
  | zero => intro i ofidx; rfl
  | succ n ih =>
    intro i ofidx
    unfold idxByHandleLoop
    rw [h1, h2, ih, ih]

/-- `idxByHandle` looks at the two file tables only. -/
theorem idxByHandle_congr {σ τ : Type} (st : DriverState σ) (st' : DriverState τ) (fd : Int)
    (h1 : st'.oftable = st.oftable) (h2 : st'.ftable = st.ftable) :
    idxByHandle st' fd = idxByHandle st fd :=
  idxByHandleLoop_congr st st' fd h1 h2 _ _ _

/-- The scan of `findFreeLoc` over two stretches of addresses: the first free address of
the first stretch, else of the second. -/
theorem firstFree_append (gl : Nat → Nat → Int) : ∀ (l1 l2 : List (Nat × Nat)),
    firstFree gl (l1 ++ l2) =
      match firstFree gl l1 with
      | some a => some a
      | none => firstFree gl l2 := by
  intro l1
  induction l1 with
  | nil => intro l2; rfl
  | cons a rest ih =>
    intro l2
    show (if gl a.1 a.2 = 0 then some a else firstFree gl (rest ++ l2)) = _
    by_cases h : gl a.1 a.2 = 0
    · rw [if_pos h]
      show _ = match (if gl a.1 a.2 = 0 then some a else firstFree gl rest) with
        | some a => some a
        | none => firstFree gl l2
      rw [if_pos h]
    · rw [if_neg h, ih]
      show _ = match (if gl a.1 a.2 = 0 then some a else firstFree gl rest) with
        | some a => some a
        | none => firstFree gl l2
      rw [if_neg h]

/-- The scan of `findFreeLoc` along one track: it stops at the first free sector. -/
theorem firstFree_track (gl : Nat → Nat → Int) (trk : Nat) : ∀ (n sec : Nat),
    (∃ s, firstFree gl (trackAddrs trk n sec) = some (trk, s) ∧ sec ≤ s ∧ s < sec + n ∧
        gl trk s = 0 ∧ ∀ s', sec ≤ s' → s' < s → gl trk s' ≠ 0) ∨
      (firstFree gl (trackAddrs trk n sec) = none ∧
        ∀ s', sec ≤ s' → s' < sec + n → gl trk s' ≠ 0) := by
  intro n
  induction n with
  | zero => intro sec; right; exact ⟨rfl, fun s' h1 h2 => by omega⟩
  | succ n ih =>
    intro sec
    show (∃ s, (if gl trk sec = 0 then some (trk, sec)
        else firstFree gl (trackAddrs trk n (sec + 1))) = some (trk, s) ∧ _) ∨
      ((if gl trk sec = 0 then some (trk, sec)
        else firstFree gl (trackAddrs trk n (sec + 1))) = none ∧ _)
    by_cases h : gl trk sec = 0
    · left
      rw [if_pos h]
      exact ⟨sec, rfl, Nat.le_refl _, by omega, h, fun s' h1 h2 => by omega⟩
    · rw [if_neg h]
      rcases ih (sec + 1) with ⟨s, h1, h2, h3, h4, h5⟩ | ⟨h1, h2⟩
      · left
        refine ⟨s, h1, by omega, by omega, h4, fun s' a b => ?_⟩
        by_cases hs : s' = sec
        · rw [hs]; exact h
        · exact h5 s' (by omega) b
      · right
        refine ⟨h1, fun s' a b => ?_⟩
        by_cases hs : s' = sec
        · rw [hs]; exact h
        · exact h2 s' (by omega) (by omega)

/-- The scan of `findFreeLoc` over the tracks `trk, trk + 1, ...`: it stops at the free
address that comes first in increasing (track, sector) order. -/
theorem firstFree_grid (g : Geometry) (gl : Nat → Nat → Int) : ∀ (n trk : Nat),
    (∃ t s, firstFree gl (gridAddrs g n trk) = some (t, s) ∧ trk ≤ t ∧ t < trk + n ∧
        s < g.FS3_TRACK_SIZE ∧ gl t s = 0 ∧
        ∀ t' s', trk ≤ t' → t' < trk + n → s' < g.FS3_TRACK_SIZE → gl t' s' = 0 →
          t < t' ∨ (t = t' ∧ s ≤ s')) ∨
      (firstFree gl (gridAddrs g n trk) = none ∧
        ∀ t' s', trk ≤ t' → t' < trk + n → s' < g.FS3_TRACK_SIZE → gl t' s' ≠ 0) := by
  intro n
  induction n with
  | zero => intro trk; right; exact ⟨rfl, fun t' s' h1 h2 => by omega⟩
  | succ n ih =>
    intro trk
    have hg : gridAddrs g (n + 1) trk
        = trackAddrs trk g.FS3_TRACK_SIZE 0 ++ gridAddrs g n (trk + 1) := rfl
    rw [hg, firstFree_append]
    rcases firstFree_track gl trk g.FS3_TRACK_SIZE 0 with ⟨s, h1, _, h3, h4, h5⟩ | ⟨h1, h2⟩
    · left
      rw [h1]
      refine ⟨trk, s, rfl, Nat.le_refl _, by omega, by omega, h4, fun t' s' a b c d => ?_⟩
      by_cases ht : t' = trk
      · right
        refine ⟨ht.symm, ?_⟩
        by_contra hlt
        rw [ht] at d
        exact h5 s' (Nat.zero_le _) (by omega) d
      · left; omega
    · rw [h1]
      rcases ih (trk + 1) with ⟨t, s, e1, e2, e3, e4, e5, e6⟩ | ⟨e1, e2⟩
      · left
        refine ⟨t, s, e1, by omega, by omega, e4, e5, fun t' s' a b c d => ?_⟩
        by_cases ht : t' = trk
        · rw [ht] at d
          exact absurd d (h2 s' (Nat.zero_le _) (by omega))
        · exact e6 t' s' (by omega) (by omega) c d
      · right
        refine ⟨e1, fun t' s' a b c => ?_⟩
        by_cases ht : t' = trk
        · rw [ht]; exact h2 s' (Nat.zero_le _) (by omega)
        · exact e2 t' s' (by omega) (by omega) c

/-- The sector loop of `fs3_read` reads, with `readSector`, the owned addresses that are
left after the ones still to pass over, up to the number of sectors still to read. -/
theorem readLoop_eq_readAll {σ : Type} (net : Transport σ) (ofidx : Nat) (n f : Int) :
    ∀ (addrs : List (Nat × Nat)) (s : SectorLoop σ), s.skipped ≤ f → s.handled ≤ n →
      s.failed = false →
      (readLoop net ofidx n f addrs s).st
          = (readAll net (((addrs.filter
              (fun a => decide ((s.st.oftable ofidx).ofloc a.1 a.2 = 1))).drop
              (f - s.skipped).toNat).take (n - s.handled).toNat) s.st s.buf s.pos).1 ∧
        (readAll net (((addrs.filter
              (fun a => decide ((s.st.oftable ofidx).ofloc a.1 a.2 = 1))).drop
              (f - s.skipped).toNat).take (n - s.handled).toNat) s.st s.buf s.pos).2
          = (if (readLoop net ofidx n f addrs s).failed = true then none
              else some (readLoop net ofidx n f addrs s).buf) := by
  intro addrs
  induction addrs with
  | nil =>
    intro s _ _ hf
    simp [readLoop, readAll, hf]
  | cons a rest ih =>
    intro s hsk hh hf
    unfold readLoop
    by_cases h1 : s.handled = n
    · rw [if_pos h1]
      have hz : (n - s.handled).toNat = 0 := by omega
      rw [hz, List.take_zero, hf]
      exact ⟨rfl, rfl⟩
    · rw [if_neg h1]
      have hpos : (n - s.handled).toNat = (n - (s.handled + 1)).toNat + 1 := by omega
      by_cases h2 : (s.st.oftable ofidx).ofloc a.1 a.2 = 1
      · rw [if_pos h2]
        have hfil : (a :: rest).filter (fun a => decide ((s.st.oftable ofidx).ofloc a.1 a.2 = 1))
            = a :: rest.filter (fun a => decide ((s.st.oftable ofidx).ofloc a.1 a.2 = 1)) := by
          rw [List.filter_cons_of_pos]
          simpa using h2
        rw [hfil]
        by_cases h3 : s.skipped = f
        · rw [if_pos h3]
          have hz : (f - s.skipped).toNat = 0 := by omega
          rw [hz, List.drop_zero, hpos, List.take_succ_cons]
          unfold readAll
          have hsame := (readSector_same net s.st a.1 a.2).1
          generalize readSector net s.st a.1 a.2 = rs at hsame
          obtain ⟨st1, od⟩ := rs
          cases od with
          | none => exact ⟨rfl, rfl⟩
          | some data =>
            dsimp only
            have hih := ih { s with st := st1, buf := memcpyAt s.buf s.pos data FS3_SECTOR_SIZE,
                                    pos := s.pos + FS3_SECTOR_SIZE, handled := s.handled + 1 }
              (by show s.skipped ≤ f; omega) (by show s.handled + 1 ≤ n; omega) hf
            dsimp only at hih hsame
            rw [hsame, hz, List.drop_zero] at hih
            exact hih
        · rw [if_neg h3]
          have hd : (f - s.skipped).toNat = (f - (s.skipped + 1)).toNat + 1 := by omega
          rw [hd, List.drop_succ_cons]
          exact ih { s with skipped := s.skipped + 1 }
            (by show s.skipped + 1 ≤ f; omega) hh hf
      · rw [if_neg h2]
        have hfil : (a :: rest).filter (fun a => decide ((s.st.oftable ofidx).ofloc a.1 a.2 = 1))
            = rest.filter (fun a => decide ((s.st.oftable ofidx).ofloc a.1 a.2 = 1)) := by
          rw [List.filter_cons_of_neg]
          simpa using h2
        rw [hfil]
        exact ih s hsk hh hf

/-- `fs3_read` on a handle that resolves to an open file: the sectors of the read plan
are read into a zeroed buffer of `numToRead` sectors; the call fails when one of them
fails and otherwise returns `count` and the first `count` bytes of the buffer. -/
theorem fs3_read_plan {σ : Type} (g : Geometry) (net : Transport σ) (st : DriverState σ)
    (fd : Int) (count : Nat) (h1 : (idxByHandle st fd).2.1 ≠ -1)
    (h2 : (idxByHandle st fd).2.2 ≠ -1) (h3 : (idxByHandle st fd).1 ≠ -1)
    (h4 : (st.ftable (idxByHandle st fd).2.2.toNat).fstate = "opened") :
    fs3_read g net st fd count =
      match readAll net (readPlan g (st.oftable (idxByHandle st fd).2.1.toNat) count) st
          (readBuf count) 0 with
      | (st1, none) => (st1, -1, [])
      | (st1, some buf) => (st1, (count : Int), buf.take count) := by
  unfold fs3_read readPlan readBuf
  dsimp only
  rw [if_neg (by intro h; rcases h with h | h; exact h1 h; exact h2 h),
    if_neg (by intro h; exact h h4), if_neg h3]
  generalize (idxByHandle st fd).2.1.toNat = i
  generalize toInt16 (ceilDiv1024 count) = n
  by_cases hn : 0 < n
  · rw [if_pos hn]
    obtain ⟨e1, e2⟩ := readLoop_eq_readAll net i n
      (((st.oftable i).ofpos / FS3_SECTOR_SIZE : Nat) : Int) (allAddrs g)
      { st := st, buf := List.replicate (n.toNat * FS3_SECTOR_SIZE) 0, pos := 0, handled := 0,
        skipped := 0, failed := false } (Int.ofNat_zero_le _) (by show (0 : Int) ≤ n; omega) rfl
    dsimp only at e1 e2
    rw [Int.sub_zero, Int.sub_zero, Int.toNat_ofNat] at e1 e2
    generalize readLoop net i n (((st.oftable i).ofpos / FS3_SECTOR_SIZE : Nat) : Int) (allAddrs g)
      { st := st, buf := List.replicate (n.toNat * FS3_SECTOR_SIZE) 0, pos := 0, handled := 0,
        skipped := 0, failed := false } = s at e1 e2
    generalize readAll net _ st _ 0 = R at e1 e2
    obtain ⟨st1, ob⟩ := R
    dsimp only at e1 e2
    by_cases hf : s.failed = true
    · rw [if_pos hf] at e2
      rw [if_pos hf, e2, e1]
    · rw [if_neg hf] at e2
      rw [if_neg hf, e2, e1]
  · rw [if_neg hn]
    have hz : n.toNat = 0 := by omega
    rw [hz, List.take_zero]
    rfl

/-- What lies in a buffer beyond a sector just copied in lay beyond the copy position
before. -/
theorem mem_drop_memcpyAt (dst src : List Nat) (pos n : Nat) (x : Nat)
    (h : x ∈ (memcpyAt dst pos src n).drop (pos + n)) : x ∈ dst.drop pos := by
  unfold memcpyAt at h
  rw [List.drop_append_eq_append_drop, List.drop_eq_nil_of_le, List.nil_append] at h
  · have h1 := List.mem_of_mem_drop h
    rw [← List.drop_drop] at h1
    exact List.mem_of_mem_drop h1
  · rw [List.length_append]
    have := List.length_take_le pos dst
    have := List.length_take_le n src
    omega

/-- After `readAll` the buffer is zero beyond the sectors read, when it was zero from the
starting position on. -/
theorem readAll_tail {σ : Type} (net : Transport σ) :
    ∀ (plan : List (Nat × Nat)) (st : DriverState σ) (buf : List Nat) (pos : Nat)
      (st1 : DriverState σ) (b : List Nat),
      readAll net plan st buf pos = (st1, some b) → (∀ x ∈ buf.drop pos, x = 0) →
      ∀ x ∈ b.drop (pos + plan.length * FS3_SECTOR_SIZE), x = 0 := by
  intro plan
  induction plan with
  | nil =>
    intro st buf pos st1 b h hz x hx
    have hb : buf = b := by
      have h2 := congrArg Prod.snd h
      exact Option.some.inj h2
    rw [← hb] at hx
    exact hz x (by simpa using hx)
  | cons a rest ih =>
    intro st buf pos st1 b h hz x hx
    unfold readAll at h
    generalize readSector net st a.1 a.2 = rs at h
    obtain ⟨st2, od⟩ := rs
    cases od with
    | none =>
      have h2 := congrArg Prod.snd h
      cases h2
    | some data =>
      dsimp only at h
      refine ih st2 _ _ st1 b h ?_ x ?_
      · intro y hy
        exact hz y (mem_drop_memcpyAt buf data pos FS3_SECTOR_SIZE y hy)
      · have he : pos + FS3_SECTOR_SIZE + rest.length * FS3_SECTOR_SIZE
            = pos + (a :: rest).length * FS3_SECTOR_SIZE := by
          rw [List.length_cons, Nat.succ_mul]
          omega
        rw [he]
        exact hx

/-- A read plan holds only addresses of the geometry that the open file owns, at most
`numToRead` of them, and at most as many as the file owns beyond the ones passed over. -/
theorem readPlan_spec (g : Geometry) (o : FS3OpenFile) (count : Nat) :
    (∀ a ∈ readPlan g o count,
        o.ofloc a.1 a.2 = 1 ∧ a.1 < g.FS3_MAX_TRACKS ∧ a.2 < g.FS3_TRACK_SIZE) ∧
      (readPlan g o count).length ≤ (toInt16 (ceilDiv1024 count)).toNat ∧
      (readPlan g o count).length
        ≤ ((allAddrs g).filter (fun a => decide (o.ofloc a.1 a.2 = 1))).length
            - o.ofpos / FS3_SECTOR_SIZE := by
  unfold readPlan
  refine ⟨?_, ?_, ?_⟩
  · intro a ha
    have h1 := List.mem_of_mem_drop (List.mem_of_mem_take ha)
    obtain ⟨h2, h3⟩ := List.mem_filter.mp h1
    obtain ⟨_, h4, h5⟩ := gridAddrs_mem g _ 0 a h2
    exact ⟨by simpa using h3, by omega, h5⟩
  · exact List.length_take_le _ _
  · rw [List.length_take, List.length_drop]
    exact Nat.min_le_right _ _

/-- The empty name of a zeroed record fits. -/
theorem pathFits_empty : pathFits "" = true := by decide

/-- The names fit at process start. -/
theorem names_start {σ : Type} (c : CacheState) (ctl : σ) : NamesFit (driverStart c ctl) :=
  ⟨fun _ => pathFits_empty, fun _ => pathFits_empty⟩

/-- The names fit after every change that leaves the tables alone. -/
theorem names_of_same {σ : Type} {st st' : DriverState σ} (h : NamesFit st)
    (hs : SameTables st st') : NamesFit st' := by
  obtain ⟨h1, h2, _⟩ := hs
  exact ⟨fun k => by rw [h1]; exact h.1 k, fun k => by rw [h2]; exact h.2 k⟩

/-- `fs3_mount_disk` stores no name. -/
theorem names_mount {σ : Type} (g : Geometry) (net : Transport σ) (st : DriverState σ)
    (h : NamesFit st) : NamesFit (fs3_mount_disk g net st).1 := by
  unfold fs3_mount_disk
  split
  · exact h
  · dsimp only
    split
    · refine ⟨fun _ => pathFits_empty, ?_⟩
      intro k
      dsimp only
      split
      · exact pathFits_empty
      · exact h.2 k
    · exact h

/-- `fs3_open` with a path that fits keeps the names fitting. -/
theorem names_open {σ : Type} (st : DriverState σ) (path : String) (hp : pathFits path = true)
    (h : NamesFit st) : NamesFit (fs3_open st path).1 := by
  unfold fs3_open
  split
  · rename_i i _
    split
    · exact h
    · refine ⟨?_, ?_⟩
      · intro k
        show pathFits (setEntry st.oftable st.freeOFile _ k).ofname = true
        unfold setEntry
        split
        · exact hp
        · exact h.1 k
      · intro k
        show pathFits (setEntry st.ftable i _ k).fname = true
        unfold setEntry
        split
        · exact h.2 i
        · exact h.2 k
  · refine ⟨?_, ?_⟩
    · intro k
      show pathFits (setEntry st.oftable st.freeOFile _ k).ofname = true
      unfold setEntry
      split
      · exact hp
      · exact h.1 k
    · intro k
      show pathFits (setEntry (setEntry st.ftable st.freeFile _) st.freeOFile _ k).fname = true
      unfold setEntry
      split
      · split
        · exact hp
        · exact h.2 st.freeOFile
      · split
        · exact hp
        · exact h.2 k

/-- `fs3_close` stores no name. -/
theorem names_close {σ : Type} (st : DriverState σ) (fd : Int) (h : NamesFit st) :
    NamesFit (fs3_close st fd).1 := by
  unfold fs3_close
  dsimp only
  split
  · exact h
  · split
    · exact h
    · split
      · exact h
      · refine ⟨?_, ?_⟩
        · intro k
          show pathFits (setEntry st.oftable _ _ k).ofname = true
          unfold setEntry
          split
          · exact h.1 _
          · exact h.1 k
        · intro k
          show pathFits (setEntry st.ftable _ _ k).fname = true
          unfold setEntry
          split
          · exact h.2 _
          · exact h.2 k

/-- `fs3_seek` stores no name. -/
theorem names_seek {σ : Type} (st : DriverState σ) (fd : Int) (loc : Nat)
    (h : NamesFit st) : NamesFit (fs3_seek st fd loc).1 := by
  unfold fs3_seek
  dsimp only
  split
  · exact h
  · split
    · exact h
    · refine ⟨?_, h.2⟩
      intro k
      show pathFits (setEntry st.oftable _ _ k).ofname = true
      unfold setEntry
      split
      · exact h.1 _
      · exact h.1 k

/-- The closing loop of `fs3_unmount_disk` stores no name. -/
theorem names_unmountLoop {σ : Type} : ∀ (n i : Nat) (st : DriverState σ),
    NamesFit st → NamesFit (unmountLoop n i st) := by
  intro n
  induction n with
  | zero => intro i st h; exact h
  | succ n ih =>
    intro i st h
    unfold unmountLoop
    apply ih
    split
    · exact names_close st _ h
    · exact h

/-- `fs3_unmount_disk` stores no name. -/
theorem names_unmount {σ : Type} (net : Transport σ) (st : DriverState σ) (junk : Nat)
    (h : NamesFit st) : NamesFit (fs3_unmount_disk net st junk).1 := by
  unfold fs3_unmount_disk
  have hl := names_unmountLoop st.freeHandle.toNat 0 st h
  split
  · exact h
  · dsimp only
    split <;> exact hl

/-- `fs3_write` stores no name. -/
theorem names_write {σ : Type} (g : Geometry) (net : Transport σ) (st : DriverState σ)
    (fd : Int) (buf : List Nat) (count : Nat) (h : NamesFit st) :
    NamesFit (fs3_write g net st fd buf count).1 := by
  rcases idxByHandle_shape st fd with ⟨_, h2⟩ | ⟨k, j, _, _, hidx, _, _⟩
  · have : fs3_write g net st fd buf count = (st, -1) := by
      unfold fs3_write
      dsimp only
      rw [if_pos (Or.inr h2)]
    rw [this]
    exact h
  · rcases write_effect g net st fd buf count k j hidx with hfail | ⟨x, _, hof, hsame, _, _⟩
    · rw [hfail]; exact h
    · obtain ⟨loc, ns, len, gl, hg, _⟩ :=
        growFile_effect g st k (((st.oftable k).ofpos + count) % 2 ^ 32)
      have hft : (fs3_write g net st fd buf count).1.ftable = st.ftable := by
        have := hsame.2.1
        rw [hg] at this
        exact this
      refine ⟨?_, fun m => by rw [hft]; exact h.2 m⟩
      intro m
      rw [hof, hg]
      dsimp only
      rw [setEntry_same]
      unfold setEntry
      split
      · exact h.1 k
      · exact h.1 m

/-- Every call with a path that fits keeps the names fitting. -/
theorem names_run {σ : Type} (g : Geometry) (net : Transport σ) (st : DriverState σ)
    (op : DriverOp) (hop : DriverOp.pathOk op = true) (h : NamesFit st) :
    NamesFit (op.run g net st) := by
  cases op with
  | mount => exact names_mount g net st h
  | unmount junk => exact names_unmount net st junk h
  | openFile path => exact names_open st path hop h
  | close fd => exact names_close st _ h
  | read fd count => exact names_of_same h (fs3_read_same g net st _ _)
  | write fd buf count => exact names_write g net st _ buf _ h
  | seek fd loc => exact names_seek st _ _ h
  | cache op => exact h

/-- Every sequence of calls with paths that fit keeps the names fitting. -/
theorem names_runDriver {σ : Type} (g : Geometry) (net : Transport σ) (ops : List DriverOp) :
    ∀ (st : DriverState σ), (∀ op ∈ ops, DriverOp.pathOk op = true) → NamesFit st →
      NamesFit (runDriver g net st ops) := by
  induction ops with
  | nil => intro st _ h; exact h
  | cons op ops ih =>
    intro st hops h
    exact ih _ (fun o ho => hops o (List.mem_cons_of_mem op ho))
      (names_run g net st op (hops op (List.mem_cons_self op ops)) h)

/-- The growth step of `fs3_write` runs the allocation loop `sectorsToAdd` times from
`allocStart`, or leaves the globals as they are. -/
theorem growFile_alloc {σ : Type} (g : Geometry) (st : DriverState σ) (i e : Nat) :
    growFile g st i e = st ∨
      growFile g st i e =
        { st with globalLoc := (allocLoop g (sectorsToAdd (st.oftable i) e)
                      (allocStart st i)).globalLoc,
                  oftable := setEntry st.oftable i
                    { st.oftable i with
                        ofloc := (allocLoop g (sectorsToAdd (st.oftable i) e)
                          (allocStart st i)).ofloc,
                        numsec := (allocLoop g (sectorsToAdd (st.oftable i) e)
                          (allocStart st i)).numsec,
                        oflength := (allocLoop g (sectorsToAdd (st.oftable i) e)
                          (allocStart st i)).numsec * FS3_SECTOR_SIZE } } := by
  unfold growFile sectorsToAdd allocStart
  dsimp only
  by_cases h1 : ((st.oftable i).oflength % 2 ^ 32).toNat < e
  · rw [if_pos h1, if_pos h1]
    by_cases h2 : (st.oftable i).numsec < ((ceilDiv1024 e : Nat) : Int)
    · rw [if_pos h2, if_pos h2]
      right
      rfl
    · rw [if_neg h2]
      left
      rfl
  · rw [if_neg h1]
    left
    rfl

/-- One iteration of the allocation loop on a geometry of at most 2^15 tracks and 2^15
sectors a track leaves the indices inside the bitmap when they were inside or when the
allocation map has a free address. -/
theorem allocLoop_inBitmap (g : Geometry) (hT : g.FS3_MAX_TRACKS ≤ 2 ^ 15)
    (hS : g.FS3_TRACK_SIZE ≤ 2 ^ 15) : ∀ (n : Nat) (a : AllocLoop),
    (AllocLoop.inBitmap g a = true ∨ (firstFree a.globalLoc (allAddrs g)).isSome = true) →
    0 < n → AllocLoop.inBitmap g (allocLoop g n a) = true := by
  intro n
  induction n with
  | zero => intro a _ h; omega
  | succ n ih =>
    intro a ha _
    unfold allocLoop
    dsimp only
    have hstep : AllocLoop.inBitmap g
        { globalLoc := (findFreeLoc g a.globalLoc a.trkidx a.secidx).1,
          ofloc := setLoc a.ofloc (findFreeLoc g a.globalLoc a.trkidx a.secidx).2.2.1
            (findFreeLoc g a.globalLoc a.trkidx a.secidx).2.2.2 1,
          numsec := a.numsec + 1,
          trkidx := (findFreeLoc g a.globalLoc a.trkidx a.secidx).2.2.1,
          secidx := (findFreeLoc g a.globalLoc a.trkidx a.secidx).2.2.2 } = true := by
      rcases firstFree_grid g a.globalLoc g.FS3_MAX_TRACKS 0 with
        ⟨t, s, h1, _, h3, h4, _, _⟩ | ⟨h1, _⟩
      · have hf : findFreeLoc g a.globalLoc a.trkidx a.secidx
            = (setLoc a.globalLoc (t : Int) (s : Int) 1, 0, toInt16 t, toInt16 s) := by
          unfold findFreeLoc allAddrs
          rw [h1]
        rw [hf]
        unfold AllocLoop.inBitmap
        dsimp only
        rw [toInt16_of_lt t (by omega), toInt16_of_lt s (by omega)]
        apply decide_eq_true
        omega
      · have hf : findFreeLoc g a.globalLoc a.trkidx a.secidx
            = (a.globalLoc, -1, a.trkidx, a.secidx) := by
          unfold findFreeLoc allAddrs
          rw [h1]
        rw [hf]
        rcases ha with ha | ha
        · unfold AllocLoop.inBitmap at ha ⊢
          exact ha
        · unfold allAddrs at ha
          rw [h1] at ha
          cases ha
    cases n with
    | zero => unfold allocLoop; exact hstep
    | succ m => exact ih _ (Or.inl hstep) (by omega)

/-- An or of a multiple of `2 ^ i` with a value below `2 ^ i` is their sum. -/
theorem or_eq_add_of_lt (i a b : Nat) (h : b < 2 ^ i) : a * 2 ^ i ||| b = a * 2 ^ i + b := by
  rw [Nat.mul_comm a]
  exact (Nat.mul_add_lt_is_or h a).symm

/-- Claim C5 (wire layout): for op < 16, sec < 2^16, trk < 2^32 and ret in {0, 1} the
word built by `construct_fs3_cmdblock` is op*2^60 + sec*2^44 + trk*2^12 + ret*2^11; it
fits in 64 bits, the opcode is read back from bits 60-63, the sector from bits 44-59,
the track from bits 12-43, the status from bit 11, and bits 0-10 are zero. -/
theorem construct_layout (op sec trk ret : Nat) (hop : op < 16) (hsec : sec < 2 ^ 16)
    (htrk : trk < 2 ^ 32) (hret : ret < 2) :
    construct_fs3_cmdblock op sec trk ret
        = op * 2 ^ 60 + sec * 2 ^ 44 + trk * 2 ^ 12 + ret * 2 ^ 11 ∧
      construct_fs3_cmdblock op sec trk ret < 2 ^ 64 ∧
      construct_fs3_cmdblock op sec trk ret / 2 ^ 60 = op ∧
      construct_fs3_cmdblock op sec trk ret / 2 ^ 44 % 2 ^ 16 = sec ∧
      construct_fs3_cmdblock op sec trk ret / 2 ^ 12 % 2 ^ 32 = trk ∧
      construct_fs3_cmdblock op sec trk ret / 2 ^ 11 % 2 = ret ∧
      construct_fs3_cmdblock op sec trk ret % 2 ^ 11 = 0 := by
  have hsum : construct_fs3_cmdblock op sec trk ret
      = op * 2 ^ 60 + sec * 2 ^ 44 + trk * 2 ^ 12 + ret * 2 ^ 11 := by
    unfold construct_fs3_cmdblock
    simp only [Nat.shiftLeft_eq]
    have h1 : op * 2 ^ 60 % 2 ^ 64 = op * 2 ^ 60 := Nat.mod_eq_of_lt (by omega)
    have h2 : sec * 2 ^ 44 % 2 ^ 64 = sec * 2 ^ 44 := Nat.mod_eq_of_lt (by omega)
    have h3 : trk * 2 ^ 12 % 2 ^ 64 = trk * 2 ^ 12 := Nat.mod_eq_of_lt (by omega)
    have h4 : ret * 2 ^ 11 % 2 ^ 64 = ret * 2 ^ 11 := Nat.mod_eq_of_lt (by omega)
    rw [h1, h2, h3, h4, Nat.or_assoc, Nat.or_assoc]
    rw [or_eq_add_of_lt 12 trk (ret * 2 ^ 11) (by omega)]
    rw [or_eq_add_of_lt 44 sec _ (by omega)]
    rw [or_eq_add_of_lt 60 op _ (by omega)]
    omega
  rw [hsum]
  refine ⟨rfl, ?_, ?_, ?_, ?_, ?_, ?_⟩ <;> omega

/-- Witness of `construct_layout`: a read-sector style word with every field set. -/
theorem construct_layout_witness :
    construct_fs3_cmdblock 3 5 7 1 = 3 * 2 ^ 60 + 5 * 2 ^ 44 + 7 * 2 ^ 12 + 1 * 2 ^ 11 ∧
      construct_fs3_cmdblock 3 5 7 1 < 2 ^ 64 ∧
      construct_fs3_cmdblock 3 5 7 1 / 2 ^ 60 = 3 ∧
      construct_fs3_cmdblock 3 5 7 1 / 2 ^ 44 % 2 ^ 16 = 5 ∧
      construct_fs3_cmdblock 3 5 7 1 / 2 ^ 12 % 2 ^ 32 = 7 ∧
      construct_fs3_cmdblock 3 5 7 1 / 2 ^ 11 % 2 = 1 ∧
      construct_fs3_cmdblock 3 5 7 1 % 2 ^ 11 = 0 :=
  construct_layout 3 5 7 1 (by decide) (by decide) (by decide) (by decide)

/-- Claim C2 (code defect): decoding does not undo encoding.  The sector mask
`0x0fff000000000000` drops the four low bits of the sector, and the track mask
`0x00001fffffffe000` drops the low bit of the track and takes in the low bit of the
sector: track 1 decodes as 0, and (op 3, sector 5, track 7, status 1) decodes as
(3, 0, 2^32 + 6, 1). -/
theorem decode_loses_low_bits :
    deconstruct_fs3_cmdblock (construct_fs3_cmdblock 0 0 1 0) = (0, 0, 0, 0) ∧
      deconstruct_fs3_cmdblock (construct_fs3_cmdblock 3 5 7 1) = (3, 0, 2 ^ 32 + 6, 1) := by
  decide

/-! ## The sector cache -/

/-- Claim C3 (LRU eviction): `st` is the cache state reached from process start by the
operations `ops`, fewer than 2^31 - 1 of them, so that the `int32_t` clock and counters,
which an operation raises by at most one, are below `INT32_MAX`.  If all lines of `st`
are occupied and it does not hold the address (trk, sct), `fs3_put_cache` succeeds and
replaces exactly one line, the one at an index `k` whose stamp is the numerically
smallest of all lines and strictly below the stamp of every line before it (the first
such line in scan order); the new line holds the address, the payload and the current
clock value, and the list of lines is otherwise unchanged.  The clock and the counters
of the result are within the range of `int32_t`. -/
theorem lru_eviction (ops : List CacheOp) (st : CacheState) (lines : List FS3Cache)
    (trk sct : Nat) (buf : List Nat)
    (hlen : ops.length < 2 ^ 31 - 1) (hst : runCache cacheStart ops = st)
    (hc : st.cache = some lines)
    (hfull : ∀ l ∈ lines, l.lastAccess ≠ -1) (hmiss : isCached st trk sct = false) :
    (∃ (k : Nat) (victim : FS3Cache), lines[k]? = some victim ∧
      (∀ (m : Nat) (l : FS3Cache), lines[m]? = some l → victim.lastAccess ≤ l.lastAccess) ∧
      (∀ (m : Nat) (l : FS3Cache), m < k → lines[m]? = some l →
        victim.lastAccess < l.lastAccess) ∧
      fs3_put_cache st trk sct buf =
        ({ st with cache := some (lines.set k (newLine trk sct buf st.nextAccess)),
                   nextAccess := st.nextAccess + 1,
                   cacheInserts := st.cacheInserts + 1 }, 0)) ∧
      countersWithin INT32_MAX (fs3_put_cache st trk sct buf).1 = true := by
  have hreach : CacheReachable st := ⟨ops, hst⟩
  have hfit : countersWithin INT32_MAX (fs3_put_cache st trk sct buf).1 = true := by
    have h0 := countersWithin_start ops
    rw [hst] at h0
    have h1 := countersWithin_run _ st (CacheOp.put trk sct buf) h0
    refine countersWithin_mono ?_ h1
    unfold INT32_MAX
    omega
  refine ⟨?_, hfit⟩
  have hinv := inv_of_reachable hreach
  obtain ⟨hlen, hok, _⟩ := hinv.2 lines hc
  have hs : scanLines (lineMatches trk sct) lines st.cacheSize.toNat 0 = none := by
    simpa [isCached, hc] using hmiss
  rcases size_cases st lines hinv hc with ⟨hsz, hlt, hn⟩ | ⟨hn, hempty⟩
  · have hu : scanLines lineUnused lines st.cacheSize.toNat 0 = none := by
      cases hu : scanLines lineUnused lines st.cacheSize.toNat 0 with
      | none => rfl
      | some k =>
        exfalso
        obtain ⟨j, l, _, _, hl, hp, _⟩ := scanLines_some _ _ _ _ _ hu
        have := hfull l (List.mem_iff_getElem?.mpr ⟨j, hl⟩)
        simp [lineUnused] at hp
        exact this hp
    obtain ⟨k, victim, hidx, hk, hv, hmin, hfirst⟩ :=
      lru_found lines st.nextAccess hlen hlt (fun l hl => (hok l hl).1)
    refine ⟨k, victim, hv, hmin, hfirst, ?_⟩
    rw [put_evict st lines trk sct buf hc hs hu, hsz, hidx]
    have hne : ¬ ((k : Int) = -1) := by omega
    rw [if_neg hne, Int.toNat_ofNat, modify_eq_set _ lines k victim hv]
    have hmem : victim ∈ lines := List.mem_iff_getElem?.mpr ⟨k, hv⟩
    have hvne : victim ≠ emptyLine := by
      intro he
      exact hfull victim hmem (by rw [he]; rfl)
    obtain ⟨old, hold⟩ := Option.isSome_iff_exists.mp (hasBuf_of_ok (hok victim hmem) hvne).2
    simp [evictLine, newLine, hold]
  · exfalso
    have h0 : lines[0] ∈ lines := List.getElem_mem hlen
    exact hfull _ h0 (by rw [hempty _ h0]; rfl)

/-- Claim C8 (overwrite in place): `st` is the cache state reached from process start by
the operations `ops`, fewer than 2^31 - 1 of them, so that the `int32_t` clock and
counters, which an operation raises by at most one, are below `INT32_MAX`.  If `st` holds
the address (trk, sct), `fs3_put_cache` succeeds and changes only the first line `k`
holding that address: its payload becomes the new payload and its stamp the current clock
value.  Every other line, the item counter and the list of cached addresses are
unchanged, and the clock and the counters of the result are within the range of
`int32_t`. -/
theorem overwrite_in_place (ops : List CacheOp) (st : CacheState) (lines : List FS3Cache)
    (trk sct : Nat) (buf : List Nat)
    (hlen : ops.length < 2 ^ 31 - 1) (hst : runCache cacheStart ops = st)
    (hc : st.cache = some lines) (hhit : isCached st trk sct = true) :
    (∃ (k : Nat) (old : FS3Cache), lines[k]? = some old ∧ lineMatches trk sct old = true ∧
      (∀ (m : Nat) (l : FS3Cache), m < k → lines[m]? = some l → lineMatches trk sct l = false) ∧
      fs3_put_cache st trk sct buf =
        ({ st with cache := some (lines.set k
                      { old with dataBuf := some (sectorOf buf), lastAccess := st.nextAccess }),
                   nextAccess := st.nextAccess + 1,
                   cacheInserts := st.cacheInserts + 1 }, 0) ∧
      (fs3_put_cache st trk sct buf).1.cacheItems = st.cacheItems ∧
      (lines.set k { old with dataBuf := some (sectorOf buf),
                              lastAccess := st.nextAccess }).map lineAddr = lines.map lineAddr) ∧
      countersWithin INT32_MAX (fs3_put_cache st trk sct buf).1 = true := by
  have hreach : CacheReachable st := ⟨ops, hst⟩
  have hfit : countersWithin INT32_MAX (fs3_put_cache st trk sct buf).1 = true := by
    have h0 := countersWithin_start ops
    rw [hst] at h0
    have h1 := countersWithin_run _ st (CacheOp.put trk sct buf) h0
    refine countersWithin_mono ?_ h1
    unfold INT32_MAX
    omega
  refine ⟨?_, hfit⟩
  have hinv := inv_of_reachable hreach
  obtain ⟨hlen, hok, _⟩ := hinv.2 lines hc
  cases hs : scanLines (lineMatches trk sct) lines st.cacheSize.toNat 0 with
  | none => simp [isCached, hc, hs] at hhit
  | some k =>
    obtain ⟨j, old, hk, _, hl, hp, hbefore⟩ := scanLines_some _ _ _ _ _ hs
    have hkj : k = j := by omega
    subst hkj
    have hmem : old ∈ lines := List.mem_iff_getElem?.mpr ⟨k, hl⟩
    obtain ⟨b, hb⟩ := Option.isSome_iff_exists.mp
      (hasBuf_of_ok (hok old hmem) (not_empty_of_matches hp)).2
    have hput : fs3_put_cache st trk sct buf =
        ({ st with cache := some (lines.set k
                      { old with dataBuf := some (sectorOf buf), lastAccess := st.nextAccess }),
                   nextAccess := st.nextAccess + 1,
                   cacheInserts := st.cacheInserts + 1 }, 0) := by
      rw [put_overwrite st lines trk sct buf k hc hs, modify_eq_set _ lines k old hl]
      simp [overwriteLine, hb]
    refine ⟨k, old, hl, hp, hbefore, hput, by rw [hput], ?_⟩
    rw [List.map_set]
    apply List.ext_getElem?
    intro m
    by_cases hm : k = m
    · subst hm
      rw [List.getElem?_set_self (by simpa using (List.getElem?_eq_some.mp hl).1)]
      simp [hl, lineAddr]
    · rw [List.getElem?_set_ne hm]

set_option maxRecDepth 100000 in
/-- Witness of `lru_eviction`, the capacity-2 scenario of the spec: after put (T0,S0),
put (T0,S1), get (T0,S0), the put of (T0,S2) replaces a line; it is the line of (T0,S1),
so that afterwards (T0,S1) misses and (T0,S0) still hits. -/
theorem lru_eviction_witness :
    (lruOps.length < 2 ^ 31 - 1 ∧ runCache cacheStart lruOps = lruState ∧
        lruState.cache = some lruLines ∧ isCached lruState 0 2 = false) ∧
      ((∃ (k : Nat) (victim : FS3Cache), lruLines[k]? = some victim ∧
        (∀ (m : Nat) (l : FS3Cache), lruLines[m]? = some l →
          victim.lastAccess ≤ l.lastAccess) ∧
        (∀ (m : Nat) (l : FS3Cache), m < k → lruLines[m]? = some l →
          victim.lastAccess < l.lastAccess) ∧
        fs3_put_cache lruState 0 2 payloadC =
          ({ lruState with cache := some (lruLines.set k (newLine 0 2 payloadC lruState.nextAccess)),
                           nextAccess := lruState.nextAccess + 1,
                           cacheInserts := lruState.cacheInserts + 1 }, 0)) ∧
        countersWithin INT32_MAX (fs3_put_cache lruState 0 2 payloadC).1 = true) ∧
      (fs3_get_cache (fs3_put_cache lruState 0 2 payloadC).1 0 1).2 = none ∧
      (fs3_get_cache (fs3_put_cache lruState 0 2 payloadC).1 0 0).2 = some payloadA :=
  ⟨⟨by decide, rfl, by decide, by decide⟩,
   lru_eviction lruOps lruState lruLines 0 2 payloadC (by decide) rfl (by decide) (by decide)
     (by decide),
   by decide, by decide⟩

set_option maxRecDepth 100000 in
/-- Witness of `overwrite_in_place`: a capacity-2 cache holding (T0,S0) and (T0,S1), and
a put of (T0,S0) with a new payload. -/
theorem overwrite_in_place_witness :
    (fullOps.length < 2 ^ 31 - 1 ∧ runCache cacheStart fullOps = fullState ∧
        fullState.cache = some fullLines ∧ isCached fullState 0 0 = true) ∧
      (∃ (k : Nat) (old : FS3Cache), fullLines[k]? = some old ∧ lineMatches 0 0 old = true ∧
        (∀ (m : Nat) (l : FS3Cache), m < k → fullLines[m]? = some l →
          lineMatches 0 0 l = false) ∧
        fs3_put_cache fullState 0 0 payloadC =
          ({ fullState with cache := some (fullLines.set k
                              { old with dataBuf := some (sectorOf payloadC),
                                         lastAccess := fullState.nextAccess }),
                            nextAccess := fullState.nextAccess + 1,
                            cacheInserts := fullState.cacheInserts + 1 }, 0) ∧
        (fs3_put_cache fullState 0 0 payloadC).1.cacheItems = fullState.cacheItems ∧
        (fullLines.set k { old with dataBuf := some (sectorOf payloadC),
                                    lastAccess := fullState.nextAccess }).map lineAddr
          = fullLines.map lineAddr) ∧
      countersWithin INT32_MAX (fs3_put_cache fullState 0 0 payloadC).1 = true :=
  ⟨⟨by decide, rfl, by decide, by decide⟩,
   overwrite_in_place fullOps fullState fullLines 0 0 payloadC (by decide) rfl (by decide)
     (by decide)⟩

/-- Claim C4 (code defect): `fs3_init_cache` takes a `uint16_t` capacity but keeps it in
the `int16_t` global `cacheSize`.  After `fs3_init_cache(40000)` the call succeeds and
40000 lines exist, but `cacheSize` is -25536, so every loop over the lines is empty:
`fs3_put_cache` of an address inside the geometry returns -1 and the following
`fs3_get_cache` of that address returns NULL. -/
theorem put_fails_with_40000_lines :
    (fs3_init_cache cacheStart 40000).2 = 0 ∧
      wideCache.cache = some (List.replicate 40000 emptyLine) ∧
      wideCache.cacheSize = -25536 ∧
      (fs3_put_cache wideCache 0 0 payloadA).2 = -1 ∧
      (fs3_get_cache (fs3_put_cache wideCache 0 0 payloadA).1 0 0).2 = none := by
  refine ⟨by decide, rfl, by decide, by decide, by decide⟩

/-- Claim C7 (code defect, the one of C4): after `fs3_init_cache(40000)` every line
still has the sentinel stamp and the address (0, 0) is not cached, yet `fs3_put_cache`
stores nothing: it returns -1 and the address is still not cached, the item counter and
the insert counter stay 0. -/
theorem fill_fails_with_40000_lines :
    (∀ l ∈ List.replicate 40000 emptyLine, l.lastAccess = -1) ∧
      wideCache.cache = some (List.replicate 40000 emptyLine) ∧
      isCached wideCache 0 0 = false ∧
      (fs3_put_cache wideCache 0 0 payloadA).2 = -1 ∧
      isCached (fs3_put_cache wideCache 0 0 payloadA).1 0 0 = false ∧
      (fs3_put_cache wideCache 0 0 payloadA).1.cacheItems = 0 ∧
      (fs3_put_cache wideCache 0 0 payloadA).1.cacheInserts = 0 := by
  refine ⟨?_, rfl, by decide, by decide, by decide, by decide, by decide⟩
  intro l hl
  rw [List.eq_of_mem_replicate hl]
  rfl

/-- Claim C23 (get bookkeeping): `st` is the cache state reached from process start by
the operations `ops`, fewer than 2^31 - 1 of them, so that the `int32_t` clock and
counters, which an operation raises by at most one, are below `INT32_MAX`; its cache is
allocated.  `fs3_get_cache` adds one to the gets counter.  When the address is cached, the
first line `k` holding it has a payload, which is returned; the stamp of line `k` becomes
the current clock value, the clock and the hit counter go up by one, and every other line
and counter is unchanged.  When the address is not cached, NULL is returned, the miss
counter goes up by one and the lines, the clock and the other counters are unchanged.
The clock and the counters of the result are within the range of `int32_t`. -/
theorem get_bookkeeping (ops : List CacheOp) (st : CacheState) (lines : List FS3Cache)
    (trk sct : Nat) (hlen : ops.length < 2 ^ 31 - 1) (hst : runCache cacheStart ops = st)
    (hc : st.cache = some lines) :
    (fs3_get_cache st trk sct).1.cacheGets = st.cacheGets + 1 ∧
      (isCached st trk sct = true →
        ∃ (k : Nat) (old : FS3Cache) (payload : List Nat),
          lines[k]? = some old ∧ lineMatches trk sct old = true ∧
          old.dataBuf = some payload ∧
          (∀ (m : Nat) (l : FS3Cache), m < k → lines[m]? = some l →
            lineMatches trk sct l = false) ∧
          fs3_get_cache st trk sct =
            ({ st with cache := some (lines.set k { old with lastAccess := st.nextAccess }),
                       nextAccess := st.nextAccess + 1,
                       cacheGets := st.cacheGets + 1,
                       cacheHits := st.cacheHits + 1 }, some payload)) ∧
      (isCached st trk sct = false →
        fs3_get_cache st trk sct =
          ({ st with cacheGets := st.cacheGets + 1,
                     cacheMisses := st.cacheMisses + 1 }, none)) ∧
      countersWithin INT32_MAX (fs3_get_cache st trk sct).1 = true := by
  have hreach : CacheReachable st := ⟨ops, hst⟩
  have hfit : countersWithin INT32_MAX (fs3_get_cache st trk sct).1 = true := by
    have h0 := countersWithin_start ops
    rw [hst] at h0
    have h1 := countersWithin_run _ st (CacheOp.get trk sct) h0
    refine countersWithin_mono ?_ h1
    unfold INT32_MAX
    omega
  have hinv := inv_of_reachable hreach
  obtain ⟨hlen, hok, _⟩ := hinv.2 lines hc
  cases hs : scanLines (lineMatches trk sct) lines st.cacheSize.toNat 0 with
  | none =>
    have hm := get_miss st lines trk sct hc hs
    refine ⟨by rw [hm], ?_, fun _ => hm, hfit⟩
    intro hhit
    simp [isCached, hc, hs] at hhit
  | some k =>
    obtain ⟨j, old, hk, _, hl, hp, hbefore⟩ := scanLines_some _ _ _ _ _ hs
    have hkj : k = j := by omega
    subst hkj
    have hmem : old ∈ lines := List.mem_iff_getElem?.mpr ⟨k, hl⟩
    obtain ⟨b, hb⟩ := Option.isSome_iff_exists.mp
      (hasBuf_of_ok (hok old hmem) (not_empty_of_matches hp)).2
    have hget : fs3_get_cache st trk sct =
        ({ st with cache := some (lines.set k { old with lastAccess := st.nextAccess }),
                   nextAccess := st.nextAccess + 1,
                   cacheGets := st.cacheGets + 1,
                   cacheHits := st.cacheHits + 1 }, some b) := by
      rw [get_hit st lines trk sct k hc hs, modify_eq_set _ lines k old hl]
      simp [hl, hb]
    refine ⟨by rw [hget], fun _ => ⟨k, old, b, hl, hp, hb, hbefore, hget⟩, ?_, hfit⟩
    intro hmiss
    simp [isCached, hc, hs] at hmiss

set_option maxRecDepth 100000 in
/-- Witness of `get_bookkeeping`: in the capacity-2 cache holding (T0,S0) and (T0,S1), the
get of (T0,S1) hits line 1 and the get of (T0,S2) misses. -/
theorem get_bookkeeping_witness :
    (fullOps.length < 2 ^ 31 - 1 ∧ runCache cacheStart fullOps = fullState ∧
        fullState.cache = some fullLines ∧ isCached fullState 0 1 = true ∧
        isCached fullState 0 2 = false) ∧
      (fs3_get_cache fullState 0 1).1.cacheGets = fullState.cacheGets + 1 ∧
      (fs3_get_cache fullState 0 1).2 = some payloadB ∧
      (fs3_get_cache fullState 0 1).1.cacheHits = fullState.cacheHits + 1 ∧
      fs3_get_cache fullState 0 2 =
        ({ fullState with cacheGets := fullState.cacheGets + 1,
                          cacheMisses := fullState.cacheMisses + 1 }, none) ∧
      countersWithin INT32_MAX (fs3_get_cache fullState 0 1).1 = true :=
  have h := get_bookkeeping fullOps fullState fullLines 0 1 (by decide) rfl (by decide)
  have h2 := get_bookkeeping fullOps fullState fullLines 0 2 (by decide) rfl (by decide)
  ⟨⟨by decide, rfl, by decide, by decide, by decide⟩, h.1, by decide, by decide,
    h2.2.2.1 (by decide), h.2.2.2⟩

set_option maxRecDepth 100000 in
/-- Claim C24 (code defect): `fs3_init_cache` takes the capacity as `uint16_t` and keeps it
in the `int16_t` global `cacheSize`.  `fs3_init_cache(40000)` on the uninitialised cache
returns 0 and allocates 40000 empty lines, but the recorded number of lines is -25536,
not 40000, so no loop over the lines visits a line.  With 65535 the recorded size is -1,
the value that means "not initialised": `fs3_close_cache` then returns -1 and a second
`fs3_init_cache` returns -1 as well. -/
theorem init_records_negative_size :
    (fs3_init_cache cacheStart 40000).2 = 0 ∧
      wideCache.cache = some (List.replicate 40000 emptyLine) ∧
      wideCache.cacheItems = 0 ∧
      wideCache.cacheSize = -25536 ∧ wideCache.cacheSize ≠ 40000 ∧
      wideCache.cacheSize.toNat = 0 ∧
      (fs3_init_cache cacheStart 65535).2 = 0 ∧
      fullRangeCache.cache = some (List.replicate 65535 emptyLine) ∧
      fullRangeCache.cacheSize = -1 ∧
      (fs3_close_cache fullRangeCache).2 = -1 ∧
      (fs3_init_cache fullRangeCache 8).2 = -1 := by
  refine ⟨by decide, rfl, by decide, by decide, by decide, by decide, by decide, rfl,
    by decide, by decide, by decide⟩

set_option maxRecDepth 100000 in
/-- Counterexample to claim C25 as stated: after two puts, a hit and a miss on a
capacity-2 cache, `fs3_close_cache` returns 0 and leaves the clock at 3, the insert
counter at 2 and the gets, hits and misses counters at 2, 1 and 1; a following
`fs3_init_cache(2)` succeeds and the new cache starts with these values, not with
zeros. -/
theorem close_keeps_clock_and_statistics :
    (fs3_close_cache busyState).2 = 0 ∧
      (fs3_close_cache busyState).1.nextAccess = 3 ∧
      (fs3_close_cache busyState).1.cacheInserts = 2 ∧
      (fs3_close_cache busyState).1.cacheGets = 2 ∧
      (fs3_close_cache busyState).1.cacheHits = 1 ∧
      (fs3_close_cache busyState).1.cacheMisses = 1 ∧
      (fs3_init_cache (fs3_close_cache busyState).1 2).2 = 0 ∧
      (fs3_init_cache (fs3_close_cache busyState).1 2).1.nextAccess = 3 ∧
      (fs3_init_cache (fs3_close_cache busyState).1 2).1.nextAccess ≠ cacheStart.nextAccess ∧
      (fs3_init_cache (fs3_close_cache busyState).1 2).1.cacheInserts ≠ 0 ∧
      (fs3_init_cache (fs3_close_cache busyState).1 2).1.cacheGets ≠ 0 ∧
      (fs3_init_cache (fs3_close_cache busyState).1 2).1.cacheHits ≠ 0 ∧
      (fs3_init_cache (fs3_close_cache busyState).1 2).1.cacheMisses ≠ 0 := by
  decide

/-- Claim C25 as amended, for every state of the cache globals and every capacity `c`
with 1 ≤ c: `fs3_close_cache` fails exactly when the cache is not
initialised (no line array, or the recorded size -1), and then changes nothing.  On
success the line array is released and the recorded size and the item count are reset to
their starting values -1 and 0, while the clock and the inserts, gets, hits and misses
counters keep their values.  A following `fs3_init_cache(c)` succeeds, and its result is
the closed state with `c` empty lines and the recorded size set: the item count is 0, and
the clock and the inserts, gets, hits and misses counters are those of the state before
the close. -/
theorem close_resets_size_and_items (st : CacheState) (c : Nat) (hc : 1 ≤ c) :
    ((fs3_close_cache st).2 = -1 ↔ (st.cache = none ∨ st.cacheSize = -1)) ∧
      ((fs3_close_cache st).2 = -1 → (fs3_close_cache st).1 = st) ∧
      ((fs3_close_cache st).2 ≠ -1 →
        fs3_close_cache st =
          ({ st with cache := cacheStart.cache, cacheSize := cacheStart.cacheSize,
                     cacheItems := cacheStart.cacheItems }, 0) ∧
        (fs3_close_cache st).1.nextAccess = st.nextAccess ∧
        (fs3_close_cache st).1.cacheInserts = st.cacheInserts ∧
        (fs3_close_cache st).1.cacheGets = st.cacheGets ∧
        (fs3_close_cache st).1.cacheHits = st.cacheHits ∧
        (fs3_close_cache st).1.cacheMisses = st.cacheMisses ∧
        fs3_init_cache (fs3_close_cache st).1 c =
          ({ (fs3_close_cache st).1 with cache := some (List.replicate c emptyLine),
                                         cacheSize := toInt16 c }, 0) ∧
        (fs3_init_cache (fs3_close_cache st).1 c).2 = 0 ∧
        (fs3_init_cache (fs3_close_cache st).1 c).1.cache
          = some (List.replicate c emptyLine) ∧
        (fs3_init_cache (fs3_close_cache st).1 c).1.cacheItems = 0 ∧
        (fs3_init_cache (fs3_close_cache st).1 c).1.nextAccess = st.nextAccess ∧
        (fs3_init_cache (fs3_close_cache st).1 c).1.cacheInserts = st.cacheInserts ∧
        (fs3_init_cache (fs3_close_cache st).1 c).1.cacheGets = st.cacheGets ∧
        (fs3_init_cache (fs3_close_cache st).1 c).1.cacheHits = st.cacheHits ∧
        (fs3_init_cache (fs3_close_cache st).1 c).1.cacheMisses = st.cacheMisses) := by
  have hc0 : c ≠ 0 := by omega
  by_cases hn : st.cache = none ∨ st.cacheSize = -1
  · have hclose : fs3_close_cache st = (st, -1) := by
      unfold fs3_close_cache
      rcases hn with h | h
      · simp [h]
      · simp [h]
    rw [hclose]
    exact ⟨⟨fun _ => hn, fun _ => rfl⟩, fun _ => rfl, fun h => absurd rfl h⟩
  · have h1 : st.cache.isNone = false := by
      cases hcache : st.cache with
      | none => exact absurd (Or.inl hcache) hn
      | some l => rfl
    have h2 : ¬ st.cacheSize = -1 := fun h => hn (Or.inr h)
    have hclose : fs3_close_cache st =
        ({ st with cache := none, cacheSize := -1, cacheItems := 0 }, 0) := by
      unfold fs3_close_cache
      simp [h1, h2]
    rw [hclose]
    refine ⟨⟨fun h => ?_, fun h => absurd h hn⟩, fun h => ?_, fun _ => ?_⟩
    · have hneg : (0 : Int) = -1 := h
      exact absurd hneg (by decide)
    · have hneg : (0 : Int) = -1 := h
      exact absurd hneg (by decide)
    · have hinit : fs3_init_cache
            ({ st with cache := none, cacheSize := -1, cacheItems := 0 } : CacheState) c =
          ({ ({ st with cache := none, cacheSize := -1, cacheItems := 0 } : CacheState) with
               cache := some (List.replicate c emptyLine),
               cacheSize := toInt16 c }, 0) := by
        simp [fs3_init_cache, hc0]
      refine ⟨rfl, rfl, rfl, rfl, rfl, rfl, hinit, ?_, ?_, ?_, ?_, ?_, ?_, ?_, ?_⟩
      all_goals rw [hinit]

set_option maxRecDepth 100000 in
/-- Witness of `close_resets_size_and_items`: the close of the capacity-2 cache after
`busyOps`, followed by `fs3_init_cache(2)`; the new cache has two empty lines, item count
0, and the clock 3 and the insert counter 2 of the state before the close. -/
theorem close_resets_size_and_items_witness :
    (1 ≤ 2 ∧ (fs3_close_cache busyState).2 ≠ -1) ∧
      (fs3_close_cache busyState).1.cache = none ∧
      (fs3_close_cache busyState).1.cacheSize = -1 ∧
      (fs3_close_cache busyState).1.cacheItems = 0 ∧
      (fs3_close_cache busyState).1.nextAccess = busyState.nextAccess ∧
      (fs3_init_cache (fs3_close_cache busyState).1 2).2 = 0 ∧
      (fs3_init_cache (fs3_close_cache busyState).1 2).1.cache
        = some (List.replicate 2 emptyLine) ∧
      (fs3_init_cache (fs3_close_cache busyState).1 2).1.nextAccess = busyState.nextAccess ∧
      (fs3_init_cache (fs3_close_cache busyState).1 2).1.cacheInserts
        = busyState.cacheInserts ∧
      busyState.nextAccess = 3 ∧ busyState.cacheInserts = 2 :=
  have h := (close_resets_size_and_items busyState 2 (by decide)).2.2 (by decide)
  ⟨⟨by decide, by decide⟩, by decide, by decide, by decide, h.2.1,
    h.2.2.2.2.2.2.2.1, h.2.2.2.2.2.2.2.2.1, h.2.2.2.2.2.2.2.2.2.2.1,
    h.2.2.2.2.2.2.2.2.2.2.2.1, by decide, by decide⟩

/-! ## The driver -/

set_option maxRecDepth 100000 in
/-- Claim C1 (code defect): `fs3_read` copies out the first `count` bytes of the sectors
it collected and ignores the offset of the cursor inside its sector.  On the scenario of
the spec (new file "a.txt", 2000 bytes written at position 0, faithful transport, cache
of 8 lines) every call succeeds, but `fs3_seek(1, 500)` followed by `fs3_read(1, buf, 10)`
returns bytes [0, 10) of the data written, not bytes [500, 510).  (A read of 10
bytes at the sector-aligned position 1024 does return bytes [1024, 1034).) -/
theorem read_ignores_cursor_offset :
    afterOpen.2 = 1 ∧ afterWrite.2 = 2000 ∧ afterSeek.2 = 0 ∧
      (afterSeek.1.oftable 0).ofpos = 500 ∧ afterRead.2.1 = 10 ∧
      afterRead.2.2 = fileBytes.take 10 ∧
      (fileBytes.drop 500).take 10 = [249, 250, 0, 1, 2, 3, 4, 5, 6, 7] ∧
      afterRead.2.2 = [0, 1, 2, 3, 4, 5, 6, 7, 8, 9] ∧
      (fs3_read demoGeometry faithfulNet (fs3_seek afterWrite.1 1 1024).1 1 10).2.2
        = (fileBytes.drop 1024).take 10 := by
  decide

set_option maxRecDepth 100000 in
/-- Claim C6 (code defect): in the scenario of the spec the write returns 2000 and two
sectors, (0, 0) and (0, 1), are allocated, but the recorded length is
`numsec * FS3_SECTOR_SIZE` = 2048, not 2000: the length is only ever set by the
"initial update of length" in the growth step. -/
theorem growth_records_2048 :
    afterOpen.2 = 1 ∧ afterWrite.2 = 2000 ∧
      (afterWrite.1.oftable 0).ofhandle = 1 ∧
      (afterWrite.1.oftable 0).numsec = 2 ∧
      afterWrite.1.globalLoc 0 0 = 1 ∧ afterWrite.1.globalLoc 0 1 = 1 ∧
      afterWrite.1.globalLoc 0 2 = 0 ∧
      (afterWrite.1.oftable 0).ofloc 0 0 = 1 ∧ (afterWrite.1.oftable 0).ofloc 0 1 = 1 ∧
      (afterWrite.1.oftable 0).oflength = 2048 := by
  decide

/-- The sector loop of `fs3_write` changes nothing when the open file owns none of the
addresses it visits. -/
theorem writeLoop_nothing_owned {σ : Type} (net : Transport σ) (ofidx : Nat) (n f : Int) :
    ∀ (addrs : List (Nat × Nat)) (s : SectorLoop σ),
      (∀ a ∈ addrs, (s.st.oftable ofidx).ofloc a.1 a.2 ≠ 1) →
      writeLoop net ofidx n f addrs s = s := by
  intro addrs
  induction addrs with
  | nil => intro s _; rfl
  | cons a rest ih =>
    intro s h
    unfold writeLoop
    by_cases hn : s.handled = n
    · rw [if_pos hn]
    · rw [if_neg hn, if_neg (h a (List.mem_cons_self a rest))]
      exact ih s (fun b hb => h b (List.mem_cons_of_mem a hb))

set_option maxRecDepth 100000 in
/-- The call `fs3_write(1, bigBuf, 131072)` on the new file "a.txt", run up to its sector
loop: 128 sectors are to change from sector 0 on. -/
theorem bigWrite_unfold (g : Geometry) :
    fs3_write g faithfulNet afterOpen.1 1 bigBuf 131072 =
      (if (writeLoop faithfulNet 0 128 0 (allAddrs g) (bigLoopStart g)).failed then
        ((writeLoop faithfulNet 0 128 0 (allAddrs g) (bigLoopStart g)).st, -1)
      else
        ({ (writeLoop faithfulNet 0 128 0 (allAddrs g) (bigLoopStart g)).st with
            oftable := setEntry
              (writeLoop faithfulNet 0 128 0 (allAddrs g) (bigLoopStart g)).st.oftable 0
              ({ (writeLoop faithfulNet 0 128 0 (allAddrs g) (bigLoopStart g)).st.oftable 0 with
                  ofpos := 131072 }) }, 131072)) := by
  rfl

set_option maxRecDepth 100000 in
/-- Claim C9 (code defect): the number of sectors to add is kept in an `int8_t`.  On every
disk geometry, a write of 131072 bytes at position 0 of the new, empty file "a.txt" needs
128 sectors (131072 is within `MAX_FILE_SIZE` and every address is free); `(int8_t)128`
is -128, the allocation loop does not run, and the write still returns 131072: the
sector count stays 0 instead of 128, the length stays 0, and no allocation-map entry is
claimed. -/
theorem growth_of_128_sectors_allocates_none (g : Geometry) :
    ((afterOpen.1.oftable 0).ofhandle = 1 ∧ (afterOpen.1.oftable 0).ofpos = 0 ∧
        (afterOpen.1.oftable 0).oflength = 0 ∧ (afterOpen.1.oftable 0).numsec = 0 ∧
        ceilDiv1024 (0 + 131072) = 128 ∧ 0 + 131072 ≤ MAX_FILE_SIZE) ∧
      (fs3_write g faithfulNet afterOpen.1 1 bigBuf 131072).2 = 131072 ∧
      ((fs3_write g faithfulNet afterOpen.1 1 bigBuf 131072).1.oftable 0).numsec = 0 ∧
      ((fs3_write g faithfulNet afterOpen.1 1 bigBuf 131072).1.oftable 0).oflength = 0 ∧
      (∀ t s, afterOpen.1.globalLoc t s = 0) ∧
      (∀ t s, (fs3_write g faithfulNet afterOpen.1 1 bigBuf 131072).1.globalLoc t s = 0) := by
  have hl : writeLoop faithfulNet 0 128 0 (allAddrs g) (bigLoopStart g) = bigLoopStart g := by
    apply writeLoop_nothing_owned
    intro a _
    show (0 : Nat) ≠ 1
    decide
  rw [bigWrite_unfold, hl]
  exact ⟨by decide, rfl, rfl, rfl, fun t s => rfl, fun t s => rfl⟩

set_option maxRecDepth 100000 in
/-- Claim C10 (code defect): when a new file is created, `fs3_open` writes the state
"opened" into `ftable[freeOFile]` instead of `ftable[freeFile]`.  After open "a.txt",
close, open "a.txt" the two counters differ, so the record of the new file "b.txt" is not
marked open and a second `fs3_open("b.txt")` succeeds.  A sector written through the
second handle (4) and a close of the first handle (3) leave address (0, 0) marked in use
while "b.txt" is Closed with a permanent bitmap that does not hold it, and no other
permanent record and no other open-table entry holds it either. -/
theorem allocation_outside_every_file :
    twoHandles.1 = [1, 0, 2, 3, 4, 1, 0] ∧
      twoHandles.2.globalLoc 0 0 = 1 ∧
      (twoHandles.2.ftable 1).fname = "b.txt" ∧
      (twoHandles.2.ftable 1).fstate = "closed" ∧
      (∀ j, j < FS3_MAX_TOTAL_FILES → (twoHandles.2.ftable j).floc 0 0 = 0) ∧
      (∀ i, i < FS3_MAX_TOTAL_FILES → (twoHandles.2.oftable i).ofloc 0 0 = 1 → i = 3) ∧
      (twoHandles.2.oftable 3).ofname = "b.txt" ∧
      (twoHandles.2.oftable 3).ofhandle = 4 := by
  decide

set_option maxRecDepth 100000 in
/-- Claim C11 (code defect): when a new file is created `fs3_open` writes
the state "opened" into `ftable[freeOFile]` instead of `ftable[freeFile]`.  After open
"a.txt", close, open "a.txt", open "b.txt" the path "b.txt" has the live open handle 3,
yet its record is not marked "opened": a second `fs3_open("b.txt")` returns the new
handle 4 instead of -1 and changes the open table and the counters. -/
theorem second_open_succeeds :
    openedB.2 = 3 ∧ (openedB.1.oftable 2).ofhandle = 3 ∧
      (openedB.1.oftable 2).ofname = "b.txt" ∧ idxByHandle openedB.1 3 = (0, 2, 1) ∧
      (openedB.1.freeOFile = 3 ∧ openedB.1.freeFile = 2 ∧ openedB.1.freeHandle = 4) ∧
      openedBAgain.2 = 4 ∧ (openedBAgain.1.oftable 3).ofhandle = 4 ∧
      (openedBAgain.1.oftable 3).ofname = "b.txt" ∧
      (openedBAgain.1.freeOFile = 4 ∧ openedBAgain.1.freeFile = 2 ∧
        openedBAgain.1.freeHandle = 5) := by
  decide

set_option maxRecDepth 100000 in
/-- Claim C12 (code defect): the branch of `fs3_open` for an existing file copies length,
sector count and bitmap but never sets `ofpos`, unlike the branch for a new file; the
cursor of the new handle is whatever the table slot held.  After open "a.txt", close,
open "a.txt" (handle 2), open "b.txt", a write of one byte through the handle value 0
lands in the unused slot 3 and leaves its cursor at 1.  Then `fs3_close(2)` succeeds and
`fs3_open("a.txt")` returns handle 4 in slot 3: length 0, sector count 0 and the empty
bitmap of the closed handle, record "opened", but cursor 1 instead of 0. -/
theorem reopen_keeps_stale_cursor :
    strayWrite.2 = 1 ∧ (strayWrite.1.oftable 3).ofhandle = 0 ∧
      (strayWrite.1.oftable 3).ofpos = 1 ∧
      (idxByHandle strayWrite.1 2 = (0, 1, 0) ∧ (strayWrite.1.oftable 1).ofname = "a.txt" ∧
        (strayWrite.1.oftable 1).oflength = 0 ∧ (strayWrite.1.oftable 1).numsec = 0) ∧
      closedA.2 = 0 ∧ reopenedAgain.2 = 4 ∧
      idxByHandle reopenedAgain.1 4 = (0, 3, 0) ∧
      (reopenedAgain.1.ftable 0).fname = "a.txt" ∧
      (reopenedAgain.1.ftable 0).fstate = "opened" ∧
      (reopenedAgain.1.oftable 3).oflength = 0 ∧ (reopenedAgain.1.oftable 3).numsec = 0 ∧
      (reopenedAgain.1.oftable 3).ofpos = 1 := by
  decide

set_option maxRecDepth 100000 in
/-- Claim C13 (code defect): after open "a.txt", close, open "a.txt" no
permanent record is named "b.txt" and table slots are free.  `fs3_open("b.txt")` returns
the fresh handle 3 and creates the record `ftable[1]` named "b.txt" with length 0, but
the state "opened" goes to the unnamed record `ftable[2]`: the record of "b.txt" is not
in state Open, and `fs3_write` through the new handle fails. -/
theorem new_file_record_not_opened :
    firstIdxFrom (fun i => (reopenedA.ftable i).fname == "b.txt") FS3_MAX_TOTAL_FILES 0 = none ∧
      (reopenedA.freeOFile = 2 ∧ reopenedA.freeFile = 1 ∧ reopenedA.freeHandle = 3) ∧
      openedB.2 = 3 ∧
      (openedB.1.ftable 1).fname = "b.txt" ∧ (openedB.1.ftable 1).flength = 0 ∧
      (openedB.1.ftable 1).fstate = "" ∧
      (openedB.1.ftable 2).fname = "" ∧ (openedB.1.ftable 2).fstate = "opened" ∧
      ((openedB.1.oftable 2).ofhandle = 3 ∧ (openedB.1.oftable 2).oflength = 0 ∧
        (openedB.1.oftable 2).numsec = 0 ∧ (openedB.1.oftable 2).ofpos = 0) ∧
      (fs3_write demoGeometry faithfulNet openedB.1 3 [9] 1).2 = -1 := by
  decide

/-- Claim C14 (close persists and clears): when `fd` resolves to the open-table entry `i`
and the permanent record `j`, and that record is in state "opened", `fs3_close` returns
0; the record `j` then holds the length, sector count and bitmap of entry `i` and the
state "closed", entry `i` has length 0, handle -1, position 0 and an empty bitmap, and
nothing else changes: every other record and entry, and all other globals, are as
before. -/
theorem close_persists_and_clears {σ : Type} (st : DriverState σ) (fd : Int) (i j : Nat)
    (hidx : idxByHandle st fd = (0, (i : Int), (j : Int)))
    (hopen : (st.ftable j).fstate = "opened") :
    fs3_close st fd =
        ({ st with ftable := setEntry st.ftable j (savedRecord (st.ftable j) (st.oftable i)),
                   oftable := setEntry st.oftable i (clearedEntry (st.oftable i)) }, 0) ∧
      ((fs3_close st fd).1.ftable j).flength = (st.oftable i).oflength ∧
      ((fs3_close st fd).1.ftable j).numsec = (st.oftable i).numsec ∧
      ((fs3_close st fd).1.ftable j).floc = (st.oftable i).ofloc ∧
      ((fs3_close st fd).1.ftable j).fstate = "closed" ∧
      ((fs3_close st fd).1.oftable i).oflength = 0 ∧
      ((fs3_close st fd).1.oftable i).ofhandle = -1 ∧
      ((fs3_close st fd).1.oftable i).ofpos = 0 ∧
      (∀ t s, ((fs3_close st fd).1.oftable i).ofloc t s = 0) ∧
      (∀ k, k ≠ j → (fs3_close st fd).1.ftable k = st.ftable k) ∧
      (∀ k, k ≠ i → (fs3_close st fd).1.oftable k = st.oftable k) := by
  have hi : ¬ ((i : Int) = -1 ∨ (j : Int) = -1) := by omega
  have h0 : ¬ ((0 : Int) = -1) := by decide
  have hc : ¬ ((st.ftable j).fstate = "closed") := by rw [hopen]; decide
  have heq : fs3_close st fd =
      ({ st with ftable := setEntry st.ftable j (savedRecord (st.ftable j) (st.oftable i)),
                 oftable := setEntry st.oftable i (clearedEntry (st.oftable i)) }, 0) := by
    unfold fs3_close
    rw [hidx]
    dsimp only
    rw [if_neg h0, if_neg hi, Int.toNat_ofNat, Int.toNat_ofNat, if_neg hc]
    rfl
  rw [heq]
  dsimp only
  refine ⟨rfl, ?_, ?_, ?_, ?_, ?_, ?_, ?_, ?_, ?_, ?_⟩
  · rw [setEntry_same]; rfl
  · rw [setEntry_same]; rfl
  · rw [setEntry_same]; rfl
  · rw [setEntry_same]; rfl
  · rw [setEntry_same]; rfl
  · rw [setEntry_same]; rfl
  · rw [setEntry_same]; rfl
  · intro t s; rw [setEntry_same]; rfl
  · intro k hk; exact setEntry_other _ _ _ _ hk
  · intro k hk; exact setEntry_other _ _ _ _ hk

set_option maxRecDepth 100000 in
/-- Witness of `close_persists_and_clears`: the close of handle 1 of "a.txt" after the
write of 2000 bytes. -/
theorem close_persists_and_clears_witness :
    (idxByHandle afterWrite.1 1 = (0, 0, 0) ∧ (afterWrite.1.ftable 0).fstate = "opened" ∧
        (afterWrite.1.oftable 0).oflength = 2048 ∧ (afterWrite.1.oftable 0).numsec = 2) ∧
      (fs3_close afterWrite.1 1).2 = 0 ∧
      ((fs3_close afterWrite.1 1).1.ftable 0).flength = (afterWrite.1.oftable 0).oflength ∧
      ((fs3_close afterWrite.1 1).1.ftable 0).numsec = (afterWrite.1.oftable 0).numsec ∧
      ((fs3_close afterWrite.1 1).1.ftable 0).floc = (afterWrite.1.oftable 0).ofloc ∧
      ((fs3_close afterWrite.1 1).1.ftable 0).fstate = "closed" ∧
      ((fs3_close afterWrite.1 1).1.oftable 0).ofhandle = -1 ∧
      (∀ k, k ≠ 0 → (fs3_close afterWrite.1 1).1.oftable k = afterWrite.1.oftable k) :=
  have h := close_persists_and_clears afterWrite.1 1 0 0 (by decide) (by decide)
  ⟨⟨by decide, by decide, by decide, by decide⟩, by rw [h.1], h.2.1, h.2.2.1, h.2.2.2.1,
    h.2.2.2.2.1, h.2.2.2.2.2.2.1, h.2.2.2.2.2.2.2.2.2.2⟩

set_option maxRecDepth 100000 in
/-- Counterexample to claim C15 as stated: in the state of `twoHandles` the handle 4
resolves to the open-table entry 3 and to the record of "b.txt", which is in state
"closed"; `fs3_close(4)` returns -1, not 0. -/
theorem close_of_closed_record_is_no_success :
    idxByHandle twoHandles.2 4 = (0, 3, 1) ∧ (twoHandles.2.ftable 1).fstate = "closed" ∧
      (fs3_close twoHandles.2 4).2 = -1 ∧ (fs3_close twoHandles.2 4).2 ≠ 0 := by
  decide

/-- Claim C15 as amended: when `fd` resolves to an open-table entry and to a permanent
record that is already in state "closed", `fs3_close` returns -1 (failure) and changes no
state. -/
theorem close_of_closed_record_fails {σ : Type} (st : DriverState σ) (fd : Int) (i j : Nat)
    (hidx : idxByHandle st fd = (0, (i : Int), (j : Int)))
    (hclosed : (st.ftable j).fstate = "closed") :
    fs3_close st fd = (st, -1) := by
  have hi : ¬ ((i : Int) = -1 ∨ (j : Int) = -1) := by omega
  have h0 : ¬ ((0 : Int) = -1) := by decide
  unfold fs3_close
  rw [hidx]
  dsimp only
  rw [if_neg h0, if_neg hi, Int.toNat_ofNat, if_pos hclosed]

set_option maxRecDepth 100000 in
/-- Witness of `close_of_closed_record_fails`: handle 4 in the state of `twoHandles`. -/
theorem close_of_closed_record_fails_witness :
    (idxByHandle twoHandles.2 4 = (0, 3, 1) ∧ (twoHandles.2.ftable 1).fstate = "closed") ∧
      fs3_close twoHandles.2 4 = (twoHandles.2, -1) :=
  ⟨⟨by decide, by decide⟩, close_of_closed_record_fails twoHandles.2 4 3 1 (by decide) (by decide)⟩

/-- Claim C16 (seek bound), for every state of the tables: `fd` resolves to the open-table
entry `i`, whose recorded length `oflength` is a non-negative `int32_t`, and `loc` is a
`uint32_t`.  `fs3_seek(fd, loc)` returns 0 if and only if `loc` is at most the recorded
length of entry `i`.  In that case the only change is that the cursor of entry `i` becomes
`loc`; otherwise it returns -1 and changes nothing.  So a seek to the length succeeds and
a seek to the length plus one fails; both locations are `uint32_t` values, as `loc` is, so
that the call passes them on as they are. -/
theorem seek_bound {σ : Type} (st : DriverState σ) (fd : Int) (i j loc : Nat)
    (hidx : idxByHandle st fd = (0, (i : Int), (j : Int)))
    (hlen0 : 0 ≤ (st.oftable i).oflength) (hlen1 : (st.oftable i).oflength < 2 ^ 31)
    (hloc : loc < 2 ^ 32) :
    ((fs3_seek st fd loc).2 = 0 ↔ (loc : Int) ≤ (st.oftable i).oflength) ∧
      ((loc : Int) ≤ (st.oftable i).oflength →
        fs3_seek st fd loc =
          ({ st with oftable := setEntry st.oftable i (withCursor (st.oftable i) loc) }, 0)) ∧
      ((st.oftable i).oflength < (loc : Int) → fs3_seek st fd loc = (st, -1)) ∧
      (fs3_seek st fd (st.oftable i).oflength.toNat).2 = 0 ∧
      (fs3_seek st fd ((st.oftable i).oflength.toNat + 1)).2 = -1 ∧
      (st.oftable i).oflength.toNat + 1 < 2 ^ 32 ∧ loc % 2 ^ 32 = loc := by
  have h0 : ¬ ((0 : Int) = -1) := by decide
  have hcases : ∀ l : Nat,
      ((l : Int) ≤ (st.oftable i).oflength →
        fs3_seek st fd l =
          ({ st with oftable := setEntry st.oftable i (withCursor (st.oftable i) l) }, 0)) ∧
      ((st.oftable i).oflength < (l : Int) → fs3_seek st fd l = (st, -1)) := by
    intro l
    constructor
    · intro hle
      have hc : ¬ (((st.oftable i).oflength % 2 ^ 32).toNat < l ∨ (i : Int) = -1 ∨
          (j : Int) = -1) := by omega
      unfold fs3_seek
      rw [hidx]
      dsimp only
      rw [if_neg h0, Int.toNat_ofNat, if_neg hc]
      rfl
    · intro hlt
      have hc : ((st.oftable i).oflength % 2 ^ 32).toNat < l ∨ (i : Int) = -1 ∨
          (j : Int) = -1 := by left; omega
      unfold fs3_seek
      rw [hidx]
      dsimp only
      rw [if_neg h0, Int.toNat_ofNat, if_pos hc]
  refine ⟨?_, (hcases loc).1, (hcases loc).2, ?_, ?_, by omega, Nat.mod_eq_of_lt hloc⟩
  · constructor
    · intro h
      by_contra hn
      rw [(hcases loc).2 (by omega)] at h
      have hneg : (-1 : Int) = 0 := h
      exact absurd hneg (by decide)
    · intro h
      rw [(hcases loc).1 h]
  · rw [(hcases _).1 (by omega)]
  · rw [(hcases _).2 (by omega)]

set_option maxRecDepth 100000 in
/-- Witness of `seek_bound`: handle 1 after the write of 2000 bytes has the recorded
length 2048; a seek to 500 and a seek to 2048 succeed, a seek to 2049 fails. -/
theorem seek_bound_witness :
    (idxByHandle session 1 = (0, 0, 0) ∧ (session.oftable 0).oflength = 2048) ∧
      ((fs3_seek session 1 500).2 = 0 ↔ ((500 : Nat) : Int) ≤ (session.oftable 0).oflength) ∧
      (fs3_seek session 1 (session.oftable 0).oflength.toNat).2 = 0 ∧
      (fs3_seek session 1 ((session.oftable 0).oflength.toNat + 1)).2 = -1 :=
  have h := seek_bound session 1 0 0 500 (by decide) (by decide) (by decide) (by decide)
  ⟨⟨by decide, by decide⟩, h.1, h.2.2.2.1, h.2.2.2.2.1⟩

set_option maxRecDepth 100000 in
/-- Claim C17 (code defect): `fs3_read` and `fs3_write` allocate and clear their buffer
before they look at the result of `idxByHandle`, with a size computed from `int16_t`
sector counts.  After `session` no open-table entry holds the handle 7, and handle 4 of
`twoHandles` resolves to a record whose state is not "opened": the claim requires
`fs3_read(7, buf, 33554432)`, `fs3_read(4, buf, 33554432)` and
`fs3_write(4, buf, 33554432)` to return -1 with nothing changed.  The count needs 32768
sectors; `numToRead` is -32768 and the size of `readBuf` is -33554432, and with the
cursor 1 of handle 4 `numToChange` is -32767 and the size of `writeBuf` is -33553408.
`malloc` and `memset` take these sizes as the `size_t` values 2^64 - 33554432 and
2^64 - 33553408: `malloc` returns NULL and `memset` writes through it, so the call does
not return.  (`fs3_read` and `fs3_write` here do not
model the allocation; for these inputs they are not the C functions.) -/
theorem lookup_failure_after_allocation :
    idxByHandle session 7 = (-1, -1, -1) ∧
      idxByHandle twoHandles.2 4 = (0, 3, 1) ∧ (twoHandles.2.ftable 1).fstate ≠ "opened" ∧
      (twoHandles.2.oftable 3).ofpos = 1 ∧
      ceilDiv1024 33554432 = 32768 ∧ toInt16 (ceilDiv1024 33554432) = -32768 ∧
      readBufSize 33554432 = -33554432 ∧
      writeBufSize (twoHandles.2.oftable 3).ofpos 33554432 = -33553408 ∧
      readBufSize 33554432 % 2 ^ 64 = 2 ^ 64 - 33554432 ∧
      writeBufSize (twoHandles.2.oftable 3).ofpos 33554432 % 2 ^ 64 = 2 ^ 64 - 33553408 := by
  decide

/-- Lookup failures for sizes in range: when no open-table entry holds the handle `fd`,
`fs3_close` and `fs3_seek` return -1, and so does `fs3_read` for a count whose buffer
size `readBufSize` is not negative; when the handle resolves to a permanent record whose
state is not "opened", `fs3_read` and `fs3_write` return -1 for counts whose buffer sizes
are not negative.  In all these cases the globals are returned as they were: tables,
allocation map, head position, cache and the other side of the transport (so no transport
call was made).  (`fs3_write` with a handle that no entry holds computes its buffer size
from `oftable[-1].ofpos`, memory outside the table, and is left out.) -/
theorem failed_lookup_changes_nothing {σ : Type} (g : Geometry) (net : Transport σ)
    (st : DriverState σ) (fd : Int) (buf : List Nat) (count loc : Nat)
    (hread : 0 ≤ readBufSize count) :
    ((∀ i, i < FS3_MAX_TOTAL_FILES → (st.oftable i).ofhandle ≠ fd) →
        fs3_close st fd = (st, -1) ∧ fs3_read g net st fd count = (st, -1, []) ∧
        fs3_seek st fd loc = (st, -1)) ∧
      (∀ (i j : Nat), idxByHandle st fd = (0, (i : Int), (j : Int)) →
        (st.ftable j).fstate ≠ "opened" → 0 ≤ writeBufSize (st.oftable i).ofpos count →
        fs3_read g net st fd count = (st, -1, []) ∧
        fs3_write g net st fd buf count = (st, -1)) ∧
      ((readBuf count).length : Int) = readBufSize count := by
  refine ⟨?_, ?_, ?_⟩
  · intro h
    have hidx := idxByHandle_unknown st fd h
    refine ⟨?_, ?_, ?_⟩
    · simp [fs3_close, hidx]
    · simp [fs3_read, hidx]
    · simp [fs3_seek, hidx]
  · intro i j hidx hst _
    have hi : ¬ ((i : Int) = -1 ∨ (j : Int) = -1) := by omega
    constructor
    · unfold fs3_read
      rw [hidx]
      dsimp only
      rw [if_neg hi, Int.toNat_ofNat, if_pos hst]
    · unfold fs3_write
      rw [hidx]
      dsimp only
      rw [if_neg hi, Int.toNat_ofNat, if_pos hst]
  · unfold readBuf
    unfold readBufSize at hread ⊢
    rw [List.length_replicate]
    unfold FS3_SECTOR_SIZE at hread ⊢
    push_cast
    have h0 : 0 ≤ toInt16 (ceilDiv1024 count) := by omega
    rw [Int.toNat_of_nonneg h0]

set_option maxRecDepth 100000 in
/-- Instance of `failed_lookup_changes_nothing`: the handle 7 that no entry holds after
`session`, and the handle 4 of `twoHandles`, whose record is not in state "opened", with
a count of one byte. -/
theorem failed_lookup_changes_nothing_witness :
    (0 ≤ readBufSize 1 ∧ (∀ i, i < FS3_MAX_TOTAL_FILES → (session.oftable i).ofhandle ≠ 7) ∧
        idxByHandle twoHandles.2 4 = (0, 3, 1) ∧
        (twoHandles.2.ftable 1).fstate ≠ "opened" ∧
        0 ≤ writeBufSize (twoHandles.2.oftable 3).ofpos 1) ∧
      (fs3_close session 7 = (session, -1) ∧
        fs3_read demoGeometry faithfulNet session 7 1 = (session, -1, []) ∧
        fs3_seek session 7 0 = (session, -1)) ∧
      (fs3_read demoGeometry faithfulNet twoHandles.2 4 1 = (twoHandles.2, -1, []) ∧
        fs3_write demoGeometry faithfulNet twoHandles.2 4 [9] 1 = (twoHandles.2, -1)) :=
  ⟨⟨by decide, idxByHandle_none session 7 (by decide), by decide, by decide, by decide⟩,
   (failed_lookup_changes_nothing demoGeometry faithfulNet session 7 [9] 1 0 (by decide)).1
     (idxByHandle_none session 7 (by decide)),
   (failed_lookup_changes_nothing demoGeometry faithfulNet twoHandles.2 4 [9] 1 0
     (by decide)).2.1 3 1 (by decide) (by decide) (by decide)⟩

set_option maxRecDepth 100000 in
/-- Claim C18 (code defect): `fs3_write` allocates and clears `writeBuf` before it
compares the end position with `MAX_FILE_SIZE`, with the size
`numToChange*FS3_SECTOR_SIZE` for the `int16_t` value `numToChange`.  After `session`
handle 1 is live with the cursor 2000; `fs3_write(1, buf, 33554432)` would end at
33556432, beyond `MAX_FILE_SIZE`, so the claim requires the return value -1 with nothing
changed.  The first sector is 1 and the last one 32770, which is -32766 as an `int16_t`:
`numToChange` is -32767 and the size -33553408.  `malloc` and `memset` take the size as
the `size_t` value 2^64 - 33553408: `malloc` returns NULL and `memset` writes through it,
so the call does not return.  (`fs3_write` here does not model the allocation; for this
input it is not the C function.) -/
theorem size_check_after_allocation :
    idxByHandle session 1 = (0, 0, 0) ∧ (session.ftable 0).fstate = "opened" ∧
      (session.oftable 0).ofpos = 2000 ∧
      MAX_FILE_SIZE < (session.oftable 0).ofpos + 33554432 ∧
      toInt16 (((session.oftable 0).ofpos / 1024 : Nat) : Int) = 1 ∧
      ceilDiv1024 ((session.oftable 0).ofpos + 33554432) = 32770 ∧
      toInt16 ((ceilDiv1024 ((session.oftable 0).ofpos + 33554432) : Nat) : Int) = -32766 ∧
      toInt16 (-32766 - 1) = -32767 ∧
      writeBufSize (session.oftable 0).ofpos 33554432 = -33553408 ∧
      writeBufSize (session.oftable 0).ofpos 33554432 % 2 ^ 64 = 2 ^ 64 - 33553408 := by
  decide

/-- The size test of `fs3_write` for sizes in range: when `fd` resolves to the open-table
entry `i` with a cursor `p` below 2^31, a `fs3_write` of `count` bytes (a non-negative
`int32_t`) whose buffer size `writeBufSize` is not negative and with
`p + count > MAX_FILE_SIZE` returns -1 and returns the globals as they were: length,
sector count, bitmap and cursor of the handle, allocation map, cache and the other side of
the transport (no transport call) are unchanged. -/
theorem write_beyond_max_fails {σ : Type} (g : Geometry) (net : Transport σ)
    (st : DriverState σ) (fd : Int) (buf : List Nat) (count i j : Nat)
    (hidx : idxByHandle st fd = (0, (i : Int), (j : Int)))
    (hcount : count < 2 ^ 31) (hpos : (st.oftable i).ofpos < 2 ^ 31)
    (hsize : 0 ≤ writeBufSize (st.oftable i).ofpos count)
    (hbig : MAX_FILE_SIZE < (st.oftable i).ofpos + count) :
    fs3_write g net st fd buf count = (st, -1) ∧
      0 ≤ toInt16 (toInt16 ((ceilDiv1024 ((st.oftable i).ofpos + count) : Nat) : Int)
        - toInt16 (((st.oftable i).ofpos / 1024 : Nat) : Int)) := by
  have hmod : ((st.oftable i).ofpos + count) % 2 ^ 32 = (st.oftable i).ofpos + count :=
    Nat.mod_eq_of_lt (by omega)
  have hi : ¬ ((i : Int) = -1 ∨ (j : Int) = -1) := by omega
  refine ⟨?_, ?_⟩
  · unfold fs3_write
    rw [hidx]
    dsimp only
    rw [if_neg hi, Int.toNat_ofNat, Int.toNat_ofNat]
    by_cases hst : (st.ftable j).fstate ≠ "opened"
    · rw [if_pos hst]
    · rw [if_neg hst, hmod, if_pos hbig]
  · unfold writeBufSize at hsize
    dsimp only at hsize
    rw [hmod] at hsize
    unfold FS3_SECTOR_SIZE at hsize
    omega

set_option maxRecDepth 100000 in
/-- Instance of `write_beyond_max_fails`: with the cursor at 2000, a write of 9999000
bytes would end at 10001000. -/
theorem write_beyond_max_fails_witness :
    (idxByHandle session 1 = (0, 0, 0) ∧ (session.oftable 0).ofpos = 2000 ∧
        0 ≤ writeBufSize (session.oftable 0).ofpos 9999000 ∧
        MAX_FILE_SIZE < 2000 + 9999000) ∧
      fs3_write demoGeometry faithfulNet session 1 (List.replicate 9999000 0) 9999000
        = (session, -1) :=
  ⟨⟨by decide, by decide, by decide, by decide⟩,
   (write_beyond_max_fails demoGeometry faithfulNet session 1 (List.replicate 9999000 0) 9999000
     0 0 (by decide) (by decide) (by decide) (by decide) (by decide)).1⟩

set_option maxRecDepth 100000 in
/-- Claim C19 (code defect): the allocation loop of `fs3_write` does not look at the
return value of `findFreeLoc`.  On a disk with a single sector, a write of 2000 bytes to
the new file "a.txt" needs two sectors while one address is free.  The second
`findFreeLoc` fails, the sector count is raised to 2 all the same and `fs3_write`
returns 2000, although the bytes from 1024 on were written nowhere: a read at position
1024 returns zeros. -/
theorem full_disk_write_returns_count :
    allAddrs tinyGeometry = [(0, 0)] ∧ tinyOpen.2 = 1 ∧ tinyOpen.1.globalLoc 0 0 = 0 ∧
      ceilDiv1024 2000 = 2 ∧
      tinyWrite.2 = 2000 ∧
      (tinyWrite.1.oftable 0).numsec = 2 ∧
      firstFree tinyWrite.1.globalLoc (allAddrs tinyGeometry) = none ∧
      (findFreeLoc tinyGeometry tinyWrite.1.globalLoc 0 0).2.1 = -1 ∧
      (fs3_read tinyGeometry faithfulNet (fs3_seek tinyWrite.1 1 1024).1 1 4).2.2
        = [0, 0, 0, 0] ∧
      (fileBytes.drop 1024).take 4 = [20, 21, 22, 23] := by
  decide

/-- Claim C20 (write advances the cursor), for every state of the tables in which `fd`
resolves to the open-table entry `i`, on a geometry of at most 2^15 tracks and 2^15
sectors a track: `count` and the cursor of entry `i` are below 2^31, and when the call
has sectors to add the allocation map has a free address.  Then every store of the
allocation loop is made inside the bitmap of the file (the first `findFreeLoc` delivers
an address, and the indices are never the initial -1).  A `fs3_write` of `count` bytes
that does not return -1 returns `count`; afterwards the cursor of entry `i` is its
previous cursor plus `count`, and every other open-table entry is unchanged. -/
theorem write_advances_cursor {σ : Type} (g : Geometry) (net : Transport σ)
    (st : DriverState σ) (fd : Int) (buf : List Nat) (count i j : Nat)
    (hT : g.FS3_MAX_TRACKS ≤ 2 ^ 15) (hS : g.FS3_TRACK_SIZE ≤ 2 ^ 15)
    (hidx : idxByHandle st fd = (0, (i : Int), (j : Int)))
    (hcount : count < 2 ^ 31) (hpos : (st.oftable i).ofpos < 2 ^ 31)
    (hfree : 0 < sectorsToAdd (st.oftable i) ((st.oftable i).ofpos + count) →
      (firstFree st.globalLoc (allAddrs g)).isSome = true)
    (hok : (fs3_write g net st fd buf count).2 ≠ -1) :
    (fs3_write g net st fd buf count).2 = count ∧
      ((fs3_write g net st fd buf count).1.oftable i).ofpos = (st.oftable i).ofpos + count ∧
      (∀ k, k ≠ i → (fs3_write g net st fd buf count).1.oftable k = st.oftable k) ∧
      (∀ n, 0 < n → n ≤ sectorsToAdd (st.oftable i) ((st.oftable i).ofpos + count) →
        AllocLoop.inBitmap g (allocLoop g n (allocStart st i)) = true) := by
  have hmod : ((st.oftable i).ofpos + count) % 2 ^ 32 = (st.oftable i).ofpos + count :=
    Nat.mod_eq_of_lt (by omega)
  have hin : ∀ n, 0 < n → n ≤ sectorsToAdd (st.oftable i) ((st.oftable i).ofpos + count) →
      AllocLoop.inBitmap g (allocLoop g n (allocStart st i)) = true := by
    intro n hn hle
    exact allocLoop_inBitmap g hT hS n (allocStart st i) (Or.inr (hfree (by omega))) hn
  rcases write_effect g net st fd buf count i j hidx with hfail | ⟨x, _, hof, _, _, hret⟩
  · rw [hfail] at hok
    exact absurd rfl hok
  · rcases hret with hneg | ⟨hc, hx⟩
    · exact absurd hneg hok
    · refine ⟨hc, ?_, ?_, hin⟩
      · rw [hof, setEntry_same]
        show x = _
        rw [hx, hmod]
      · intro k hk
        rw [hof]
        exact setEntry_other _ _ _ _ hk

set_option maxRecDepth 100000 in
/-- Witness of `write_advances_cursor`: a write of 10 bytes at the start of the new file
"a.txt" adds one sector, returns 10 and leaves the cursor at 10. -/
theorem write_advances_cursor_witness :
    (demoGeometry.FS3_MAX_TRACKS ≤ 2 ^ 15 ∧ demoGeometry.FS3_TRACK_SIZE ≤ 2 ^ 15 ∧
        idxByHandle opened 1 = (0, 0, 0) ∧ (opened.oftable 0).ofpos = 0 ∧
        sectorsToAdd (opened.oftable 0) ((opened.oftable 0).ofpos + 10) = 1 ∧
        (firstFree opened.globalLoc (allAddrs demoGeometry)).isSome = true ∧
        (fs3_write demoGeometry faithfulNet opened 1 (patternBytes 10 1) 10).2 ≠ -1) ∧
      (fs3_write demoGeometry faithfulNet opened 1 (patternBytes 10 1) 10).2 = (10 : Nat) ∧
      ((fs3_write demoGeometry faithfulNet opened 1 (patternBytes 10 1) 10).1.oftable 0).ofpos
        = (opened.oftable 0).ofpos + 10 ∧
      (∀ k, k ≠ 0 →
        (fs3_write demoGeometry faithfulNet opened 1 (patternBytes 10 1) 10).1.oftable k
          = opened.oftable k) ∧
      (∀ n, 0 < n → n ≤ sectorsToAdd (opened.oftable 0) ((opened.oftable 0).ofpos + 10) →
        AllocLoop.inBitmap demoGeometry (allocLoop demoGeometry n (allocStart opened 0))
          = true) :=
  ⟨⟨by decide, by decide, by decide, by decide, by decide, by decide, by decide⟩,
   write_advances_cursor demoGeometry faithfulNet opened 1 (patternBytes 10 1) 10 0 0
     (by decide) (by decide) (by decide) (by decide) (by decide) (fun _ => by decide)
     (by decide)⟩

set_option maxRecDepth 100000 in
/-- Claim C21 (code defect): the number of sectors to add is kept in an `int8_t`.  On every
disk geometry, after mount and `fs3_open("a.txt")` = 1, the call
`fs3_write(1, bigBuf, 131072)` at position 0 (0 + 131072 is within `MAX_FILE_SIZE`) returns
131072; no sector is added and the recorded length stays 0, while the cursor of the live
handle 1 moves to 131072: the cursor is beyond the recorded length. -/
theorem cursor_beyond_length_after_big_write (g : Geometry) :
    (afterOpen.1.mountState = "mounted" ∧ afterOpen.2 = 1 ∧
        (afterOpen.1.oftable 0).ofpos = 0 ∧ (afterOpen.1.oftable 0).oflength = 0 ∧
        0 + 131072 ≤ MAX_FILE_SIZE) ∧
      (fs3_write g faithfulNet afterOpen.1 1 bigBuf 131072).2 = 131072 ∧
      ((fs3_write g faithfulNet afterOpen.1 1 bigBuf 131072).1.oftable 0).ofhandle = 1 ∧
      ((fs3_write g faithfulNet afterOpen.1 1 bigBuf 131072).1.oftable 0).ofpos = 131072 ∧
      ((fs3_write g faithfulNet afterOpen.1 1 bigBuf 131072).1.oftable 0).oflength = 0 ∧
      ¬ ((((fs3_write g faithfulNet afterOpen.1 1 bigBuf 131072).1.oftable 0).ofpos : Int)
          ≤ ((fs3_write g faithfulNet afterOpen.1 1 bigBuf 131072).1.oftable 0).oflength) := by
  have hl : writeLoop faithfulNet 0 128 0 (allAddrs g) (bigLoopStart g) = bigLoopStart g := by
    apply writeLoop_nothing_owned
    intro a _
    show (0 : Nat) ≠ 1
    decide
  rw [bigWrite_unfold, hl]
  refine ⟨by decide, rfl, rfl, rfl, rfl, ?_⟩
  show ¬ (((131072 : Nat) : Int) ≤ (0 : Int))
  decide

/-- Claim C22 (handle ids): let the calls `ops0` be run from process start, then
`fs3_open(path1)` be called, then the calls `ops` be run, then `fs3_open(path2)` be called,
all within the capacity of the open table and with every path shorter than
`FS3_MAX_PATH_LENGTH` (the `strcpy` of `fs3_open` then stays inside the name field and
leaves the handle stored behind it alone).  A failing open returns the globals as they
were, so it consumes no id.  A successful open returns the value of `freeHandle`, which is
at least 1 (it is 1 at process start), and raises it by one; no call lowers it,
`fs3_close`, `fs3_unmount_disk` and `fs3_mount_disk` included.  So the id of the second
open, when both succeed, is strictly greater than the id of the first.  Every name in
the tables fits its field after these calls. -/
theorem handle_ids_increase {σ : Type} (g : Geometry) (net : Transport σ) (ctl : σ)
    (ops0 : List DriverOp) (st : DriverState σ) (path1 path2 : String) (ops : List DriverOp)
    (hst : runDriver g net (driverStart cacheStart ctl) ops0 = st)
    (hops0 : ∀ op ∈ ops0, DriverOp.pathOk op = true) (hp1 : pathFits path1 = true)
    (hops : ∀ op ∈ ops, DriverOp.pathOk op = true) (hp2 : pathFits path2 = true)
    (hcap : (runDriver g net (fs3_open st path1).1 ops).freeOFile < FS3_MAX_TOTAL_FILES) :
    (driverStart cacheStart ctl).freeHandle = 1 ∧
      ((fs3_open st path1).2 = -1 → (fs3_open st path1).1 = st) ∧
      ((fs3_open st path1).2 ≠ -1 →
        (fs3_open st path1).2 = st.freeHandle ∧ 1 ≤ (fs3_open st path1).2 ∧
        (fs3_open st path1).1.freeHandle = st.freeHandle + 1) ∧
      (fs3_open st path1).1.freeHandle ≤ (runDriver g net (fs3_open st path1).1 ops).freeHandle ∧
      ((fs3_open st path1).2 ≠ -1 →
        (fs3_open (runDriver g net (fs3_open st path1).1 ops) path2).2 ≠ -1 →
        (fs3_open st path1).2
          < (fs3_open (runDriver g net (fs3_open st path1).1 ops) path2).2) ∧
      NamesFit (fs3_open (runDriver g net (fs3_open st path1).1 ops) path2).1 := by
  have hreach : DriverReachable g net st := ⟨ctl, ops0, hst⟩
  have hnames : NamesFit (fs3_open (runDriver g net (fs3_open st path1).1 ops) path2).1 := by
    have n0 : NamesFit st := by
      rw [← hst]
      exact names_runDriver g net ops0 _ hops0 (names_start _ ctl)
    exact names_open _ path2 hp2
      (names_runDriver g net ops _ hops (names_open st path1 hp1 n0))
  have hinv : HandleInv st := handleInv_of_reachable hreach
  have hinv1 : HandleInv (fs3_open st path1).1 := by
    have := (counters_runDriver g net [DriverOp.openFile path1] st hinv).1
    exact this
  have hmono0 : st.freeOFile ≤ (fs3_open st path1).1.freeOFile :=
    (counters_runDriver g net [DriverOp.openFile path1] st hinv).2
  obtain ⟨hinv2, hmono⟩ := counters_runDriver g net ops (fs3_open st path1).1 hinv1
  generalize hst2 : runDriver g net (fs3_open st path1).1 ops = st2 at hcap hinv2 hmono hnames ⊢
  unfold HandleInv at hinv hinv1 hinv2
  unfold FS3_MAX_TOTAL_FILES at hcap
  have h16 : toInt16 st.freeHandle = st.freeHandle := by
    rw [hinv]
    have := toInt16_of_lt (st.freeOFile + 1) (by omega)
    push_cast at this
    exact this
  have h16b : toInt16 st2.freeHandle = st2.freeHandle := by
    rw [hinv2]
    have := toInt16_of_lt (st2.freeOFile + 1) (by omega)
    push_cast at this
    exact this
  have hfirst : (fs3_open st path1).2 ≠ -1 →
      (fs3_open st path1).2 = st.freeHandle ∧ 1 ≤ (fs3_open st path1).2 ∧
      (fs3_open st path1).1.freeHandle = st.freeHandle + 1 := by
    intro hne
    rcases open_effect st path1 with h | ⟨h1, h2, _⟩
    · rw [h] at hne; exact absurd rfl hne
    · rw [h1, h16]
      exact ⟨rfl, by omega, h2⟩
  refine ⟨rfl, ?_, hfirst, by omega, ?_, hnames⟩
  · intro hfail
    rcases open_effect st path1 with h | ⟨h1, _, _⟩
    · rw [h]
    · rw [h1, h16] at hfail
      omega
  · intro hne1 hne2
    obtain ⟨f1, _, f3⟩ := hfirst hne1
    rcases open_effect st2 path2 with h | ⟨h1, _, _⟩
    · rw [h] at hne2; exact absurd rfl hne2
    · rw [h1, h16b, f1]
      omega

set_option maxRecDepth 100000 in
/-- Witness of `handle_ids_increase`: on the freshly mounted driver `fs3_open("a.txt")`
returns 1; after close, unmount and mount, `fs3_open("a.txt")` returns 2. -/
theorem handle_ids_increase_witness :
    (runDriver demoGeometry faithfulNet (driverStart cacheStart blankController)
          [.cache (.init 8), .mount] = freshMount ∧
        (∀ op ∈ [DriverOp.cache (.init 8), DriverOp.mount], DriverOp.pathOk op = true) ∧
        pathFits "a.txt" = true ∧ (∀ op ∈ betweenOps, DriverOp.pathOk op = true) ∧
        (runDriver demoGeometry faithfulNet (fs3_open freshMount "a.txt").1 betweenOps).freeOFile
          < FS3_MAX_TOTAL_FILES ∧
        (fs3_open freshMount "a.txt").2 = 1 ∧
        (fs3_open (runDriver demoGeometry faithfulNet (fs3_open freshMount "a.txt").1
          betweenOps) "a.txt").2 = 2) ∧
      (fs3_open freshMount "a.txt").2
        < (fs3_open (runDriver demoGeometry faithfulNet (fs3_open freshMount "a.txt").1
            betweenOps) "a.txt").2 :=
  ⟨⟨rfl, by decide, by decide, by decide, by decide, by decide, by decide⟩,
   (handle_ids_increase demoGeometry faithfulNet blankController [.cache (.init 8), .mount]
     freshMount "a.txt" "a.txt" betweenOps rfl (by decide) (by decide) (by decide) (by decide)
     (by decide)).2.2.2.2.1 (by decide) (by decide)⟩

/-- Claim C26 (mount state machine): `fs3_mount_disk` on a mounted driver and
`fs3_unmount_disk` on a driver that is not mounted return -1 and the globals as they were,
the other side of the transport included (no transport call).  `fs3_mount_disk` on an
unmounted driver makes one round trip with the mount command; when the call returns 0
with status 0 in the returned word, it returns 0 and the state is "mounted", otherwise it
returns -1 and the state is still "unmounted". -/
theorem mount_state_machine {σ : Type} (g : Geometry) (net : Transport σ)
    (st : DriverState σ) (junk : Nat) :
    (st.mountState = "mounted" → fs3_mount_disk g net st = (st, -1)) ∧
      (st.mountState = "unmounted" → fs3_unmount_disk net st junk = (st, -1)) ∧
      (st.mountState = "unmounted" →
        (fs3_mount_disk g net st).1.ctl
          = (net.syscall st.ctl (construct_fs3_cmdblock FS3_OP_MOUNT 0 0 0) []).1 ∧
        (((net.syscall st.ctl (construct_fs3_cmdblock FS3_OP_MOUNT 0 0 0) []).2.1 = 0 ∧
            retOf (net.syscall st.ctl (construct_fs3_cmdblock FS3_OP_MOUNT 0 0 0) []).2.2.1 = 0) →
          (fs3_mount_disk g net st).2 = 0 ∧
          (fs3_mount_disk g net st).1.mountState = "mounted") ∧
        (¬ ((net.syscall st.ctl (construct_fs3_cmdblock FS3_OP_MOUNT 0 0 0) []).2.1 = 0 ∧
            retOf (net.syscall st.ctl (construct_fs3_cmdblock FS3_OP_MOUNT 0 0 0) []).2.2.1 = 0) →
          (fs3_mount_disk g net st).2 = -1 ∧
          (fs3_mount_disk g net st).1.mountState = "unmounted")) := by
  refine ⟨fun h => ?_, fun h => ?_, fun h => ?_⟩
  · unfold fs3_mount_disk
    rw [if_pos h]
  · have hne : st.mountState ≠ "mounted" := by rw [h]; decide
    unfold fs3_unmount_disk
    rw [if_pos hne]
  · have hne : ¬ st.mountState = "mounted" := by rw [h]; decide
    generalize hr : net.syscall st.ctl (construct_fs3_cmdblock FS3_OP_MOUNT 0 0 0) [] = r
    have hm : fs3_mount_disk g net st =
        if retOf r.2.2.1 = 0 ∧ r.2.1 = 0 then
          ({ st with ctl := r.1,
                     ftable := fun i => if i < g.FS3_MAX_TRACKS then zeroFile else st.ftable i,
                     oftable := fun _ => zeroOpenFile,
                     globalLoc := fun _ _ => 0,
                     mountState := "mounted" }, 0)
        else ({ st with ctl := r.1 }, -1) := by
      unfold fs3_mount_disk
      rw [if_neg hne, hr]
    rw [hm]
    refine ⟨?_, fun hok => ?_, fun hbad => ?_⟩
    · split <;> rfl
    · rw [if_pos ⟨hok.2, hok.1⟩]
      exact ⟨rfl, rfl⟩
    · rw [if_neg (fun hh => hbad ⟨hh.2, hh.1⟩)]
      exact ⟨rfl, h⟩

set_option maxRecDepth 100000 in
/-- Witness of `mount_state_machine`: the first mount at process start succeeds over the
faithful transport and a second one fails; an unmount at process start fails; a mount
over a transport whose calls fail returns -1 and leaves the driver unmounted. -/
theorem mount_state_machine_witness :
    (mountedStart.mountState = "mounted" ∧
        (driverStart cacheStart blankController).mountState = "unmounted" ∧
        (driverStart cacheStart ()).mountState = "unmounted" ∧
        ¬ ((deadNet.syscall () (construct_fs3_cmdblock FS3_OP_MOUNT 0 0 0) []).2.1 = 0 ∧
          retOf (deadNet.syscall () (construct_fs3_cmdblock FS3_OP_MOUNT 0 0 0) []).2.2.1 = 0)) ∧
      fs3_mount_disk demoGeometry faithfulNet mountedStart = (mountedStart, -1) ∧
      fs3_unmount_disk faithfulNet (driverStart cacheStart blankController) 0
        = (driverStart cacheStart blankController, -1) ∧
      ((fs3_mount_disk demoGeometry faithfulNet (driverStart cacheStart blankController)).2 = 0 ∧
        (fs3_mount_disk demoGeometry faithfulNet
          (driverStart cacheStart blankController)).1.mountState = "mounted") ∧
      ((fs3_mount_disk demoGeometry deadNet (driverStart cacheStart ())).2 = -1 ∧
        (fs3_mount_disk demoGeometry deadNet (driverStart cacheStart ())).1.mountState
          = "unmounted") :=
  ⟨⟨by decide, by decide, by decide, by decide⟩,
   (mount_state_machine demoGeometry faithfulNet mountedStart 0).1 (by decide),
   (mount_state_machine demoGeometry faithfulNet (driverStart cacheStart blankController) 0).2.1
     (by decide),
   ((mount_state_machine demoGeometry faithfulNet (driverStart cacheStart blankController)
     0).2.2 (by decide)).2.1 (by decide),
   ((mount_state_machine demoGeometry deadNet (driverStart cacheStart ()) 0).2.2
     (by decide)).2.2 (by decide)⟩

set_option maxRecDepth 100000 in
/-- Claim C27 (code defect): the `memset` of `ftable` in `fs3_mount_disk` clears
`sizeof(FS3File) * FS3_MAX_TRACKS` bytes, that is the first `FS3_MAX_TRACKS` records, not
all `FS3_MAX_TOTAL_FILES`: on every geometry and in every state a mount leaves each record
from index `FS3_MAX_TRACKS` on as it was.  On a disk with one track: after a session in
which "a.txt" and "b.txt" were created and three bytes written to "b.txt", unmount and a
successful mount leave record 1 with name "b.txt", state "closed", length 1024 and the
address (0, 0) in its bitmap, although the allocation map has been cleared; only record 0
was emptied. -/
theorem mount_clears_only_first_records :
    (∀ (g : Geometry) (st : DriverState Controller) (j : Nat), g.FS3_MAX_TRACKS ≤ j →
        (fs3_mount_disk g faithfulNet st).1.ftable j = st.ftable j) ∧
      tinyGeometry.FS3_MAX_TRACKS = 1 ∧
      (sessionOne.ftable 0).fname = "a.txt" ∧ (sessionOne.ftable 1).fname = "b.txt" ∧
      sessionOneEnd.2 = 0 ∧ sessionOneEnd.1.mountState = "unmounted" ∧
      remounted.2 = 0 ∧ remounted.1.mountState = "mounted" ∧
      (remounted.1.ftable 0).fname = "" ∧
      remounted.1.globalLoc 0 0 = 0 ∧
      (remounted.1.ftable 1).fname = "b.txt" ∧
      (remounted.1.ftable 1).fstate = "closed" ∧
      (remounted.1.ftable 1).flength = 1024 ∧
      (remounted.1.ftable 1).numsec = 1 ∧
      (remounted.1.ftable 1).floc 0 0 = 1 := by
  refine ⟨?_, by decide, by decide, by decide, by decide, by decide, by decide, by decide,
    by decide, by decide, by decide, by decide, by decide, by decide, by decide⟩
  intro g st j hj
  have hlt : ¬ j < g.FS3_MAX_TRACKS := by omega
  unfold fs3_mount_disk
  split
  · rfl
  · dsimp only
    split
    · show (if j < g.FS3_MAX_TRACKS then zeroFile else st.ftable j) = st.ftable j
      rw [if_neg hlt]
    · rfl

set_option maxRecDepth 100000 in
/-- Counterexample to claim C28 as stated: the write of the first session moved the head to
track 0; the successful `fs3_unmount_disk` and the successful `fs3_mount_disk` that follow
both leave the current-track value at 0, not at -1. -/
theorem remount_keeps_current_track :
    sessionOne.curTrk = 0 ∧
      sessionOneEnd.2 = 0 ∧ sessionOneEnd.1.curTrk = 0 ∧ sessionOneEnd.1.curTrk ≠ -1 ∧
      remounted.2 = 0 ∧ remounted.1.curTrk = 0 ∧ remounted.1.curTrk ≠ -1 := by
  decide

/-- Claim C28 as amended: the current-track value is -1 at process start, and neither
`fs3_mount_disk` nor `fs3_unmount_disk`, successful or not, changes it. -/
theorem mount_and_unmount_keep_current_track {σ : Type} (g : Geometry) (net : Transport σ)
    (st : DriverState σ) (junk : Nat) (c : CacheState) (ctl : σ) :
    (driverStart c ctl).curTrk = -1 ∧
      (fs3_mount_disk g net st).1.curTrk = st.curTrk ∧
      (fs3_unmount_disk net st junk).1.curTrk = st.curTrk := by
  refine ⟨rfl, ?_, ?_⟩
  · unfold fs3_mount_disk
    split
    · rfl
    · dsimp only
      split <;> rfl
  · have hl := (unmountLoop_device st.freeHandle.toNat 0 st).1
    unfold fs3_unmount_disk
    split
    · rfl
    · dsimp only
      split <;> exact hl

set_option maxRecDepth 100000 in
/-- Counterexample to claim C29 as stated, with the calls listed newest first.  Over the
faithful transport: mount, seek track 0, read sector 0, write sector 0 in the first
session; then unmount, mount, and in the second session a write-sector command for the
address (0, 0) with no seek-track command in that session.  Over a transport whose seek
to track 1 fails: after the successful seek to track 0 and the failed seek to track 1, the
write-sector command for (0, 0) is sent with that other seek-track command in between. -/
theorem sector_command_without_seek_in_session :
    remountTrace =
        [⟨construct_fs3_cmdblock FS3_OP_WRSECT 0 0 0, true⟩,
         ⟨construct_fs3_cmdblock FS3_OP_MOUNT 0 0 0, true⟩,
         ⟨construct_fs3_cmdblock FS3_OP_UMOUNT 0 0 0, true⟩,
         ⟨construct_fs3_cmdblock FS3_OP_WRSECT 0 0 0, true⟩,
         ⟨construct_fs3_cmdblock FS3_OP_RDSECT 0 0 0, true⟩,
         ⟨construct_fs3_cmdblock FS3_OP_TSEEK 0 0 0, true⟩,
         ⟨construct_fs3_cmdblock FS3_OP_MOUNT 0 0 0, true⟩] ∧
      stuckTrace =
        [⟨construct_fs3_cmdblock FS3_OP_WRSECT 0 0 0, true⟩,
         ⟨construct_fs3_cmdblock FS3_OP_TSEEK 0 1 0, false⟩,
         ⟨construct_fs3_cmdblock FS3_OP_WRSECT 0 0 0, true⟩,
         ⟨construct_fs3_cmdblock FS3_OP_RDSECT 0 0 0, true⟩,
         ⟨construct_fs3_cmdblock FS3_OP_TSEEK 0 0 0, true⟩,
         ⟨construct_fs3_cmdblock FS3_OP_MOUNT 0 0 0, true⟩] := by
  decide

/-- Claim C29 as amended.  The transport calls are traced from process start, on a
geometry of at most 2^15 tracks and 2^15 sectors a track, the range of the `int16_t` track
and sector indices of the driver (the parameter of `switchTrack` and `curTrk` among them).
In every reachable state the current-track value is the track of the latest successful
seek-track command of the trace (-1 when there is none), and every read-sector or
write-sector command of the trace has a successful seek-track command before it.
`readSector` and `writeSector` are the bodies of the sector loops of `fs3_read` and
`fs3_write`, the only code that sends sector commands; run for the address (trk, sec) in a
state with that invariant they keep it, and what they add to the trace is one of: nothing,
a failed seek to `trk`, a successful seek to `trk`, a successful seek to `trk` followed by
the sector command for `sec`, or that sector command alone when the latest successful seek
of the trace is the one to `trk`. -/
theorem seek_precedes_sector_access {σ : Type} (g : Geometry) (net : Transport σ)
    (st : DriverState (σ × List Sent)) (trk sec : Nat) (buf : List Nat)
    (hT : g.FS3_MAX_TRACKS ≤ 2 ^ 15) (hS : g.FS3_TRACK_SIZE ≤ 2 ^ 15)
    (htrk : trk < g.FS3_MAX_TRACKS) (hsec : sec < g.FS3_TRACK_SIZE) :
    (TracedReachable g net st →
        st.curTrk = headOf (lastSeek st.ctl.2) ∧ sectorsAfterSeek st.ctl.2 = true) ∧
      (TraceInv st →
        (TraceInv (readSector (traced net) st trk sec).1 ∧
          Access FS3_OP_RDSECT trk sec st.ctl.2 (readSector (traced net) st trk sec).1.ctl.2) ∧
        (TraceInv (writeSector (traced net) st trk sec buf).1 ∧
          Access FS3_OP_WRSECT trk sec st.ctl.2
            (writeSector (traced net) st trk sec buf).1.ctl.2)) := by
  have h1 : trk < 2 ^ 32 := by omega
  have h2 : sec < 2 ^ 16 := by omega
  exact ⟨fun hr => traceInv_of_reachable (by omega) (by omega) hr,
    fun hinv => ⟨readSector_trace net st trk sec h1 h2 hinv,
      writeSector_trace net st trk sec buf h1 h2 hinv⟩⟩

set_option maxRecDepth 100000 in
/-- Witness of `seek_precedes_sector_access`: after the write of 2000 bytes to "a.txt" the
head is on track 0; a read of the address (0, 5) adds a read-sector command alone, and a
write to the address (1, 0) adds a successful seek to track 1 and the write-sector
command. -/
theorem seek_precedes_sector_access_witness :
    (demoGeometry.FS3_MAX_TRACKS ≤ 2 ^ 15 ∧ demoGeometry.FS3_TRACK_SIZE ≤ 2 ^ 15 ∧
        1 < demoGeometry.FS3_MAX_TRACKS ∧ 5 < demoGeometry.FS3_TRACK_SIZE ∧
        lastSeek tracedSession.ctl.2 = some 0) ∧
      (tracedSession.curTrk = headOf (lastSeek tracedSession.ctl.2) ∧
        sectorsAfterSeek tracedSession.ctl.2 = true) ∧
      Access FS3_OP_RDSECT 0 5 tracedSession.ctl.2
        (readSector (traced faithfulNet) tracedSession 0 5).1.ctl.2 ∧
      (readSector (traced faithfulNet) tracedSession 0 5).1.ctl.2
        = ⟨construct_fs3_cmdblock FS3_OP_RDSECT 5 0 0, true⟩ :: tracedSession.ctl.2 ∧
      Access FS3_OP_WRSECT 1 0 tracedSession.ctl.2
        (writeSector (traced faithfulNet) tracedSession 1 0 [1, 2]).1.ctl.2 ∧
      (writeSector (traced faithfulNet) tracedSession 1 0 [1, 2]).1.ctl.2
        = ⟨construct_fs3_cmdblock FS3_OP_WRSECT 0 0 0, true⟩ :: ⟨seekCmd 1, true⟩ ::
            tracedSession.ctl.2 :=
  have hinv : TraceInv tracedSession := ⟨by decide, by decide⟩
  ⟨⟨by decide, by decide, by decide, by decide, by decide⟩,
   (seek_precedes_sector_access demoGeometry faithfulNet tracedSession 0 5 [] (by decide)
     (by decide) (by decide) (by decide)).1 ⟨blankController, sessionOps, rfl⟩,
   ((seek_precedes_sector_access demoGeometry faithfulNet tracedSession 0 5 [] (by decide)
     (by decide) (by decide) (by decide)).2 hinv).1.2,
   by decide,
   ((seek_precedes_sector_access demoGeometry faithfulNet tracedSession 1 0 [1, 2] (by decide)
     (by decide) (by decide) (by decide)).2 hinv).2.2,
   by decide⟩

set_option maxRecDepth 100000 in
/-- Claim C30 (code defect): a write can return `count` without sending every sector it
touches.  On every disk geometry the write of 131072 bytes at position 0 of the new file
"a.txt" touches 128 sectors and returns 131072, but the number of sectors to add, kept in
an `int8_t`, wraps to -128: no sector is allocated and the controller receives no command
at all after the mount command.  On the disk with a single sector the write of 2000 bytes
touches the sectors 0 and 1 of the file and returns 2000; the return value of
`findFreeLoc` is not looked at, and the controller receives (newest first: write sector 0,
read sector 0, seek track 0, mount) one write-sector command, not two. -/
theorem successful_write_skips_sectors (g : Geometry) :
    (ceilDiv1024 (0 + 131072) - 0 / 1024 = 128 ∧
        (fs3_write g faithfulNet afterOpen.1 1 bigBuf 131072).2 = 131072 ∧
        afterOpen.1.ctl.log = [construct_fs3_cmdblock FS3_OP_MOUNT 0 0 0] ∧
        (fs3_write g faithfulNet afterOpen.1 1 bigBuf 131072).1.ctl.log = afterOpen.1.ctl.log ∧
        writeSectorCount (fs3_write g faithfulNet afterOpen.1 1 bigBuf 131072).1.ctl.log = 0) ∧
      (tinyOpen.1.oftable 0).ofpos = 0 ∧
      ceilDiv1024 (0 + 2000) - 0 / 1024 = 2 ∧
      tinyWrite.2 = 2000 ∧
      tinyWrite.1.ctl.log =
        [construct_fs3_cmdblock FS3_OP_WRSECT 0 0 0, construct_fs3_cmdblock FS3_OP_RDSECT 0 0 0,
         construct_fs3_cmdblock FS3_OP_TSEEK 0 0 0, construct_fs3_cmdblock FS3_OP_MOUNT 0 0 0] ∧
      writeSectorCount tinyWrite.1.ctl.log = 1 ∧
      tinyWrite.1.ctl.disk 0 0 = fileBytes.take 1024 := by
  have hl : writeLoop faithfulNet 0 128 0 (allAddrs g) (bigLoopStart g) = bigLoopStart g := by
    apply writeLoop_nothing_owned
    intro a _
    show (0 : Nat) ≠ 1
    decide
  rw [bigWrite_unfold, hl]
  refine ⟨⟨by decide, rfl, by decide, rfl, ?_⟩, by decide, by decide, by decide,
    by decide, by decide, by decide⟩
  show writeSectorCount afterOpen.1.ctl.log = 0
  decide

/-! ## Repeated reads, allocation, track switches, cache structure and reads past the end -/

/-- Claim C32 (first-fit allocation): `findFreeLoc` fails exactly when no entry of the
allocation map inside the geometry is free, and then returns the map and the two indices
as they were.  Otherwise it returns 0 for a free address (t, s) of the geometry that comes
before or at every other free address in increasing (track, sector) order; the new map has
entry (t, s) set to 1 and every other entry as before, and the indices returned are `t`
and `s` as `int16_t`, that is `t` and `s` themselves when they are below 2^15. -/
theorem first_fit (g : Geometry) (globalLoc : Nat → Nat → Int) (trkidx secidx : Int) :
    ((findFreeLoc g globalLoc trkidx secidx).2.1 = -1 ↔
        ∀ t s, t < g.FS3_MAX_TRACKS → s < g.FS3_TRACK_SIZE → globalLoc t s ≠ 0) ∧
      ((findFreeLoc g globalLoc trkidx secidx).2.1 = -1 →
        findFreeLoc g globalLoc trkidx secidx = (globalLoc, -1, trkidx, secidx)) ∧
      ((findFreeLoc g globalLoc trkidx secidx).2.1 ≠ -1 →
        ∃ (t s : Nat), t < g.FS3_MAX_TRACKS ∧ s < g.FS3_TRACK_SIZE ∧ globalLoc t s = 0 ∧
          (∀ t' s', t' < g.FS3_MAX_TRACKS → s' < g.FS3_TRACK_SIZE → globalLoc t' s' = 0 →
            t < t' ∨ (t = t' ∧ s ≤ s')) ∧
          (findFreeLoc g globalLoc trkidx secidx).2.1 = 0 ∧
          (findFreeLoc g globalLoc trkidx secidx).2.2 = (toInt16 t, toInt16 s) ∧
          (t < 2 ^ 15 → s < 2 ^ 15 →
            (findFreeLoc g globalLoc trkidx secidx).2.2 = ((t : Int), (s : Int))) ∧
          (findFreeLoc g globalLoc trkidx secidx).1 t s = 1 ∧
          ∀ t' s', ¬ (t' = t ∧ s' = s) →
            (findFreeLoc g globalLoc trkidx secidx).1 t' s' = globalLoc t' s') := by
  rcases firstFree_grid g globalLoc g.FS3_MAX_TRACKS 0 with
    ⟨t, s, h1, _, h3, h4, h5, h6⟩ | ⟨h1, h2⟩
  · have hf : findFreeLoc g globalLoc trkidx secidx
        = (setLoc globalLoc (t : Int) (s : Int) 1, 0, toInt16 t, toInt16 s) := by
      unfold findFreeLoc allAddrs
      rw [h1]
    rw [hf]
    refine ⟨⟨fun h => ?_, fun h => ?_⟩, fun h => ?_, fun _ => ?_⟩
    · have hneg : (0 : Int) = -1 := h
      exact absurd hneg (by decide)
    · exact absurd h5 (h t s (by omega) h4)
    · have hneg : (0 : Int) = -1 := h
      exact absurd hneg (by decide)
    · refine ⟨t, s, by omega, h4, h5, ?_, rfl, rfl, ?_, ?_, ?_⟩
      · intro t' s' a b c
        exact h6 t' s' (Nat.zero_le _) (by omega) b c
      · intro ht hs
        show (toInt16 t, toInt16 s) = _
        rw [toInt16_of_lt t ht, toInt16_of_lt s hs]
      · show setLoc globalLoc (t : Int) (s : Int) 1 t s = 1
        unfold setLoc
        rw [if_pos ⟨Int.ofNat_zero_le t, Int.ofNat_zero_le s, rfl, rfl⟩]
      · intro t' s' hne
        show setLoc globalLoc (t : Int) (s : Int) 1 t' s' = _
        unfold setLoc
        rw [if_neg]
        rintro ⟨_, _, e1, e2⟩
        exact hne ⟨by omega, by omega⟩
  · have hf : findFreeLoc g globalLoc trkidx secidx = (globalLoc, -1, trkidx, secidx) := by
      unfold findFreeLoc allAddrs
      rw [h1]
    rw [hf]
    refine ⟨⟨fun _ t s a b => h2 t s (Nat.zero_le _) (by omega) b, fun _ => rfl⟩,
      fun _ => rfl, fun h => absurd rfl h⟩

set_option maxRecDepth 100000 in
/-- Witness of `first_fit`: after the write of 2000 bytes the entries (0, 0) and (0, 1) are
in use and `findFreeLoc` hands out (0, 2); on the one-sector disk after the write nothing
is free and `findFreeLoc` fails. -/
theorem first_fit_witness :
    ((findFreeLoc demoGeometry afterWrite.1.globalLoc (-1) (-1)).2.1 ≠ -1 ∧
        (findFreeLoc tinyGeometry tinyWrite.1.globalLoc 5 6).2.1 = -1) ∧
      (findFreeLoc demoGeometry afterWrite.1.globalLoc (-1) (-1)).2 = (0, 0, 2) ∧
      (∃ (t s : Nat), t < demoGeometry.FS3_MAX_TRACKS ∧ s < demoGeometry.FS3_TRACK_SIZE ∧
        afterWrite.1.globalLoc t s = 0 ∧
        (∀ t' s', t' < demoGeometry.FS3_MAX_TRACKS → s' < demoGeometry.FS3_TRACK_SIZE →
          afterWrite.1.globalLoc t' s' = 0 → t < t' ∨ (t = t' ∧ s ≤ s')) ∧
        (findFreeLoc demoGeometry afterWrite.1.globalLoc (-1) (-1)).2.2
          = (toInt16 t, toInt16 s)) ∧
      findFreeLoc tinyGeometry tinyWrite.1.globalLoc 5 6 = (tinyWrite.1.globalLoc, -1, 5, 6) ∧
      (∀ t s, t < tinyGeometry.FS3_MAX_TRACKS → s < tinyGeometry.FS3_TRACK_SIZE →
        tinyWrite.1.globalLoc t s ≠ 0) :=
  have h := (first_fit demoGeometry afterWrite.1.globalLoc (-1) (-1)).2.2 (by decide)
  have h2 := first_fit tinyGeometry tinyWrite.1.globalLoc 5 6
  ⟨⟨by decide, by decide⟩, by decide,
   h.elim (fun t ht => ht.elim (fun s hs =>
     ⟨t, s, hs.1, hs.2.1, hs.2.2.1, hs.2.2.2.1, hs.2.2.2.2.2.1⟩)),
   h2.2.1 (by decide), h2.1.mp (by decide)⟩

/-- Claim C33 (no redundant seeks), with the transport calls traced.  `switchTrack(trk)` on
the current track returns 0 and the globals as they were: no call is made.  On another
track it makes exactly one call, with the seek-track command for `trk`; when the call does
not return -1 and the returned status is 0, it returns 0 and the only other change is that
the current track becomes `trk`; otherwise it returns -1 and the current track is
unchanged. -/
theorem switch_only_on_change {σ : Type} (net : Transport σ)
    (st : DriverState (σ × List Sent)) (trk : Nat) :
    ((trk : Int) = st.curTrk → switchTrack (traced net) st trk = (st, 0)) ∧
      ((trk : Int) ≠ st.curTrk →
        ((retOf (net.syscall st.ctl.1 (seekCmd trk) []).2.2.1 = 0 ∧
            (net.syscall st.ctl.1 (seekCmd trk) []).2.1 ≠ -1) →
          switchTrack (traced net) st trk =
            ({ st with ctl := ((net.syscall st.ctl.1 (seekCmd trk) []).1,
                          Sent.mk (seekCmd trk) true :: st.ctl.2),
                       curTrk := (trk : Int) }, 0)) ∧
        (¬ (retOf (net.syscall st.ctl.1 (seekCmd trk) []).2.2.1 = 0 ∧
            (net.syscall st.ctl.1 (seekCmd trk) []).2.1 ≠ -1) →
          switchTrack (traced net) st trk =
            ({ st with ctl := ((net.syscall st.ctl.1 (seekCmd trk) []).1,
                          Sent.mk (seekCmd trk) false :: st.ctl.2) }, -1) ∧
          (switchTrack (traced net) st trk).1.curTrk = st.curTrk)) := by
  refine ⟨fun h => ?_, fun h => ?_⟩
  · unfold switchTrack
    rw [if_neg (fun hne => hne h)]
  · have hsw : switchTrack (traced net) st trk =
        if retOf (net.syscall st.ctl.1 (seekCmd trk) []).2.2.1 ≠ 0 ∨
            (net.syscall st.ctl.1 (seekCmd trk) []).2.1 = -1 then
          ({ st with ctl := ((net.syscall st.ctl.1 (seekCmd trk) []).1, Sent.mk (seekCmd trk)
                (decide (¬ (retOf (net.syscall st.ctl.1 (seekCmd trk) []).2.2.1 ≠ 0 ∨
                  (net.syscall st.ctl.1 (seekCmd trk) []).2.1 = -1))) :: st.ctl.2) }, -1)
        else
          ({ st with ctl := ((net.syscall st.ctl.1 (seekCmd trk) []).1, Sent.mk (seekCmd trk)
                (decide (¬ (retOf (net.syscall st.ctl.1 (seekCmd trk) []).2.2.1 ≠ 0 ∨
                  (net.syscall st.ctl.1 (seekCmd trk) []).2.1 = -1))) :: st.ctl.2),
                     curTrk := (trk : Int) }, 0) := by
      unfold switchTrack
      rw [if_pos h, Int.toNat_ofNat]
      rfl
    rw [hsw]
    generalize net.syscall st.ctl.1 (seekCmd trk) [] = r
    by_cases hf : retOf r.2.2.1 ≠ 0 ∨ r.2.1 = -1
    · have hd : decide (¬ (retOf r.2.2.1 ≠ 0 ∨ r.2.1 = -1)) = false := by simp [hf]
      rw [if_pos hf, hd]
      refine ⟨fun hok => ?_, fun _ => ⟨rfl, rfl⟩⟩
      rcases hf with h1 | h1
      · exact absurd hok.1 h1
      · exact absurd h1 hok.2
    · have hd : decide (¬ (retOf r.2.2.1 ≠ 0 ∨ r.2.1 = -1)) = true := by simp [hf]
      rw [if_neg hf, hd]
      refine ⟨fun _ => rfl, fun hbad => ?_⟩
      exfalso
      apply hbad
      constructor
      · by_contra h1
        exact hf (Or.inl h1)
      · intro h1
        exact hf (Or.inr h1)

set_option maxRecDepth 100000 in
/-- Witness of `switch_only_on_change`: after the write of 2000 bytes the head is on track
0; a switch to track 0 changes nothing, a switch to track 1 over the faithful transport
adds one successful seek to the trace and moves the head, and over the transport whose
seek to track 1 fails it adds one failed seek and leaves the head. -/
theorem switch_only_on_change_witness :
    (tracedSession.curTrk = 0 ∧
        (runDriver twoTracks (traced stuckNet) tracedStart stuckOps).curTrk = 0) ∧
      switchTrack (traced faithfulNet) tracedSession (0 : Nat) = (tracedSession, 0) ∧
      ((switchTrack (traced faithfulNet) tracedSession (1 : Nat)).2 = 0 ∧
        (switchTrack (traced faithfulNet) tracedSession (1 : Nat)).1.curTrk = 1 ∧
        (switchTrack (traced faithfulNet) tracedSession (1 : Nat)).1.ctl.2
          = Sent.mk (seekCmd 1) true :: tracedSession.ctl.2) ∧
      ((switchTrack (traced stuckNet)
          (runDriver twoTracks (traced stuckNet) tracedStart stuckOps) (1 : Nat)).2 = -1 ∧
        (switchTrack (traced stuckNet)
          (runDriver twoTracks (traced stuckNet) tracedStart stuckOps) (1 : Nat)).1.curTrk = 0) :=
  have h1 := ((switch_only_on_change faithfulNet tracedSession 1).2 (by decide)).1 (by decide)
  have h2 := ((switch_only_on_change stuckNet
    (runDriver twoTracks (traced stuckNet) tracedStart stuckOps) 1).2 (by decide)).2 (by decide)
  ⟨⟨by decide, by decide⟩, (switch_only_on_change faithfulNet tracedSession 0).1 (by decide),
   ⟨by rw [h1], by rw [h1]; rfl, by rw [h1]⟩, ⟨by rw [h2.1], by rw [h2.2]; decide⟩⟩

/-- Claim C35 (opcode and status decode exactly): for every word `w`, the opcode that
`deconstruct_fs3_cmdblock` yields is bits 60-63 of `w` and the status is bit 11 of `w`.
So for fields within their widths the word built by `construct_fs3_cmdblock` decodes to
the opcode and the status it was built from, whatever the sector and the track are; the
status is what the driver reads with `retOf`. -/
theorem opcode_and_status_decode (w op sec trk ret : Nat) (hop : op < 16)
    (hsec : sec < 2 ^ 16) (htrk : trk < 2 ^ 32) (hret : ret < 2) :
    (deconstruct_fs3_cmdblock w).1 = w / 2 ^ 60 % 2 ^ 4 ∧
      (deconstruct_fs3_cmdblock w).2.2.2 = w / 2 ^ 11 % 2 ∧
      (deconstruct_fs3_cmdblock (construct_fs3_cmdblock op sec trk ret)).1 = op ∧
      (deconstruct_fs3_cmdblock (construct_fs3_cmdblock op sec trk ret)).2.2.2 = ret ∧
      retOf (construct_fs3_cmdblock op sec trk ret) = ret := by
  have hopc : ∀ v : Nat, (deconstruct_fs3_cmdblock v).1 = v / 2 ^ 60 % 2 ^ 4 := by
    intro v
    have hm : (0xf000000000000000 : Nat) = (2 ^ 4 - 1) <<< 60 := by decide
    show (v &&& 0xf000000000000000) >>> 60 % 2 ^ 8 = _
    rw [hm, and_shiftLeft_shiftRight, Nat.and_pow_two_sub_one_eq_mod,
      Nat.shiftRight_eq_div_pow]
    omega
  have hst : ∀ v : Nat, (deconstruct_fs3_cmdblock v).2.2.2 = v / 2 ^ 11 % 2 := by
    intro v
    have hm : (0x0000000000000800 : Nat) = (2 ^ 1 - 1) <<< 11 := by decide
    show (v &&& 0x0000000000000800) >>> 11 % 2 ^ 8 = _
    rw [hm, and_shiftLeft_shiftRight, Nat.and_pow_two_sub_one_eq_mod,
      Nat.shiftRight_eq_div_pow]
    omega
  have hsum := construct_sum_ret op sec trk ret hop hsec htrk hret
  refine ⟨hopc w, hst w, ?_, ?_, ?_⟩
  · rw [hopc, hsum]; omega
  · rw [hst, hsum]; omega
  · show (deconstruct_fs3_cmdblock (construct_fs3_cmdblock op sec trk ret)).2.2.2 = ret
    rw [hst, hsum]; omega

/-- Witness of `opcode_and_status_decode`: the word of (op 3, sector 5, track 7, status 1),
whose sector and track do not decode (they come back as 0 and 2^32 + 6). -/
theorem opcode_and_status_decode_witness :
    ((3 : Nat) < 16 ∧ (5 : Nat) < 2 ^ 16 ∧ (7 : Nat) < 2 ^ 32 ∧ (1 : Nat) < 2) ∧
      (deconstruct_fs3_cmdblock (construct_fs3_cmdblock 3 5 7 1)).1 = 3 ∧
      (deconstruct_fs3_cmdblock (construct_fs3_cmdblock 3 5 7 1)).2.2.2 = 1 ∧
      retOf (construct_fs3_cmdblock 3 5 7 1) = 1 :=
  have h := opcode_and_status_decode 0 3 5 7 1 (by decide) (by decide) (by decide) (by decide)
  ⟨⟨by decide, by decide, by decide, by decide⟩, h.2.2.1, h.2.2.2.1, h.2.2.2.2⟩

/-- Claim C39 (read is a frame): `fs3_read`, whatever it returns, leaves every open-table
entry (cursor, length, sector count, bitmap, handle), every permanent record, the
allocation map, the mount state and the counters of `fs3_open` as they were; only the
head position, the cache and the other side of the transport can differ.  So the same
handle resolves to the same entry with the same cursor for the next read. -/
theorem read_keeps_tables {σ : Type} (g : Geometry) (net : Transport σ) (st : DriverState σ)
    (fd : Int) (count : Nat) :
    (fs3_read g net st fd count).1.oftable = st.oftable ∧
      (fs3_read g net st fd count).1.ftable = st.ftable ∧
      (fs3_read g net st fd count).1.globalLoc = st.globalLoc ∧
      (fs3_read g net st fd count).1.mountState = st.mountState ∧
      (fs3_read g net st fd count).1.freeOFile = st.freeOFile ∧
      (fs3_read g net st fd count).1.freeFile = st.freeFile ∧
      (fs3_read g net st fd count).1.freeHandle = st.freeHandle ∧
      (∀ fd2, idxByHandle (fs3_read g net st fd count).1 fd2 = idxByHandle st fd2) ∧
      (∀ i, ((fs3_read g net st fd count).1.oftable i).ofpos = (st.oftable i).ofpos) := by
  obtain ⟨h1, h2, h3, h4, h5, h6, h7⟩ := fs3_read_same g net st fd count
  exact ⟨h1, h2, h4, h3, h5, h6, h7, fun fd2 => idxByHandle_congr st _ fd2 h1 h2,
    fun i => by rw [h1]⟩

/-- Claim C34 (code defect): the capacity is kept in the `int16_t` global `cacheSize`.
`fs3_init_cache(32768)` returns 0 and allocates 32768 lines, all with the sentinel stamp,
which is below the clock 0; but the recorded size is -32768, so `fs3_lru_idx` walks no
line and returns -1, and `fs3_put_cache` on this initialised cache fails. -/
theorem put_fails_with_32768_lines :
    (fs3_init_cache cacheStart 32768).2 = 0 ∧
      halfRangeCache.cache = some (List.replicate 32768 emptyLine) ∧
      halfRangeCache.cacheSize = -32768 ∧
      halfRangeCache.nextAccess = 0 ∧
      (∀ l ∈ List.replicate 32768 emptyLine, l.lastAccess < halfRangeCache.nextAccess) ∧
      fs3_lru_idx (List.replicate 32768 emptyLine) halfRangeCache.nextAccess
        halfRangeCache.cacheSize = -1 ∧
      (fs3_put_cache halfRangeCache 0 0 payloadA).2 = -1 := by
  refine ⟨by decide, rfl, by decide, by decide, ?_, by decide, by decide⟩
  intro l hl
  rw [List.eq_of_mem_replicate hl]
  decide

set_option maxRecDepth 100000 in
/-- Claim C36 (code defect): when a new file is created `fs3_open` writes the state
"opened" into `ftable[freeOFile]` instead of `ftable[freeFile]`, so "b.txt" could be opened
twice (handles 3 and 4); one byte was written through handle 4.  `fs3_unmount_disk` on
this mounted driver returns 0.  Its loop closes handle 3, which marks the record of
"b.txt" closed with the length 0 of handle 3; the close of handle 4 then fails on the
closed record.  Afterwards the open-table entry 3 still holds handle 4 with length 1024
and the address (0, 0), `fs3_seek(4, 0)` succeeds, and the record of "b.txt" has length 0
and an empty bitmap. -/
theorem unmount_leaves_second_handle :
    doubleOpen.2 = 1 ∧ doubleOpen.1.mountState = "mounted" ∧
      (idxByHandle doubleOpen.1 3 = (0, 2, 1) ∧ idxByHandle doubleOpen.1 4 = (0, 3, 1) ∧
        (doubleOpen.1.ftable 1).fname = "b.txt" ∧
        (doubleOpen.1.oftable 2).oflength = 0 ∧ (doubleOpen.1.oftable 3).oflength = 1024) ∧
      doubleOpenEnd.2 = 0 ∧ doubleOpenEnd.1.mountState = "unmounted" ∧
      (doubleOpenEnd.1.oftable 3).ofhandle = 4 ∧
      idxByHandle doubleOpenEnd.1 4 = (0, 3, 1) ∧
      (fs3_seek doubleOpenEnd.1 4 0).2 = 0 ∧
      (fs3_close doubleOpenEnd.1 4).2 = -1 ∧
      (doubleOpenEnd.1.oftable 3).oflength = 1024 ∧
      (doubleOpenEnd.1.oftable 3).ofloc 0 0 = 1 ∧
      (doubleOpenEnd.1.ftable 1).fstate = "closed" ∧
      (doubleOpenEnd.1.ftable 1).flength = 0 ∧
      (doubleOpenEnd.1.ftable 1).floc 0 0 = 0 := by
  decide

set_option maxRecDepth 100000 in
/-- Claim C37 (code defect): `fs3_mount_disk` clears the allocation map and the first
`FS3_MAX_TRACKS` permanent records only.  On a disk of one track with four sectors the
record of "b.txt" (index 1) survives unmount and mount with the address (0, 1) in its
bitmap, while the allocation map is empty.  After `fs3_open("b.txt")` = 3 the first byte of
the file reads 2.  Appending one byte at position 1024 makes `findFreeLoc` hand out (0, 0),
which is below the address (0, 1) the file already has: the bitmap becomes {(0, 0), (0, 1)},
the old sector 0 of the file is now its sector 1 and receives the appended byte, and the
first byte of the file reads 1, a byte of the former "a.txt". -/
theorem growth_after_remount_renumbers_sectors :
    regrowStart.mountState = "mounted" ∧ idxByHandle regrowStart 3 = (0, 2, 1) ∧
      ((regrowStart.oftable 2).numsec = 1 ∧ (regrowStart.oftable 2).ofloc 0 0 = 0 ∧
        (regrowStart.oftable 2).ofloc 0 1 = 1) ∧
      (regrowStart.globalLoc 0 0 = 0 ∧ regrowStart.globalLoc 0 1 = 0) ∧
      (fs3_read oneTrack faithfulNet regrowStart 3 1).2 = (1, [2]) ∧
      (findFreeLoc oneTrack (fs3_seek regrowStart 3 1024).1.globalLoc (-1) (-1)).2 = (0, 0, 0) ∧
      regrown.2 = 1 ∧
      ((regrown.1.oftable 2).numsec = 2 ∧ (regrown.1.oftable 2).ofloc 0 0 = 1 ∧
        (regrown.1.oftable 2).ofloc 0 1 = 1) ∧
      (regrown.1.globalLoc 0 0 = 1 ∧ regrown.1.globalLoc 0 1 = 0) ∧
      (fs3_read oneTrack faithfulNet (fs3_seek regrown.1 3 0).1 3 1).2 = (1, [1]) ∧
      (fs3_read oneTrack faithfulNet (fs3_seek regrown.1 3 1024).1 3 1).2 = (1, [5]) := by
  decide

/-- Claim C38 (cache structural invariant), for a geometry of at most 2^15 tracks and
2^15 sectors a track (the range of the `int16_t` address fields of a line) and fewer than
2^31 cache operations (so that the `int32_t` clock and counters, which an operation
raises by at most one, never exceed `INT32_MAX`): after any such sequence of cache
operations from process start whose put and get addresses lie inside the geometry, two
different lines with the same address are both unused lines as initialised (stamp -1), so
no two lines in use hold the same (track, sector) address; the item counter is the number
of lines whose stamp is not the sentinel; every such line has a payload; the item counter
does not exceed the number of lines; and the clock and the counters are within the range
of `int32_t`. -/
theorem cache_structure (g : Geometry) (hg1 : g.FS3_MAX_TRACKS ≤ 2 ^ 15)
    (hg2 : g.FS3_TRACK_SIZE ≤ 2 ^ 15) (ops : List CacheOp)
    (hlen : ops.length < 2 ^ 31)
    (hops : ∀ op ∈ ops, CacheOp.inGeometry g op = true) (lines : List FS3Cache)
    (hc : (runCache cacheStart ops).cache = some lines) :
    (∀ (i j : Nat) (li lj : FS3Cache), i ≠ j → lines[i]? = some li → lines[j]? = some lj →
        lineAddr li = lineAddr lj →
        (li = emptyLine ∧ lj = emptyLine) ∧ li.lastAccess = -1 ∧ lj.lastAccess = -1) ∧
      (runCache cacheStart ops).cacheItems
        = ((lines.countP (fun l => decide (l.lastAccess ≠ -1)) : Nat) : Int) ∧
      (∀ l ∈ lines, l.lastAccess ≠ -1 → l.dataBuf.isSome = true) ∧
      (runCache cacheStart ops).cacheItems ≤ (lines.length : Int) ∧
      countersWithin INT32_MAX (runCache cacheStart ops) = true := by
  have hfit : countersWithin INT32_MAX (runCache cacheStart ops) = true := by
    refine countersWithin_mono ?_ (countersWithin_start ops)
    unfold INT32_MAX
    omega
  have hinv : CacheInv (runCache cacheStart ops) := inv_runCache ops _ inv_start
  have hit : ItemsInv (runCache cacheStart ops) :=
    items_runCache ops _ inv_start ⟨fun _ => rfl, fun lines h => by cases h⟩
  have hadd : AddrInv (runCache cacheStart ops) :=
    addr_runCache g hg1 hg2 ops _ inv_start (fun lines h => by cases h) hops
  obtain ⟨ha, hb⟩ := hadd lines hc
  obtain ⟨_, hok, _⟩ := hinv.2 lines hc
  have hcount : usedLines lines = lines.countP (fun l => decide (l.lastAccess ≠ -1)) := by
    unfold usedLines
    congr 1
    funext l
    simp [lineUnused]
  refine ⟨?_, ?_, ?_, ?_, hfit⟩
  · intro i j li lj hij hi hj haddr
    have hmi : li ∈ lines := List.mem_iff_getElem?.mpr ⟨i, hi⟩
    have hmj : lj ∈ lines := List.mem_iff_getElem?.mpr ⟨j, hj⟩
    have h1 : li.ctrk = lj.ctrk := congrArg Prod.fst haddr
    have hboth : li = emptyLine ∧ lj = emptyLine := by
      by_cases hei : li = emptyLine
      · refine ⟨hei, ?_⟩
        rcases ha lj hmj with he | ⟨h0, _⟩
        · exact he
        · rw [hei] at h1
          have h2 : (-1 : Int) = lj.ctrk := h1
          omega
      · by_cases hej : lj = emptyLine
        · rcases ha li hmi with he | ⟨h0, _⟩
          · exact absurd he hei
          · rw [hej] at h1
            have h2 : li.ctrk = (-1 : Int) := h1
            omega
        · exact absurd haddr (hb i j li lj hij hi hj hei hej)
    refine ⟨hboth, ?_, ?_⟩
    · rw [hboth.1]; rfl
    · rw [hboth.2]; rfl
  · rw [hit.2 lines hc, hcount]
  · intro l hl hused
    refine (hasBuf_of_ok (hok l hl) ?_).2
    intro he
    rw [he] at hused
    exact hused rfl
  · rw [hit.2 lines hc]
    have := List.countP_le_length (fun l => !lineUnused l) (l := lines)
    unfold usedLines
    omega

set_option maxRecDepth 100000 in
/-- Witness of `cache_structure`: the two-line cache after two insertions and a lookup. -/
theorem cache_structure_witness :
    (lruOps.length < 2 ^ 31 ∧ (runCache cacheStart lruOps).cache = some lruLines) ∧
      (∀ (i j : Nat) (li lj : FS3Cache), i ≠ j → lruLines[i]? = some li →
        lruLines[j]? = some lj → lineAddr li = lineAddr lj →
        (li = emptyLine ∧ lj = emptyLine) ∧ li.lastAccess = -1 ∧ lj.lastAccess = -1) ∧
      (runCache cacheStart lruOps).cacheItems
        = ((lruLines.countP (fun l => decide (l.lastAccess ≠ -1)) : Nat) : Int) ∧
      (∀ l ∈ lruLines, l.lastAccess ≠ -1 → l.dataBuf.isSome = true) ∧
      (runCache cacheStart lruOps).cacheItems ≤ (lruLines.length : Int) ∧
      countersWithin INT32_MAX (runCache cacheStart lruOps) = true :=
  ⟨⟨by decide, by decide⟩,
   cache_structure demoGeometry (by decide) (by decide) lruOps (by decide) (by decide) lruLines
     (by decide)⟩

/-- Reading past the allocated sectors: on a handle that resolves to an open
file, for every count, `fs3_read` reads with `readSector` exactly the sectors of the read
plan: addresses the file owns, at most `numToRead` of them and no more than the file owns
from the cursor's sector on, so that no transport call is made for a sector the file does
not have.  The call returns `count` unless one of these sector reads fails (then -1), how
few sectors the plan may hold; the returned bytes beyond the payloads of the sectors read
are all zero.  When the plan is empty (a file with no sector at or after the cursor's
sector) the globals are unchanged and the bytes are those of the zeroed buffer, `count`
zero bytes when `count` needs fewer than 2^15 sectors. -/
theorem read_past_allocation {σ : Type} (g : Geometry) (net : Transport σ)
    (st : DriverState σ) (fd : Int) (count : Nat) (h1 : (idxByHandle st fd).2.1 ≠ -1)
    (h2 : (idxByHandle st fd).2.2 ≠ -1) (h3 : (idxByHandle st fd).1 ≠ -1)
    (h4 : (st.ftable (idxByHandle st fd).2.2.toNat).fstate = "opened") :
    (fs3_read g net st fd count).1
        = (readAll net (readPlan g (st.oftable (idxByHandle st fd).2.1.toNat) count) st
            (readBuf count) 0).1 ∧
      ((readAll net (readPlan g (st.oftable (idxByHandle st fd).2.1.toNat) count) st
            (readBuf count) 0).2 ≠ none →
        (fs3_read g net st fd count).2.1 = (count : Int)) ∧
      ((readAll net (readPlan g (st.oftable (idxByHandle st fd).2.1.toNat) count) st
            (readBuf count) 0).2 = none →
        (fs3_read g net st fd count).2.1 = -1) ∧
      (∀ a ∈ readPlan g (st.oftable (idxByHandle st fd).2.1.toNat) count,
        (st.oftable (idxByHandle st fd).2.1.toNat).ofloc a.1 a.2 = 1 ∧
          a.1 < g.FS3_MAX_TRACKS ∧ a.2 < g.FS3_TRACK_SIZE) ∧
      (readPlan g (st.oftable (idxByHandle st fd).2.1.toNat) count).length
        ≤ (toInt16 (ceilDiv1024 count)).toNat ∧
      (readPlan g (st.oftable (idxByHandle st fd).2.1.toNat) count).length
        ≤ ((allAddrs g).filter (fun a =>
              decide ((st.oftable (idxByHandle st fd).2.1.toNat).ofloc a.1 a.2 = 1))).length
            - (st.oftable (idxByHandle st fd).2.1.toNat).ofpos / FS3_SECTOR_SIZE ∧
      ((fs3_read g net st fd count).2.1 = (count : Int) →
        ∀ x ∈ (fs3_read g net st fd count).2.2.drop
            ((readPlan g (st.oftable (idxByHandle st fd).2.1.toNat) count).length
              * FS3_SECTOR_SIZE), x = 0) ∧
      (readPlan g (st.oftable (idxByHandle st fd).2.1.toNat) count = [] →
        fs3_read g net st fd count = (st, (count : Int), (readBuf count).take count) ∧
        (ceilDiv1024 count < 2 ^ 15 →
          fs3_read g net st fd count = (st, (count : Int), List.replicate count 0))) := by
  have hplan := fs3_read_plan g net st fd count h1 h2 h3 h4
  obtain ⟨p1, p2, p3⟩ := readPlan_spec g (st.oftable (idxByHandle st fd).2.1.toNat) count
  have hzero : ∀ x ∈ (readBuf count).drop 0, x = 0 := by
    intro x hx
    exact List.eq_of_mem_replicate (List.mem_of_mem_drop hx)
  have htail := readAll_tail net (readPlan g (st.oftable (idxByHandle st fd).2.1.toNat) count)
    st (readBuf count) 0
  have hempty : readPlan g (st.oftable (idxByHandle st fd).2.1.toNat) count = [] →
      fs3_read g net st fd count = (st, (count : Int), (readBuf count).take count) := by
    intro he
    rw [hplan, he]
    rfl
  generalize readAll net (readPlan g (st.oftable (idxByHandle st fd).2.1.toNat) count) st
    (readBuf count) 0 = R at hplan htail
  obtain ⟨st1, ob⟩ := R
  refine ⟨?_, ?_, ?_, p1, p2, p3, ?_, fun he => ⟨hempty he, fun hc => ?_⟩⟩
  · rw [hplan]
    cases ob <;> rfl
  · intro hne
    rw [hplan]
    cases ob with
    | none => exact absurd rfl hne
    | some b => rfl
  · intro hn
    rw [hplan]
    cases ob with
    | none => rfl
    | some b => cases hn
  · intro hok
    rw [hplan] at hok ⊢
    cases ob with
    | none =>
      have hneg : (-1 : Int) = (count : Int) := hok
      omega
    | some b =>
      intro x hx
      have hx2 : x ∈ (b.take count).drop
          ((readPlan g (st.oftable (idxByHandle st fd).2.1.toNat) count).length
            * FS3_SECTOR_SIZE) := hx
      rw [List.drop_take] at hx2
      have hx3 := List.mem_of_mem_take hx2
      refine htail st1 b rfl hzero x ?_
      rw [Nat.zero_add]
      exact hx3
  · rw [hempty he]
    unfold readBuf
    rw [toInt16_of_lt _ hc, Int.toNat_ofNat, List.take_replicate]
    have hle : count ≤ ceilDiv1024 count * FS3_SECTOR_SIZE := by
      unfold ceilDiv1024 FS3_SECTOR_SIZE
      omega
    rw [Nat.min_eq_left hle]

set_option maxRecDepth 100000 in
/-- An instance of `read_past_allocation`: the file of `tinySeek` owns the only sector of the
disk; a read of 3000 bytes from position 0 needs three sectors and returns 3000. -/
theorem read_past_allocation_witness :
    ((idxByHandle tinySeek.1 1).2.1 ≠ -1 ∧ (idxByHandle tinySeek.1 1).2.2 ≠ -1 ∧
        (idxByHandle tinySeek.1 1).1 ≠ -1 ∧
        (tinySeek.1.ftable (idxByHandle tinySeek.1 1).2.2.toNat).fstate = "opened") ∧
      readPlan tinyGeometry (tinySeek.1.oftable (idxByHandle tinySeek.1 1).2.1.toNat) 3000
        = [(0, 0)] ∧
      (fs3_read tinyGeometry faithfulNet tinySeek.1 1 3000).2.1 = 3000 ∧
      (∀ x ∈ (fs3_read tinyGeometry faithfulNet tinySeek.1 1 3000).2.2.drop
          ((readPlan tinyGeometry
            (tinySeek.1.oftable (idxByHandle tinySeek.1 1).2.1.toNat) 3000).length
            * FS3_SECTOR_SIZE), x = 0) :=
  have h := read_past_allocation tinyGeometry faithfulNet tinySeek.1 1 3000
    (by decide) (by decide) (by decide) (by decide)
  ⟨⟨by decide, by decide, by decide, by decide⟩, by decide,
   h.2.1 (by decide), h.2.2.2.2.2.2.1 (h.2.1 (by decide))⟩

set_option maxRecDepth 100000 in
/-- Claim C40 (code defect): the number of sectors to read is kept in the `int16_t` local
`numToRead`.  After `afterSeek` the file of handle 1 has length 2048, owns the sectors
(0, 0) and (0, 1), and its cursor is 500.  For `fs3_read(1, buf, 33554432)`, a count of
32768 sectors, `numToRead` is -32768: the size computed for `readBuf` is negative (the
empty buffer here), the sector loop is not entered, so the read plan is empty and not even
the file's own sectors are read; the call still returns 33554432, with no byte to
deliver. -/
theorem read_of_32768_sectors_delivers_nothing :
    ceilDiv1024 33554432 = 32768 ∧ toInt16 (ceilDiv1024 33554432) = -32768 ∧
      toInt16 (ceilDiv1024 33554432) * FS3_SECTOR_SIZE = -33554432 ∧
      readBuf 33554432 = [] ∧
      idxByHandle afterSeek.1 1 = (0, 0, 0) ∧ (afterSeek.1.ftable 0).fstate = "opened" ∧
      (afterSeek.1.oftable 0).ofpos = 500 ∧ (afterSeek.1.oftable 0).oflength = 2048 ∧
      (afterSeek.1.oftable 0).ofloc 0 0 = 1 ∧ (afterSeek.1.oftable 0).ofloc 0 1 = 1 ∧
      readPlan demoGeometry (afterSeek.1.oftable 0) 33554432 = [] ∧
      (fs3_read demoGeometry faithfulNet afterSeek.1 1 33554432).2 = (33554432, []) := by
  decide

end FS3
